import Mathlib

/-!
Shallow embedding of the memory-management core of the TacOS kernel
(src/memory/{frame,paging,heap,virt}.rs) and proofs about it.

Modelling conventions:
* Machine integers (`u32` in the source) are `Nat`s; wherever the source's
  32-bit arithmetic can wrap we apply `% U32` explicitly, and theorems carry
  the `< U32` bounds that the Rust types impose on the corresponding values.
* Bit-level operations on values whose low bits are known are rendered
  arithmetically: `x & 0xFFFFF000` on a `u32` is `x % U32 / 4096 * 4096`,
  `x & 0xFFF` is `x % 4096`, `x | 1` is `2 * (x / 2) + 1`.
* The frame bitmap (one bit per frame, packed in a byte array in the source)
  is a function `Nat → Bool`, with the source's byte-index bounds check
  (`idx < BITMAP_SIZE`, i.e. `frame < MAX_FRAMES`) kept in each accessor.
* The page directory / page tables live in allocator-provided frames in the
  source; the claims never alias table frames with data, so the two-level
  structure is a map `Nat → Option (Nat → Nat)` from directory index to
  a table sending a table index to the raw 32-bit entry.  A `some` table
  corresponds exactly to a page-directory entry with the present bit, which
  is how the source creates and tests PDEs.
* Heap memory is a word map `Nat → Nat` from byte address to the 32-bit
  word stored there; block headers are the words at `a` (size) and `a + 4`
  (flags), exactly the `BlockHeader` layout.
* `kernel_panic!` becomes the `Except.error` branch of `Except String`.
-/

namespace TacOS

/-- 2^32, the modulus of the source's `u32` arithmetic. -/
def U32 : Nat := 4294967296

/-- PAGE_SIZE from src/memory/mod.rs. -/
def PAGE_SIZE : Nat := 4096

/-- `align_up` from src/memory/mod.rs: `(addr + align - 1) & !(align - 1)` on
`u32`; for a power-of-two `align` this is rounding the (wrapping) sum down to
a multiple of `align`. -/
def align_up (addr align : Nat) : Nat := (addr + align - 1) % U32 / align * align

/-- `align_down` from src/memory/mod.rs: `addr & !(align - 1)`. -/
def align_down (addr align : Nat) : Nat := addr / align * align

/-- Pointwise function update used to model single-cell stores. -/
def upd {α : Type} (f : Nat → α) (a : Nat) (v : α) : Nat → α :=
  fun x => if x = a then v else f x

theorem upd_same {α : Type} (f : Nat → α) (a : Nat) (v : α) : upd f a v a = v := by
  simp [upd]

theorem upd_other {α : Type} (f : Nat → α) (a : Nat) (v : α) {x : Nat} (h : x ≠ a) :
    upd f a v x = f x := by
  simp [upd, h]

/-! ## Frame allocator (src/memory/frame.rs) -/

/-- MAX_FRAMES: 4 GiB / 4 KiB. -/
def MAX_FRAMES : Nat := 1024 * 1024

/-- State of the frame allocator: the bitmap (true = used), TOTAL_FRAMES and
USED_FRAMES. -/
structure FrameState where
  bitmap : Nat → Bool
  totalFrames : Nat
  usedFrames : Nat

/-- `bitmap_set`: set the bit if the byte index is in bounds
(`frame / 8 < BITMAP_SIZE` iff `frame < MAX_FRAMES`). -/
def bitmap_set (bm : Nat → Bool) (frame : Nat) : Nat → Bool :=
  if frame < MAX_FRAMES then upd bm frame true else bm

/-- `bitmap_clear`: clear the bit if in bounds. -/
def bitmap_clear (bm : Nat → Bool) (frame : Nat) : Nat → Bool :=
  if frame < MAX_FRAMES then upd bm frame false else bm

/-- `bitmap_test`: out-of-range frames read as used. -/
def bitmap_test (bm : Nat → Bool) (frame : Nat) : Bool :=
  if frame < MAX_FRAMES then bm frame else true

/-- First frame `f` with `lo ≤ f < hi` whose bit is clear (the linear scans in
`alloc_frame`). -/
def findFree (bm : Nat → Bool) (lo hi : Nat) : Option Nat :=
  if h : lo < hi then
    if bitmap_test bm lo then findFree bm (lo + 1) hi else some lo
  else none
termination_by hi - lo

/-- `alloc_frame`: first-fit scan from frame 256 up to TOTAL_FRAMES, then the
frames below 256; returns the frame's physical address, `0` on failure. -/
def alloc_frame (s : FrameState) : Nat × FrameState :=
  match findFree s.bitmap 256 s.totalFrames with
  | some f =>
    (f * PAGE_SIZE,
     { s with bitmap := bitmap_set s.bitmap f, usedFrames := s.usedFrames + 1 })
  | none =>
    match findFree s.bitmap 0 256 with
    | some f =>
      (f * PAGE_SIZE,
       { s with bitmap := bitmap_set s.bitmap f, usedFrames := s.usedFrames + 1 })
    | none => (0, s)

/-- `free_frame`: panics on a misaligned address or a clear bit, otherwise
clears the bit and decrements USED_FRAMES (the source guards the decrement
with `USED_FRAMES > 0`, which is exactly truncated subtraction). -/
def free_frame (s : FrameState) (addr : Nat) : Except String FrameState :=
  if addr % PAGE_SIZE ≠ 0 then
    Except.error "free_frame: address not page-aligned"
  else if ¬ bitmap_test s.bitmap (addr / PAGE_SIZE) then
    Except.error "free_frame: double free detected"
  else
    Except.ok { s with bitmap := bitmap_clear s.bitmap (addr / PAGE_SIZE),
                       usedFrames := s.usedFrames - 1 }

/-- The inner window check of `alloc_frames`: first offset `i < count` with
the bit at `frame + i` set, `none` if the whole window is clear. -/
def scanWindow (bm : Nat → Bool) (frame count i : Nat) : Option Nat :=
  if h : i < count then
    if bitmap_test bm (frame + i) then some i else scanWindow bm frame count (i + 1)
  else none
termination_by count - i

/-- Mark `count` bits starting at `frame` (the success loop of
`alloc_frames`). -/
def markRun (bm : Nat → Bool) (frame count : Nat) : Nat → Bool :=
  match count with
  | 0 => bm
  | c + 1 => bitmap_set (markRun bm frame c) (frame + c)

theorem scanWindow_some_lt (bm : Nat → Bool) (frame count : Nat) :
    ∀ i j, scanWindow bm frame count i = some j → i ≤ j ∧ j < count := by
  suffices H : ∀ n i j, count - i = n → scanWindow bm frame count i = some j →
      i ≤ j ∧ j < count by
    exact fun i j h => H _ i j rfl h
  intro n
  induction n with
  | zero =>
    intro i j hn h
    unfold scanWindow at h
    rw [dif_neg (by omega)] at h
    exact absurd h (by simp)
  | succ n ih =>
    intro i j hn h
    unfold scanWindow at h
    rw [dif_pos (by omega)] at h
    by_cases hb : bitmap_test bm (frame + i) = true
    · rw [if_pos hb] at h
      cases h
      omega
    · rw [if_neg hb] at h
      have := ih (i + 1) j (by omega) h
      omega

/-- The outer scan of `alloc_frames`: advance past the used frame reported by
`scanWindow` until a fully clear window is found. -/
def allocScan (bm : Nat → Bool) (total count frame : Nat) : Option Nat :=
  if h : frame + count ≤ total then
    match hsw : scanWindow bm frame count 0 with
    | none => some frame
    | some i => allocScan bm total count (frame + i + 1)
  else none
termination_by total - frame
decreasing_by
  have hi := scanWindow_some_lt bm frame count 0 i hsw
  omega

/-- `alloc_frames count`: 0 on `count == 0`, `alloc_frame` on `count == 1`,
otherwise the first-fit contiguous scan starting at frame 256. -/
def alloc_frames (s : FrameState) (count : Nat) : Nat × FrameState :=
  if count = 0 then (0, s)
  else if count = 1 then alloc_frame s
  else
    match allocScan s.bitmap s.totalFrames count 256 with
    | some f =>
      (f * PAGE_SIZE,
       { s with bitmap := markRun s.bitmap f count, usedFrames := s.usedFrames + count })
    | none => (0, s)

/-- `reserve_frame`: idempotently force a frame to used. -/
def reserve_frame (s : FrameState) (addr : Nat) : FrameState :=
  let f := addr / PAGE_SIZE
  if ¬ bitmap_test s.bitmap f then
    { s with bitmap := bitmap_set s.bitmap f, usedFrames := s.usedFrames + 1 }
  else s

/-- `is_frame_used`. -/
def is_frame_used (s : FrameState) (addr : Nat) : Bool :=
  bitmap_test s.bitmap (addr / PAGE_SIZE)

/-- The per-region clearing loop of `init` (step 2). -/
def clearRange (bm : Nat → Bool) (lo hi : Nat) : Nat → Bool :=
  if h : lo < hi then clearRange (bitmap_clear bm lo) (lo + 1) hi else bm
termination_by hi - lo

/-- The low-memory / kernel marking loops of `init` (steps 3 and 4). -/
def setRange (bm : Nat → Bool) (lo hi : Nat) : Nat → Bool :=
  if h : lo < hi then setRange (bitmap_set bm lo) (lo + 1) hi else bm
termination_by hi - lo

/-- The final counting loop of `init`: number of used frames below `n`. -/
def countUsed (bm : Nat → Bool) (n : Nat) : Nat :=
  match n with
  | 0 => 0
  | n + 1 => countUsed bm n + (if bitmap_test bm n then 1 else 0)

/-- Frames cleared for one usable region `(base, length)`:
`[align_up(base)/4096, align_down(base.saturating_add(length))/4096)`. -/
def regionLo (r : Nat × Nat) : Nat := align_up r.1 PAGE_SIZE / PAGE_SIZE

def regionHi (r : Nat × Nat) : Nat :=
  align_down (min (r.1 + r.2) (U32 - 1)) PAGE_SIZE / PAGE_SIZE

/-- `frame::init`, with the boot collaborator's memory walk abstracted to the
list of `(base, length)` pairs it yields and the linker symbols / detected
total memory passed as parameters: mark everything used, clear each usable
region (trimmed to whole frames), then force low memory `[0, 1MiB)` and the
kernel footprint back to used; record TOTAL_FRAMES (from total memory, with
the MAX_FRAMES fallback) and count USED_FRAMES. -/
def frame_init (regions : List (Nat × Nat)) (kstart kend totalMemory : Nat) :
    FrameState :=
  let bm1 := regions.foldl (fun bm r => clearRange bm (regionLo r) (regionHi r))
    (fun _ => true)
  let bm2 := setRange bm1 0 (1048576 / PAGE_SIZE)
  let bm3 := setRange bm2 (kstart / PAGE_SIZE) (align_up kend PAGE_SIZE / PAGE_SIZE)
  let maxFrame := if totalMemory > 0 then totalMemory / PAGE_SIZE else MAX_FRAMES
  { bitmap := bm3, totalFrames := maxFrame, usedFrames := countUsed bm3 maxFrame }

/-! ## Paging (src/memory/paging.rs) and the vmalloc region (src/memory/virt.rs)

The page directory and tables live in frames handed out by `alloc_frame`; the
claims never alias a table frame with mapped data, so the directory is a map
from directory index to an optional table (a map from table index to the raw
32-bit entry).  `some` corresponds exactly to a PDE with the present bit:
`init` and `map_page` only ever install PDEs flagged present, and no code
path clears one. -/

def PAGE_PRESENT : Nat := 1
def PAGE_WRITABLE : Nat := 2
def PAGE_USER : Nat := 4

/-- `(vaddr >> 22) & 0x3FF`. -/
def pd_index (vaddr : Nat) : Nat := vaddr / PAGE_SIZE / 1024 % 1024

/-- `(vaddr >> 12) & 0x3FF`. -/
def pt_index (vaddr : Nat) : Nat := vaddr / PAGE_SIZE % 1024

/-- `entry & ADDR_MASK` (`0xFFFFF000`); entries are 32-bit values. -/
def entry_addr (entry : Nat) : Nat := entry % U32 / PAGE_SIZE * PAGE_SIZE

/-- `make_pte` / `make_pde`: `(addr & 0xFFFFF000) | (flags & 0xFFF)`; the two
halves occupy disjoint bits, so the `|` is `+`. -/
def make_pte (addr flags : Nat) : Nat := addr % U32 / PAGE_SIZE * PAGE_SIZE + flags % PAGE_SIZE

/-- `flags | PAGE_PRESENT`: set bit 0. -/
def orPresent (flags : Nat) : Nat := 2 * (flags / 2) + 1

/-- A vmalloc allocation table entry. -/
structure VmEntry where
  vaddr : Nat
  size : Nat
  inUse : Bool

def VMALLOC_BASE : Nat := 3489660928
def VMALLOC_MAX_SIZE : Nat := 268435456
def MAX_VMALLOC_ENTRIES : Nat := 256

/-- Combined state of the paging and vmalloc subsystems (plus the frame
allocator they draw from): PAGE_DIRECTORY_ADDR (only its nullness is
observable through this API), the directory, VMALLOC_BRK, VMALLOC_TABLE and
VMALLOC_COUNT. -/
structure Sys where
  fr : FrameState
  pagingInit : Bool
  dir : Nat → Option (Nat → Nat)
  vbrkPtr : Nat
  vtab : Nat → VmEntry
  vcount : Nat

/-- `map_page`: panic when paging is uninitialized; reuse the existing page
table or allocate and zero a fresh one (panicking if no frame is available);
write `make_pte(paddr, flags | PAGE_PRESENT)`; `invlpg` has no observable
effect in the model.  The PDE installed for a fresh table is present+writable
(plus the propagated user flag), which the model renders as `some`. -/
def map_page (s : Sys) (vaddr paddr flags : Nat) : Except String Sys :=
  if s.pagingInit then
    match s.dir (pd_index vaddr) with
    | some t =>
      Except.ok { s with
        dir := upd s.dir (pd_index vaddr)
          (some (upd t (pt_index vaddr) (make_pte paddr (orPresent flags)))) }
    | none =>
      let r := alloc_frame s.fr
      if r.1 = 0 then Except.error "map_page: failed to allocate page table"
      else
        Except.ok { s with
          fr := r.2
          dir := upd s.dir (pd_index vaddr)
            (some (upd (fun _ => 0) (pt_index vaddr) (make_pte paddr (orPresent flags)))) }
  else Except.error "map_page: paging not initialized"

/-- `unmap_page`: returns the previously mapped frame's address and clears
the PTE, or `0` when the directory is unloaded / the PDE or PTE is absent. -/
def unmap_page (s : Sys) (vaddr : Nat) : Nat × Sys :=
  if s.pagingInit then
    match s.dir (pd_index vaddr) with
    | some t =>
      let pte := t (pt_index vaddr)
      if pte % 2 = 1 then
        (entry_addr pte,
         { s with dir := upd s.dir (pd_index vaddr) (some (upd t (pt_index vaddr) 0)) })
      else (0, s)
    | none => (0, s)
  else (0, s)

/-- `virt_to_phys`: side-effect-free walk; mapped physical address plus the
page offset, `None` when any level is missing. -/
def virt_to_phys (s : Sys) (vaddr : Nat) : Option Nat :=
  if s.pagingInit then
    match s.dir (pd_index vaddr) with
    | some t =>
      let pte := t (pt_index vaddr)
      if pte % 2 = 1 then some (entry_addr pte + vaddr % PAGE_SIZE) else none
    | none => none
  else none

/-- `is_mapped`. -/
def is_mapped (s : Sys) (vaddr : Nat) : Bool :=
  (virt_to_phys s vaddr).isSome

/-- The rollback loop of `vbrk`: unmap every page already committed during
this call and return its frame to the frame allocator (`free_frame` can in
principle panic, so the loop propagates the error monadically). -/
def vbrkRollback (s : Sys) (brk page rb : Nat) : Except String Sys :=
  if h : rb < page then
    let r := unmap_page s ((brk + rb * PAGE_SIZE) % U32)
    if r.1 ≠ 0 then
      match free_frame r.2.fr r.1 with
      | Except.error e => Except.error e
      | Except.ok fr' => vbrkRollback { r.2 with fr := fr' } brk page (rb + 1)
    else vbrkRollback r.2 brk page (rb + 1)
  else Except.ok s
termination_by page - rb

/-- The per-page loop of `vbrk`: allocate a frame, map it at the next
virtual address (present+writable) and zero it (page contents are not part
of the model).  On allocation failure, roll back and report `false`. -/
def vbrkLoopF (brk pages : Nat) : Nat → Nat → Sys → Except String (Bool × Sys)
  | 0, _, s => Except.ok (true, s)
  | fuel + 1, page, s =>
    if page < pages then
      let r := alloc_frame s.fr
      let s1 := { s with fr := r.2 }
      if r.1 = 0 then
        Except.map (fun s2 => (false, s2)) (vbrkRollback s1 brk page 0)
      else
        match map_page s1 ((brk + page * PAGE_SIZE) % U32) r.1 (PAGE_PRESENT + PAGE_WRITABLE) with
        | Except.error e => Except.error e
        | Except.ok s2 => vbrkLoopF brk pages fuel (page + 1) s2
    else Except.ok (true, s)

def vbrkLoop (s : Sys) (brk pages page : Nat) : Except String (Bool × Sys) :=
  vbrkLoopF brk pages (pages - page) page s

/-- `vbrk`: round the increment up to pages, reject a new break beyond
`VMALLOC_BASE + VMALLOC_MAX_SIZE`, then allocate and map each page; on
mid-loop allocation failure return `0` after rolling back, on success
advance VMALLOC_BRK and return the old break. -/
def vbrk (s : Sys) (increment : Nat) : Except String (Nat × Sys) :=
  if increment = 0 then Except.ok (s.vbrkPtr, s)
  else
    let pages := align_up increment PAGE_SIZE / PAGE_SIZE
    let brk := s.vbrkPtr
    let newBrk := (brk + pages * PAGE_SIZE) % U32
    if newBrk > VMALLOC_BASE + VMALLOC_MAX_SIZE then Except.ok (0, s)
    else
      match vbrkLoop s brk pages 0 with
      | Except.error e => Except.error e
      | Except.ok (true, s') => Except.ok (brk, { s' with vbrkPtr := newBrk })
      | Except.ok (false, s') => Except.ok (0, s')

/-- `find_free_entry`: index of the first inactive table slot,
`MAX_VMALLOC_ENTRIES` if the table is full. -/
def findFreeEntry (t : Nat → VmEntry) (i : Nat) : Nat :=
  if h : i < MAX_VMALLOC_ENTRIES then
    if (t i).inUse then findFreeEntry t (i + 1) else i
  else MAX_VMALLOC_ENTRIES
termination_by MAX_VMALLOC_ENTRIES - i

/-- `vmalloc`: page-round the size, find a free table slot, grow via `vbrk`,
record the allocation; null on a full table or a failed `vbrk`. -/
def vmalloc (s : Sys) (size : Nat) : Except String (Nat × Sys) :=
  if size = 0 then Except.ok (0, s)
  else
    let allocSize := align_up size PAGE_SIZE
    let idx := findFreeEntry s.vtab 0
    if idx ≥ MAX_VMALLOC_ENTRIES then Except.ok (0, s)
    else
      match vbrk s allocSize with
      | Except.error e => Except.error e
      | Except.ok (0, s') => Except.ok (0, s')
      | Except.ok (vaddr, s') =>
        Except.ok (vaddr,
          { s' with vtab := upd s'.vtab idx ⟨vaddr, allocSize, true⟩
                    vcount := s'.vcount + 1 })

/-- The per-page loop of `vfree`: unmap each page of the entry and free the
backing frame when one was mapped. -/
def vfreePages (s : Sys) (vaddr pages page : Nat) : Except String Sys :=
  if h : page < pages then
    let r := unmap_page s ((vaddr + page * PAGE_SIZE) % U32)
    if r.1 ≠ 0 then
      match free_frame r.2.fr r.1 with
      | Except.error e => Except.error e
      | Except.ok fr' => vfreePages { r.2 with fr := fr' } vaddr pages (page + 1)
    else vfreePages r.2 vaddr pages (page + 1)
  else Except.ok s
termination_by pages - page

/-- The table scan of `vfree`: find the active entry whose base equals the
pointer exactly, release its pages, and clear the entry; panic when no entry
matches. -/
def vfreeLoop (s : Sys) (vaddr i : Nat) : Except String Sys :=
  if h : i < MAX_VMALLOC_ENTRIES then
    let e := s.vtab i
    if e.inUse ∧ e.vaddr = vaddr then
      Except.map
        (fun s' => { s' with vtab := upd s'.vtab i ⟨0, 0, false⟩
                             vcount := s'.vcount - 1 })
        (vfreePages s vaddr (e.size / PAGE_SIZE) 0)
    else vfreeLoop s vaddr (i + 1)
  else Except.error "vfree: pointer not found in vmalloc table"
termination_by MAX_VMALLOC_ENTRIES - i

/-- `vfree`: silently ignore the null pointer, otherwise scan the table. -/
def vfree (s : Sys) (ptr : Nat) : Except String Sys :=
  if ptr = 0 then Except.ok s else vfreeLoop s ptr 0

/-! ## Heap allocator (src/memory/heap.rs) -/

def HEADER_SIZE : Nat := 8
def MIN_ALLOC : Nat := 8

/-- Heap state: the identity-mapped memory the arena lives in (a map from
byte address to the 32-bit word stored there — the allocator only ever
reads/writes the two header words of a block), HEAP_START, HEAP_BRK,
HEAP_END and ALLOC_COUNT. -/
structure HeapState where
  mem : Nat → Nat
  heapStart : Nat
  heapBrk : Nat
  heapEnd : Nat
  allocCount : Nat

/-- The reservation loop of `kbrk`: reserve page frames until HEAP_END
covers the new break (the source's `current_end` is a `u32`; its wraparound
cannot occur below the 4 GiB heap bounds carried by the theorems). -/
def reserveLoop (fr : FrameState) (currentEnd newBrk : Nat) : Nat × FrameState :=
  if h : newBrk > currentEnd then
    reserveLoop (reserve_frame fr currentEnd) (currentEnd + PAGE_SIZE) newBrk
  else (currentEnd, fr)
termination_by newBrk - currentEnd
decreasing_by
  simp only [PAGE_SIZE]
  omega

/-- `kbrk`: advance the break by exactly `increment` bytes (32-bit sum),
reserving any newly needed page frames; returns the old break. -/
def kbrk (h : HeapState) (fr : FrameState) (increment : Nat) :
    Nat × HeapState × FrameState :=
  if increment = 0 then (h.heapBrk, h, fr)
  else
    let oldBrk := h.heapBrk
    let newBrk := (oldBrk + increment) % U32
    let r := reserveLoop fr h.heapEnd newBrk
    (oldBrk, { h with heapBrk := newBrk, heapEnd := r.1 }, r.2)

/-- Block-header accessors: `size` is the word at the header address,
`flags` the word at header + 4; bit 0 of `flags` is FLAG_FREE. -/
def blockSize (m : Nat → Nat) (a : Nat) : Nat := m a

def blockFlags (m : Nat → Nat) (a : Nat) : Nat := m (a + 4)

/-- `set_free` (`flags |= FLAG_FREE`) and `set_used` (`flags &= !FLAG_FREE`)
as arithmetic on bit 0. -/
def flagSetFree (flags : Nat) : Nat := 2 * (flags / 2) + 1

def flagSetUsed (flags : Nat) : Nat := 2 * (flags / 2)

/-- The first-fit walk of `kmalloc`: starting at `cur`, find a free block of
at least `allocSize` bytes, splitting it when the remainder exceeds
`HEADER_SIZE + MIN_ALLOC`; `none` when the walk reaches the break. -/
def kmallocLoop (h : HeapState) (allocSize cur : Nat) : Option (Nat × HeapState) :=
  if hc : cur < h.heapBrk then
    let sz := blockSize h.mem cur
    let fl := blockFlags h.mem cur
    if fl % 2 = 1 ∧ allocSize ≤ sz then
      if HEADER_SIZE + MIN_ALLOC < sz - allocSize then
        let m1 := upd h.mem cur allocSize
        let m2 := upd m1 (cur + 4) (flagSetUsed fl)
        let nb := cur + HEADER_SIZE + allocSize
        let m3 := upd m2 nb (sz - allocSize - HEADER_SIZE)
        let m4 := upd m3 (nb + 4) 1
        some (cur + HEADER_SIZE, { h with mem := m4, allocCount := h.allocCount + 1 })
      else
        some (cur + HEADER_SIZE,
          { h with mem := upd h.mem (cur + 4) (flagSetUsed fl)
                   allocCount := h.allocCount + 1 })
    else kmallocLoop h allocSize (cur + HEADER_SIZE + sz)
  else none
termination_by h.heapBrk - cur
decreasing_by
  simp only [HEADER_SIZE]
  omega

/-- The size rounding at the top of `kmalloc`: up to `MIN_ALLOC`, else up to
4-byte alignment. -/
def allocSizeOf (size : Nat) : Nat :=
  if size < MIN_ALLOC then MIN_ALLOC else align_up size 4

/-- `kmalloc`: null for size 0; round the size up via `allocSizeOf`;
first-fit walk of the arena; on failure grow the arena by
`HEADER_SIZE + alloc_size` via `kbrk` and carve the new block at the old
break.  Returns the data pointer (header + 8) or 0. -/
def kmalloc (h : HeapState) (fr : FrameState) (size : Nat) :
    Nat × HeapState × FrameState :=
  if size = 0 then (0, h, fr)
  else
    let allocSize := allocSizeOf size
    let walk := if h.heapStart < h.heapBrk then kmallocLoop h allocSize h.heapStart
                else none
    match walk with
    | some r => (r.1, r.2, fr)
    | none =>
      let r := kbrk h fr (HEADER_SIZE + allocSize)
      if r.1 = 0 then (0, r.2.1, r.2.2)
      else
        (r.1 + HEADER_SIZE,
         { r.2.1 with
             mem := upd (upd (r.2.1).mem r.1 allocSize) (r.1 + 4) 0
             allocCount := (r.2.1).allocCount + 1 },
         r.2.2)

/-- `kfree`: silently ignore null; panic on a double free; mark the block
free and absorb the immediately following block when it lies below the break
and is free (forward-only coalescing). -/
def kfree (h : HeapState) (ptr : Nat) : Except String HeapState :=
  if ptr = 0 then Except.ok h
  else
    let b := ptr - HEADER_SIZE
    let sz := blockSize h.mem b
    let fl := blockFlags h.mem b
    if fl % 2 = 1 then Except.error "kfree: double free detected"
    else
      let m1 := upd h.mem (b + 4) (flagSetFree fl)
      let ac := h.allocCount - 1
      let next := b + HEADER_SIZE + sz
      if next < h.heapBrk then
        if blockFlags m1 next % 2 = 1 then
          Except.ok { h with mem := upd m1 b (sz + HEADER_SIZE + blockSize m1 next)
                             allocCount := ac }
        else Except.ok { h with mem := m1, allocCount := ac }
      else Except.ok { h with mem := m1, allocCount := ac }

/-- `ksize`: the stored usable size of the block whose data starts at `ptr`
(0 for null). -/
def ksize (h : HeapState) (ptr : Nat) : Nat :=
  if ptr = 0 then 0 else blockSize h.mem (ptr - HEADER_SIZE)

/-- `heap::init`: place the arena at the first page boundary after the
kernel and reserve one initial page via `kbrk`.  The pre-existing contents
of that memory (`m`) are whatever was in RAM — `init` does not write to the
arena. -/
def heap_init (m : Nat → Nat) (kernelEnd : Nat) (fr : FrameState) :
    HeapState × FrameState :=
  let s := align_up kernelEnd PAGE_SIZE
  let h0 : HeapState := ⟨m, s, s, s, 0⟩
  let r := kbrk h0 fr PAGE_SIZE
  (r.2.1, r.2.2)

/-- Extract the success value of an `Except`, with a fallback; used by the
concrete witnesses to name the state a successful call produced. -/
def okOr {α : Type} (e : Except String α) (d : α) : α :=
  match e with
  | Except.ok x => x
  | Except.error _ => d

/-! ## Basic lemmas about the bitmap -/

theorem bitmap_test_set_self (bm : Nat → Bool) {g : Nat} (h : g < MAX_FRAMES) :
    bitmap_test (bitmap_set bm g) g = true := by
  simp [bitmap_test, bitmap_set, upd, h]

theorem bitmap_test_set_other (bm : Nat → Bool) (g : Nat) {f : Nat} (h : f ≠ g) :
    bitmap_test (bitmap_set bm g) f = bitmap_test bm f := by
  by_cases hg : g < MAX_FRAMES <;> by_cases hf : f < MAX_FRAMES <;>
    simp [bitmap_test, bitmap_set, upd, h, hg, hf]

theorem bitmap_test_clear_self (bm : Nat → Bool) {g : Nat} (h : g < MAX_FRAMES) :
    bitmap_test (bitmap_clear bm g) g = false := by
  simp [bitmap_test, bitmap_clear, upd, h]

theorem bitmap_test_clear_other (bm : Nat → Bool) (g : Nat) {f : Nat} (h : f ≠ g) :
    bitmap_test (bitmap_clear bm g) f = bitmap_test bm f := by
  by_cases hg : g < MAX_FRAMES <;> by_cases hf : f < MAX_FRAMES <;>
    simp [bitmap_test, bitmap_clear, upd, h, hg, hf]

theorem bitmap_clear_set_cancel (bm : Nat → Bool) {g : Nat}
    (h : bitmap_test bm g = false) :
    bitmap_clear (bitmap_set bm g) g = bm := by
  by_cases hg : g < MAX_FRAMES
  · funext x
    by_cases hx : x = g
    · subst hx
      simp only [bitmap_test, if_pos hg] at h
      simp [bitmap_clear, bitmap_set, upd, hg, h]
    · simp [bitmap_clear, bitmap_set, upd, hg, hx]
  · simp [bitmap_clear, bitmap_set, hg]

/-! ## C9 — free_frame -/

/-- The concrete state refuting the unconditional "decrements by exactly
one": frame 0 is marked used while USED_FRAMES is 0. -/
def c9state : FrameState := ⟨fun f => decide (f = 0), 1, 0⟩

/-- C9 counterexample: on a state whose used-count is already 0, `free_frame`
of a set, aligned frame succeeds (no halt) yet cannot have decremented the
used-count by one — the source's `if USED_FRAMES > 0` guard saturates it at
zero instead. -/
theorem C9_counterexample_saturation :
    free_frame c9state 0 = Except.ok (okOr (free_frame c9state 0) c9state) ∧
    c9state.usedFrames = 0 ∧
    (okOr (free_frame c9state 0) c9state).usedFrames = 0 ∧
    ¬ c9state.usedFrames = (okOr (free_frame c9state 0) c9state).usedFrames + 1 := by
  refine ⟨rfl, rfl, rfl, by decide⟩

/-- C9 (amended): `free_frame` halts exactly on a misaligned address or an
already-free frame; otherwise it clears the frame's bit and decrements the
used-count by one, saturating at zero (truncated subtraction). -/
theorem C9_free_frame_characterization :
    ∀ (s : FrameState) (addr : Nat), addr < U32 →
      (addr % PAGE_SIZE ≠ 0 →
        free_frame s addr = Except.error "free_frame: address not page-aligned") ∧
      (addr % PAGE_SIZE = 0 → bitmap_test s.bitmap (addr / PAGE_SIZE) = false →
        free_frame s addr = Except.error "free_frame: double free detected") ∧
      (addr % PAGE_SIZE = 0 → bitmap_test s.bitmap (addr / PAGE_SIZE) = true →
        free_frame s addr =
          Except.ok { s with bitmap := bitmap_clear s.bitmap (addr / PAGE_SIZE),
                             usedFrames := s.usedFrames - 1 } ∧
        bitmap_test (bitmap_clear s.bitmap (addr / PAGE_SIZE)) (addr / PAGE_SIZE) = false) := by
  intro s addr haddr
  refine ⟨fun hmis => by simp [free_frame, hmis], fun hal hbit => ?_, fun hal hbit => ?_⟩
  · simp [free_frame, hal, hbit]
  · constructor
    · simp [free_frame, hal, hbit]
    · refine bitmap_test_clear_self s.bitmap ?_
      have : addr / PAGE_SIZE < MAX_FRAMES := by
        simp only [PAGE_SIZE, MAX_FRAMES, U32] at *
        omega
      exact this

/-- C9 witness: instantiating the characterization on a concrete used,
aligned frame. -/
theorem C9_free_frame_characterization_witness :
    (4096 < U32 ∧ 4096 % PAGE_SIZE = 0 ∧
      bitmap_test (fun _ => true) (4096 / PAGE_SIZE) = true) ∧
    (free_frame ⟨fun _ => true, 2, 2⟩ 4096 =
      Except.ok { bitmap := bitmap_clear (fun _ => true) (4096 / PAGE_SIZE),
                  totalFrames := 2, usedFrames := 2 - 1 } ∧
     bitmap_test (bitmap_clear (fun _ => true) (4096 / PAGE_SIZE)) (4096 / PAGE_SIZE) = false) :=
  ⟨⟨by decide, by decide, by decide⟩,
   (C9_free_frame_characterization ⟨fun _ => true, 2, 2⟩ 4096 (by decide)).2.2
     (by decide) (by decide)⟩

/-! ## Paging lemmas and C1 -/

theorem pd_index_add_offset {v k : Nat} (hv : v % PAGE_SIZE = 0) (hk : k < PAGE_SIZE) :
    pd_index (v + k) = pd_index v := by
  have : (v + k) / PAGE_SIZE = v / PAGE_SIZE := by
    simp only [PAGE_SIZE] at *
    omega
  simp [pd_index, this]

theorem pt_index_add_offset {v k : Nat} (hv : v % PAGE_SIZE = 0) (hk : k < PAGE_SIZE) :
    pt_index (v + k) = pt_index v := by
  have : (v + k) / PAGE_SIZE = v / PAGE_SIZE := by
    simp only [PAGE_SIZE] at *
    omega
  simp [pt_index, this]

theorem make_pte_entry_addr {p : Nat} (fl : Nat) (hp : p % PAGE_SIZE = 0) (hpU : p < U32) :
    entry_addr (make_pte p (orPresent fl)) = p := by
  simp only [entry_addr, make_pte, orPresent, PAGE_SIZE, U32] at *
  omega

theorem make_pte_present {p : Nat} (fl : Nat) (hp : p % PAGE_SIZE = 0) :
    make_pte p (orPresent fl) % 2 = 1 := by
  simp only [make_pte, orPresent, PAGE_SIZE, U32] at *
  omega

/-- Full characterization of a successful `map_page`: only the directory
slot for `vaddr` changes (within it, only the PTE for `vaddr`), and the
frame allocator is untouched when the page table already existed. -/
theorem map_page_char {s s₁ : Sys} {v p fl : Nat}
    (h : map_page s v p fl = Except.ok s₁) :
    s.pagingInit = true ∧ s₁.pagingInit = true ∧
    s₁.vbrkPtr = s.vbrkPtr ∧ s₁.vtab = s.vtab ∧ s₁.vcount = s.vcount ∧
    (∀ d, d ≠ pd_index v → s₁.dir d = s.dir d) ∧
    (∃ t', s₁.dir (pd_index v) = some t' ∧
      t' (pt_index v) = make_pte p (orPresent fl) ∧
      ∀ j, j ≠ pt_index v →
        t' j = (match s.dir (pd_index v) with | some t => t j | none => 0)) ∧
    (∀ t, s.dir (pd_index v) = some t → s₁.fr = s.fr) := by
  unfold map_page at h
  by_cases hinit : s.pagingInit
  · rw [if_pos hinit] at h
    rcases hd : s.dir (pd_index v) with _ | t
    · rw [hd] at h
      by_cases hz : (alloc_frame s.fr).1 = 0
      · rw [if_pos hz] at h
        exact absurd h (by simp)
      · rw [if_neg hz] at h
        injection h with h
        subst h
        refine ⟨hinit, hinit, rfl, rfl, rfl, fun d hdne => upd_other _ _ _ hdne, ?_, ?_⟩
        · refine ⟨_, upd_same _ _ _, upd_same _ _ _, fun j hj => ?_⟩
          rw [upd_other _ _ _ hj]
        · intro t ht
          exact Option.noConfusion ht
    · rw [hd] at h
      injection h with h
      subst h
      refine ⟨hinit, hinit, rfl, rfl, rfl, fun d hdne => upd_other _ _ _ hdne, ?_, fun _ _ => rfl⟩
      refine ⟨_, upd_same _ _ _, upd_same _ _ _, fun j hj => ?_⟩
      rw [upd_other _ _ _ hj]
  · rw [if_neg hinit] at h
    exact absurd h (by simp)

/-- `unmap_page` on a present mapping: returns the entry's address and
clears just that PTE. -/
theorem unmap_page_present {s : Sys} {v : Nat} {t : Nat → Nat}
    (hinit : s.pagingInit = true) (hd : s.dir (pd_index v) = some t)
    (hpte : t (pt_index v) % 2 = 1) :
    unmap_page s v =
      (entry_addr (t (pt_index v)),
       { s with dir := upd s.dir (pd_index v) (some (upd t (pt_index v) 0)) }) := by
  unfold unmap_page
  rw [if_pos hinit, hd]
  simp [hpte]

/-- `virt_to_phys` through a present mapping. -/
theorem virt_to_phys_present {s : Sys} {v : Nat} {t : Nat → Nat}
    (hinit : s.pagingInit = true) (hd : s.dir (pd_index v) = some t)
    (hpte : t (pt_index v) % 2 = 1) :
    virt_to_phys s v = some (entry_addr (t (pt_index v)) + v % PAGE_SIZE) := by
  unfold virt_to_phys
  rw [if_pos hinit, hd]
  simp [hpte]

/-- `virt_to_phys` when the PTE is absent. -/
theorem virt_to_phys_absent {s : Sys} {v : Nat} {t : Nat → Nat}
    (hinit : s.pagingInit = true) (hd : s.dir (pd_index v) = some t)
    (hpte : ¬ t (pt_index v) % 2 = 1) :
    virt_to_phys s v = none := by
  unfold virt_to_phys
  rw [if_pos hinit, hd]
  simp [hpte]

/-- C1: after `map_page(v, p, flags)` on page-aligned `v` and `p`, every
address `v + k` with `k < 4096` translates to `p + k`; `unmap_page(v)` then
returns `p`, and translating `v` afterwards yields `None`. -/
theorem C1_map_translate_unmap_roundtrip (s s₁ : Sys) (v p fl : Nat)
    (hv : v % PAGE_SIZE = 0) (hp : p % PAGE_SIZE = 0)
    (hvU : v < U32) (hpU : p < U32)
    (hmap : map_page s v p fl = Except.ok s₁) :
    (∀ k, k < PAGE_SIZE → virt_to_phys s₁ (v + k) = some (p + k)) ∧
    (unmap_page s₁ v).1 = p ∧
    virt_to_phys (unmap_page s₁ v).2 v = none := by
  obtain ⟨-, hinit₁, -, -, -, -, ⟨t', hdir₁, hpte₁, -⟩, -⟩ := map_page_char hmap
  have hpres : t' (pt_index v) % 2 = 1 := by rw [hpte₁]; exact make_pte_present fl hp
  have haddr : entry_addr (t' (pt_index v)) = p := by
    rw [hpte₁]; exact make_pte_entry_addr fl hp hpU
  refine ⟨?_, ?_, ?_⟩
  · intro k hk
    have hdk : s₁.dir (pd_index (v + k)) = some t' := by
      rw [pd_index_add_offset hv hk]; exact hdir₁
    have hptk : t' (pt_index (v + k)) % 2 = 1 := by
      rw [pt_index_add_offset hv hk]; exact hpres
    rw [virt_to_phys_present hinit₁ hdk hptk, pt_index_add_offset hv hk, haddr]
    have : (v + k) % PAGE_SIZE = k := by
      simp only [PAGE_SIZE] at *
      omega
    rw [this]
  · rw [unmap_page_present hinit₁ hdir₁ hpres, haddr]
  · rw [unmap_page_present hinit₁ hdir₁ hpres]
    refine virt_to_phys_absent (s := _) hinit₁ (upd_same _ _ _) ?_
    rw [upd_same]
    simp

/-- A concrete paging state for the C1 witness: paging enabled, a page table
installed for the low 4 MiB, no vmalloc activity. -/
def c1sys : Sys :=
  ⟨⟨fun f => decide (f < 256), 300, 256⟩, true,
   fun d => if d = 0 then some (fun _ => 0) else none, VMALLOC_BASE,
   fun _ => ⟨0, 0, false⟩, 0⟩

/-- C1 witness: the round-trip instantiated at `v = 0x1000`, `p = 0x2000`,
writable flags. -/
theorem C1_map_translate_unmap_roundtrip_witness :
    (4096 % PAGE_SIZE = 0 ∧ 8192 % PAGE_SIZE = 0 ∧ 4096 < U32 ∧ 8192 < U32 ∧
     map_page c1sys 4096 8192 2 = Except.ok (okOr (map_page c1sys 4096 8192 2) c1sys)) ∧
    ((∀ k, k < PAGE_SIZE →
        virt_to_phys (okOr (map_page c1sys 4096 8192 2) c1sys) (4096 + k) = some (8192 + k)) ∧
     (unmap_page (okOr (map_page c1sys 4096 8192 2) c1sys) 4096).1 = 8192 ∧
     virt_to_phys (unmap_page (okOr (map_page c1sys 4096 8192 2) c1sys) 4096).2 4096 = none) :=
  ⟨⟨by decide, by decide, by decide, by decide, rfl⟩,
   C1_map_translate_unmap_roundtrip c1sys _ 4096 8192 2 (by decide) (by decide)
     (by decide) (by decide) rfl⟩

/-! ## C6 — kfree marks free and coalesces forward only -/

/-- C6: `kfree(ptr)` reads the header at `ptr - 8`; it panics iff that block
is already free; otherwise it sets the free bit, absorbs the immediately
following block exactly when that block starts below the break and is free
(adding header + its size to this block's size), and writes nothing outside
this block's own two header words — in particular the preceding block is
never touched (no backward coalescing). -/
theorem C6_kfree_forward_only (h : HeapState) (ptr : Nat) (hp : HEADER_SIZE ≤ ptr) :
    (blockFlags h.mem (ptr - HEADER_SIZE) % 2 = 1 →
      kfree h ptr = Except.error "kfree: double free detected") ∧
    (blockFlags h.mem (ptr - HEADER_SIZE) % 2 = 0 →
      ∃ h', kfree h ptr = Except.ok h' ∧
        blockFlags h'.mem (ptr - HEADER_SIZE) % 2 = 1 ∧
        blockSize h'.mem (ptr - HEADER_SIZE) =
          (if ptr + blockSize h.mem (ptr - HEADER_SIZE) < h.heapBrk ∧
              blockFlags h.mem (ptr + blockSize h.mem (ptr - HEADER_SIZE)) % 2 = 1 then
             blockSize h.mem (ptr - HEADER_SIZE) + HEADER_SIZE +
               blockSize h.mem (ptr + blockSize h.mem (ptr - HEADER_SIZE))
           else blockSize h.mem (ptr - HEADER_SIZE)) ∧
        (∀ x, x ≠ ptr - HEADER_SIZE → x ≠ ptr - HEADER_SIZE + 4 → h'.mem x = h.mem x) ∧
        h'.heapStart = h.heapStart ∧ h'.heapBrk = h.heapBrk ∧
        h'.heapEnd = h.heapEnd ∧ h'.allocCount = h.allocCount - 1) := by
  have hptr0 : ¬ ptr = 0 := by
    simp only [HEADER_SIZE] at hp
    omega
  have hb : ptr - HEADER_SIZE + HEADER_SIZE = ptr := by
    simp only [HEADER_SIZE] at *
    omega
  constructor
  · intro hfree
    unfold kfree
    rw [if_neg hptr0, if_pos hfree]
  · intro hused
    have hused' : ¬ blockFlags h.mem (ptr - HEADER_SIZE) % 2 = 1 := by omega
    unfold kfree
    rw [if_neg hptr0, if_neg hused']
    have hnext : ptr - HEADER_SIZE + HEADER_SIZE + blockSize h.mem (ptr - HEADER_SIZE) =
        ptr + blockSize h.mem (ptr - HEADER_SIZE) := by rw [hb]
    rw [hnext]
    have hne1 : ¬ ptr + blockSize h.mem (ptr - HEADER_SIZE) + 4 = ptr - HEADER_SIZE + 4 := by
      simp only [HEADER_SIZE] at *
      omega
    have hne2 : ¬ ptr + blockSize h.mem (ptr - HEADER_SIZE) = ptr - HEADER_SIZE + 4 := by
      simp only [HEADER_SIZE] at *
      omega
    have hne3 : ¬ ptr - HEADER_SIZE = ptr - HEADER_SIZE + 4 := by omega
    have hne4 : ¬ ptr - HEADER_SIZE + 4 = ptr - HEADER_SIZE := by omega
    have hflagfree : flagSetFree (blockFlags h.mem (ptr - HEADER_SIZE)) % 2 = 1 := by
      simp only [flagSetFree]
      omega
    by_cases hlt : ptr + blockSize h.mem (ptr - HEADER_SIZE) < h.heapBrk
    · rw [if_pos hlt]
      have hfl' : blockFlags (upd h.mem (ptr - HEADER_SIZE + 4)
          (flagSetFree (blockFlags h.mem (ptr - HEADER_SIZE))))
          (ptr + blockSize h.mem (ptr - HEADER_SIZE)) =
          blockFlags h.mem (ptr + blockSize h.mem (ptr - HEADER_SIZE)) := by
        simp only [blockFlags]
        exact upd_other _ _ _ hne1
      by_cases hcf : blockFlags h.mem (ptr + blockSize h.mem (ptr - HEADER_SIZE)) % 2 = 1
      · rw [hfl']
        rw [if_pos hcf]
        refine ⟨_, rfl, ?_, ?_, ?_, rfl, rfl, rfl, rfl⟩
        · simp only [blockFlags, blockSize]
          rw [upd_other _ _ _ hne4, upd_same]
          exact hflagfree
        · simp only [blockFlags, blockSize] at *
          rw [upd_same]
          rw [if_pos ⟨hlt, hcf⟩]
          rw [upd_other _ _ _ hne2]
        · intro x hx1 hx2
          simp only [blockSize]
          rw [upd_other _ _ _ hx1, upd_other _ _ _ hx2]
      · rw [hfl']
        rw [if_neg hcf]
        refine ⟨_, rfl, ?_, ?_, ?_, rfl, rfl, rfl, rfl⟩
        · simp only [blockFlags]
          rw [upd_same]
          exact hflagfree
        · simp only [blockFlags, blockSize] at *
          rw [if_neg (by tauto)]
          exact upd_other _ _ _ hne3
        · intro x hx1 hx2
          exact upd_other _ _ _ hx2
    · rw [if_neg hlt]
      refine ⟨_, rfl, ?_, ?_, ?_, rfl, rfl, rfl, rfl⟩
      · simp only [blockFlags]
        rw [upd_same]
        exact hflagfree
      · simp only [blockFlags, blockSize] at *
        rw [if_neg (by tauto)]
        exact upd_other _ _ _ hne3
      · intro x hx1 hx2
        exact upd_other _ _ _ hx2

/-- A concrete two-block heap for the C6 witness: a used 12-byte block at
4096 followed by a free 16-byte block at 4116, the arena ending at 4140. -/
def c6heap : HeapState :=
  ⟨fun x => if x = 4096 then 12 else if x = 4100 then 0 else
    if x = 4116 then 16 else if x = 4120 then 1 else 0,
   4096, 4140, 8192, 1⟩

/-- C6 witness: freeing the used block of `c6heap` succeeds and absorbs the
following free block. -/
theorem C6_kfree_forward_only_witness :
    (HEADER_SIZE ≤ 4104 ∧ blockFlags c6heap.mem (4104 - HEADER_SIZE) % 2 = 0) ∧
    (∃ h', kfree c6heap 4104 = Except.ok h' ∧
      blockFlags h'.mem (4104 - HEADER_SIZE) % 2 = 1 ∧
      blockSize h'.mem (4104 - HEADER_SIZE) =
        (if 4104 + blockSize c6heap.mem (4104 - HEADER_SIZE) < c6heap.heapBrk ∧
            blockFlags c6heap.mem (4104 + blockSize c6heap.mem (4104 - HEADER_SIZE)) % 2 = 1 then
           blockSize c6heap.mem (4104 - HEADER_SIZE) + HEADER_SIZE +
             blockSize c6heap.mem (4104 + blockSize c6heap.mem (4104 - HEADER_SIZE))
         else blockSize c6heap.mem (4104 - HEADER_SIZE)) ∧
      (∀ x, x ≠ 4104 - HEADER_SIZE → x ≠ 4104 - HEADER_SIZE + 4 → h'.mem x = c6heap.mem x) ∧
      h'.heapStart = c6heap.heapStart ∧ h'.heapBrk = c6heap.heapBrk ∧
      h'.heapEnd = c6heap.heapEnd ∧ h'.allocCount = c6heap.allocCount - 1) :=
  ⟨⟨by decide, by decide⟩,
   (C6_kfree_forward_only c6heap 4104 (by decide)).2 (by decide)⟩

/-! ## Step lemmas for the heap operations -/

theorem reserveLoop_done {fr : FrameState} {ce nb : Nat} (h : nb ≤ ce) :
    reserveLoop fr ce nb = (ce, fr) := by
  unfold reserveLoop
  rw [dif_neg (by omega)]

theorem reserveLoop_one {fr : FrameState} {ce nb : Nat} (h1 : ce < nb)
    (h2 : nb ≤ ce + PAGE_SIZE) :
    reserveLoop fr ce nb = (ce + PAGE_SIZE, reserve_frame fr ce) := by
  unfold reserveLoop
  rw [dif_pos (by omega)]
  exact reserveLoop_done h2

theorem kbrk_eq {h : HeapState} {fr : FrameState} {inc : Nat} (hinc : ¬ inc = 0) :
    kbrk h fr inc =
      (h.heapBrk,
       { h with heapBrk := (h.heapBrk + inc) % U32,
                heapEnd := (reserveLoop fr h.heapEnd ((h.heapBrk + inc) % U32)).1 },
       (reserveLoop fr h.heapEnd ((h.heapBrk + inc) % U32)).2) := by
  unfold kbrk
  rw [if_neg hinc]

theorem kmallocLoop_stop {h : HeapState} {a cur : Nat} (hc : ¬ cur < h.heapBrk) :
    kmallocLoop h a cur = none := by
  unfold kmallocLoop
  rw [dif_neg hc]

theorem kmallocLoop_skip {h : HeapState} {a cur : Nat} (hc : cur < h.heapBrk)
    (hno : ¬ (blockFlags h.mem cur % 2 = 1 ∧ a ≤ blockSize h.mem cur)) :
    kmallocLoop h a cur = kmallocLoop h a (cur + HEADER_SIZE + blockSize h.mem cur) := by
  conv_lhs => rw [kmallocLoop]
  rw [dif_pos hc, if_neg hno]

theorem kmallocLoop_take {h : HeapState} {a cur : Nat} (hc : cur < h.heapBrk)
    (hfree : blockFlags h.mem cur % 2 = 1) (hfit : a ≤ blockSize h.mem cur)
    (hnosplit : ¬ HEADER_SIZE + MIN_ALLOC < blockSize h.mem cur - a) :
    kmallocLoop h a cur =
      some (cur + HEADER_SIZE,
        { h with mem := upd h.mem (cur + 4) (flagSetUsed (blockFlags h.mem cur))
                 allocCount := h.allocCount + 1 }) := by
  conv_lhs => rw [kmallocLoop]
  rw [dif_pos hc, if_pos ⟨hfree, hfit⟩, if_neg hnosplit]

theorem kmallocLoop_split {h : HeapState} {a cur : Nat} (hc : cur < h.heapBrk)
    (hfree : blockFlags h.mem cur % 2 = 1) (hfit : a ≤ blockSize h.mem cur)
    (hsplit : HEADER_SIZE + MIN_ALLOC < blockSize h.mem cur - a) :
    kmallocLoop h a cur =
      some (cur + HEADER_SIZE,
        { h with
            mem := upd (upd (upd (upd h.mem cur a) (cur + 4)
                (flagSetUsed (blockFlags h.mem cur)))
                (cur + HEADER_SIZE + a) (blockSize h.mem cur - a - HEADER_SIZE))
                (cur + HEADER_SIZE + a + 4) 1
            allocCount := h.allocCount + 1 }) := by
  conv_lhs => rw [kmallocLoop]
  rw [dif_pos hc, if_pos ⟨hfree, hfit⟩, if_pos hsplit]

theorem kmalloc_eq_found {h : HeapState} {fr : FrameState} {size : Nat}
    {r : Nat × HeapState} (h0 : ¬ size = 0)
    (hw : (if h.heapStart < h.heapBrk then kmallocLoop h (allocSizeOf size) h.heapStart
           else none) = some r) :
    kmalloc h fr size = (r.1, r.2, fr) := by
  unfold kmalloc
  rw [if_neg h0]
  simp only []
  rw [hw]

theorem kmalloc_eq_grow {h : HeapState} {fr : FrameState} {size : Nat} (h0 : ¬ size = 0)
    (hw : (if h.heapStart < h.heapBrk then kmallocLoop h (allocSizeOf size) h.heapStart
           else none) = none)
    (hb : ¬ (kbrk h fr (HEADER_SIZE + allocSizeOf size)).1 = 0) :
    kmalloc h fr size =
      ((kbrk h fr (HEADER_SIZE + allocSizeOf size)).1 + HEADER_SIZE,
       { (kbrk h fr (HEADER_SIZE + allocSizeOf size)).2.1 with
           mem := upd (upd ((kbrk h fr (HEADER_SIZE + allocSizeOf size)).2.1).mem
               ((kbrk h fr (HEADER_SIZE + allocSizeOf size)).1) (allocSizeOf size))
             ((kbrk h fr (HEADER_SIZE + allocSizeOf size)).1 + 4) 0
           allocCount := ((kbrk h fr (HEADER_SIZE + allocSizeOf size)).2.1).allocCount + 1 },
       (kbrk h fr (HEADER_SIZE + allocSizeOf size)).2.2) := by
  unfold kmalloc
  rw [if_neg h0]
  simp only []
  rw [hw, if_neg hb]

/-! ## C7 — the concrete kmalloc(10) / kfree / kmalloc(8) reuse scenario -/

/-- C7: for any empty arena at a non-null, in-range break `S` (the state
`heap::init` produces), `kmalloc(10)` carves a fresh block of usable size 12
(10 rounded to 4-byte alignment) at `S` and returns `S + 8`; freeing it and
calling `kmalloc(8)` returns the same address, with the block still 12 bytes
and no split performed — the only word that changes is the block's flags —
because the 4-byte remainder is below `HEADER_SIZE + MIN_ALLOC`. -/
theorem C7_kmalloc_reuse_without_split (m : Nat → Nat) (fr : FrameState) (S c : Nat)
    (hS : ¬ S = 0) (hU : S + 4096 < U32) :
    ∃ h1 fr1 h2,
      kmalloc ⟨m, S, S, S, c⟩ fr 10 = (S + HEADER_SIZE, h1, fr1) ∧
      ksize h1 (S + HEADER_SIZE) = 12 ∧
      kfree h1 (S + HEADER_SIZE) = Except.ok h2 ∧
      (kmalloc h2 fr1 8).1 = S + HEADER_SIZE ∧
      ksize (kmalloc h2 fr1 8).2.1 (S + HEADER_SIZE) = 12 ∧
      (∀ x, ¬ x = S + 4 → (kmalloc h2 fr1 8).2.1.mem x = h1.mem x) ∧
      (kmalloc h2 fr1 8).2.1.heapBrk = h1.heapBrk := by
  have halloc10 : allocSizeOf 10 = 12 := by decide
  have halloc8 : allocSizeOf 8 = 8 := by decide
  have hmod : (S + 20) % U32 = S + 20 := Nat.mod_eq_of_lt (by omega)
  have hkbrk : kbrk ⟨m, S, S, S, c⟩ fr 20 =
      (S, ⟨m, S, S + 20, S + PAGE_SIZE, c⟩, reserve_frame fr S) := by
    rw [kbrk_eq (by omega)]
    simp only [hmod]
    rw [reserveLoop_one (by omega) (by simp only [PAGE_SIZE]; omega)]
  have hk1 : kmalloc ⟨m, S, S, S, c⟩ fr 10 =
      (S + HEADER_SIZE,
       ⟨upd (upd m S 12) (S + 4) 0, S, S + 20, S + PAGE_SIZE, c + 1⟩,
       reserve_frame fr S) := by
    rw [kmalloc_eq_grow (by omega) (by rw [if_neg (by simp)]) ?hb]
    case hb =>
      rw [halloc10]
      simp only [HEADER_SIZE]
      rw [hkbrk]
      exact hS
    rw [halloc10]
    simp only [HEADER_SIZE]
    rw [hkbrk]
  have hS4 : ¬ (S : Nat) = S + 4 := by omega
  have hM1S : upd (upd m S 12) (S + 4) 0 S = 12 := by
    rw [upd_other _ _ _ hS4, upd_same]
  have hM1S4 : upd (upd m S 12) (S + 4) 0 (S + 4) = 0 := upd_same _ _ _
  have hM2S : upd (upd (upd m S 12) (S + 4) 0) (S + 4) 1 S = 12 := by
    rw [upd_other _ _ _ hS4, upd_other _ _ _ hS4, upd_same]
  have hM2S4 : upd (upd (upd m S 12) (S + 4) 0) (S + 4) 1 (S + 4) = 1 := upd_same _ _ _
  have hsub : S + HEADER_SIZE - HEADER_SIZE = S := by simp only [HEADER_SIZE]; omega
  have hsub8 : S + 8 - 8 = S := by omega
  have hfree1 : kfree ⟨upd (upd m S 12) (S + 4) 0, S, S + 20, S + PAGE_SIZE, c + 1⟩
      (S + HEADER_SIZE) =
      Except.ok ⟨upd (upd (upd m S 12) (S + 4) 0) (S + 4) 1, S, S + 20, S + PAGE_SIZE,
        c + 1 - 1⟩ := by
    unfold kfree
    rw [if_neg (by simp only [HEADER_SIZE]; omega)]
    simp only [blockFlags, blockSize, hsub, hM1S, hM1S4]
    rw [if_neg (by omega)]
    rw [if_neg (by simp only [HEADER_SIZE]; omega)]
    have : flagSetFree 0 = 1 := by decide
    rw [this]
  have hwalk2 : kmallocLoop
      ⟨upd (upd (upd m S 12) (S + 4) 0) (S + 4) 1, S, S + 20, S + PAGE_SIZE, c + 1 - 1⟩
      (allocSizeOf 8) S =
      some (S + HEADER_SIZE,
        ⟨upd (upd (upd (upd m S 12) (S + 4) 0) (S + 4) 1) (S + 4) 0, S, S + 20,
         S + PAGE_SIZE, c + 1 - 1 + 1⟩) := by
    rw [halloc8]
    rw [kmallocLoop_take (by simp only []; omega)
      (by simp only [blockFlags, hM2S4]) (by simp only [blockSize, hM2S]; omega)
      (by simp only [blockSize, hM2S, HEADER_SIZE, MIN_ALLOC]; omega)]
    simp only [blockFlags, hM2S4]
    have : flagSetUsed 1 = 0 := by decide
    rw [this]
  have hk2 : kmalloc
      ⟨upd (upd (upd m S 12) (S + 4) 0) (S + 4) 1, S, S + 20, S + PAGE_SIZE, c + 1 - 1⟩
      (reserve_frame fr S) 8 =
      (S + HEADER_SIZE,
       ⟨upd (upd (upd (upd m S 12) (S + 4) 0) (S + 4) 1) (S + 4) 0, S, S + 20,
        S + PAGE_SIZE, c + 1 - 1 + 1⟩,
       reserve_frame fr S) := by
    rw [kmalloc_eq_found (by omega) (by rw [if_pos (by simp only []; omega)]; exact hwalk2)]
  refine ⟨_, _, _, hk1, ?_, hfree1, ?_, ?_, ?_, ?_⟩
  · simp only [ksize, HEADER_SIZE, blockSize]
    rw [if_neg (by omega), hsub8]
    exact hM1S
  · rw [hk2]
  · rw [hk2]
    simp only [ksize, HEADER_SIZE, blockSize]
    rw [if_neg (by omega), hsub8]
    rw [upd_other _ _ _ hS4]
    exact hM2S
  · intro x hx
    rw [hk2]
    simp only []
    rw [upd_other _ _ _ hx, upd_other _ _ _ hx]
  · rw [hk2]

/-- C7 witness: the scenario run from the concrete empty arena at 4096 with
zeroed memory and a trivial frame state. -/
theorem C7_kmalloc_reuse_without_split_witness :
    (¬ (4096 : Nat) = 0 ∧ 4096 + 4096 < U32) ∧
    (∃ h1 fr1 h2,
      kmalloc ⟨fun _ => 0, 4096, 4096, 4096, 0⟩ ⟨fun _ => true, 1, 1⟩ 10 =
        (4096 + HEADER_SIZE, h1, fr1) ∧
      ksize h1 (4096 + HEADER_SIZE) = 12 ∧
      kfree h1 (4096 + HEADER_SIZE) = Except.ok h2 ∧
      (kmalloc h2 fr1 8).1 = 4096 + HEADER_SIZE ∧
      ksize (kmalloc h2 fr1 8).2.1 (4096 + HEADER_SIZE) = 12 ∧
      (∀ x, ¬ x = 4096 + 4 → (kmalloc h2 fr1 8).2.1.mem x = h1.mem x) ∧
      (kmalloc h2 fr1 8).2.1.heapBrk = h1.heapBrk) :=
  ⟨⟨by decide, by decide⟩,
   C7_kmalloc_reuse_without_split (fun _ => 0) ⟨fun _ => true, 1, 1⟩ 4096 0
     (by decide) (by decide)⟩

/-! ## Scan lemmas for the frame allocator and C4 -/

theorem findFree_some {bm : Nat → Bool} {lo hi f : Nat}
    (h : findFree bm lo hi = some f) :
    lo ≤ f ∧ f < hi ∧ bitmap_test bm f = false := by
  suffices H : ∀ n lo, hi - lo ≤ n → findFree bm lo hi = some f →
      lo ≤ f ∧ f < hi ∧ bitmap_test bm f = false from H (hi - lo) lo le_rfl h
  intro n
  induction n with
  | zero =>
    intro lo hn h
    unfold findFree at h
    rw [dif_neg (by omega)] at h
    exact absurd h (by simp)
  | succ n ih =>
    intro lo hn h
    unfold findFree at h
    by_cases hlt : lo < hi
    · rw [dif_pos hlt] at h
      by_cases hb : bitmap_test bm lo = true
      · rw [if_pos hb] at h
        obtain ⟨h1, h2, h3⟩ := ih (lo + 1) (by omega) h
        exact ⟨by omega, h2, h3⟩
      · rw [if_neg hb] at h
        injection h with h
        subst h
        exact ⟨le_rfl, hlt, by simpa using hb⟩
    · rw [dif_neg hlt] at h
      exact absurd h (by simp)

theorem findFree_none {bm : Nat → Bool} {lo hi : Nat}
    (h : findFree bm lo hi = none) :
    ∀ f, lo ≤ f → f < hi → bitmap_test bm f = true := by
  suffices H : ∀ n lo, hi - lo ≤ n → findFree bm lo hi = none →
      ∀ f, lo ≤ f → f < hi → bitmap_test bm f = true from H (hi - lo) lo le_rfl h
  intro n
  induction n with
  | zero =>
    intro lo hn h f hf1 hf2
    omega
  | succ n ih =>
    intro lo hn h f hf1 hf2
    unfold findFree at h
    by_cases hlt : lo < hi
    · rw [dif_pos hlt] at h
      by_cases hb : bitmap_test bm lo = true
      · rw [if_pos hb] at h
        rcases Nat.eq_or_lt_of_le hf1 with rfl | hgt
        · exact hb
        · exact ih (lo + 1) (by omega) h f hgt hf2
      · rw [if_neg hb] at h
        exact absurd h (by simp)
    · omega

theorem scanWindow_none {bm : Nat → Bool} {frame count i : Nat}
    (h : scanWindow bm frame count i = none) :
    ∀ j, i ≤ j → j < count → bitmap_test bm (frame + j) = false := by
  suffices H : ∀ n i, count - i ≤ n → scanWindow bm frame count i = none →
      ∀ j, i ≤ j → j < count → bitmap_test bm (frame + j) = false from
    H (count - i) i le_rfl h
  intro n
  induction n with
  | zero =>
    intro i hn h j hj1 hj2
    omega
  | succ n ih =>
    intro i hn h j hj1 hj2
    unfold scanWindow at h
    by_cases hlt : i < count
    · rw [dif_pos hlt] at h
      by_cases hb : bitmap_test bm (frame + i) = true
      · rw [if_pos hb] at h
        exact absurd h (by simp)
      · rw [if_neg hb] at h
        rcases Nat.eq_or_lt_of_le hj1 with rfl | hgt
        · simpa using hb
        · exact ih (i + 1) (by omega) h j hgt hj2
    · omega

theorem scanWindow_some_test {bm : Nat → Bool} {frame count i j : Nat}
    (h : scanWindow bm frame count i = some j) :
    bitmap_test bm (frame + j) = true := by
  suffices H : ∀ n i, count - i ≤ n → scanWindow bm frame count i = some j →
      bitmap_test bm (frame + j) = true from H (count - i) i le_rfl h
  intro n
  induction n with
  | zero =>
    intro i hn h
    unfold scanWindow at h
    rw [dif_neg (by omega)] at h
    exact absurd h (by simp)
  | succ n ih =>
    intro i hn h
    unfold scanWindow at h
    by_cases hlt : i < count
    · rw [dif_pos hlt] at h
      by_cases hb : bitmap_test bm (frame + i) = true
      · rw [if_pos hb] at h
        injection h with h
        subst h
        exact hb
      · rw [if_neg hb] at h
        exact ih (i + 1) (by omega) h
    · rw [dif_neg hlt] at h
      exact absurd h (by simp)

theorem allocScan_some {bm : Nat → Bool} {total count frame f : Nat}
    (h : allocScan bm total count frame = some f) :
    frame ≤ f ∧ f + count ≤ total ∧
      ∀ i, i < count → bitmap_test bm (f + i) = false := by
  suffices H : ∀ n frame, total + 1 - frame ≤ n → allocScan bm total count frame = some f →
      frame ≤ f ∧ f + count ≤ total ∧
        ∀ i, i < count → bitmap_test bm (f + i) = false from
    H (total + 1 - frame) frame le_rfl h
  intro n
  induction n with
  | zero =>
    intro frame hn h
    unfold allocScan at h
    rw [dif_neg (by omega)] at h
    exact absurd h (by simp)
  | succ n ih =>
    intro frame hn h
    unfold allocScan at h
    by_cases hg : frame + count ≤ total
    · rw [dif_pos hg] at h
      rcases hsw : scanWindow bm frame count 0 with _ | i
      · rw [hsw] at h
        injection h with h
        subst h
        exact ⟨le_rfl, hg, fun i hi => scanWindow_none hsw i (Nat.zero_le i) hi⟩
      · rw [hsw] at h
        obtain ⟨h1, h2, h3⟩ := ih (frame + i + 1) (by omega) h
        exact ⟨by omega, h2, h3⟩
    · rw [dif_neg hg] at h
      exact absurd h (by simp)

theorem allocScan_none {bm : Nat → Bool} {total count frame : Nat}
    (h : allocScan bm total count frame = none) :
    ∀ f, frame ≤ f → f + count ≤ total →
      ∃ i, i < count ∧ bitmap_test bm (f + i) = true := by
  suffices H : ∀ n frame, total + 1 - frame ≤ n → allocScan bm total count frame = none →
      ∀ f, frame ≤ f → f + count ≤ total →
        ∃ i, i < count ∧ bitmap_test bm (f + i) = true from
    H (total + 1 - frame) frame le_rfl h
  intro n
  induction n with
  | zero =>
    intro frame hn h f hf1 hf2
    omega
  | succ n ih =>
    intro frame hn h f hf1 hf2
    unfold allocScan at h
    by_cases hg : frame + count ≤ total
    · rw [dif_pos hg] at h
      rcases hsw : scanWindow bm frame count 0 with _ | i
      · rw [hsw] at h
        exact absurd h (by simp)
      · rw [hsw] at h
        obtain ⟨-, hicnt⟩ := scanWindow_some_lt bm frame count 0 i hsw
        by_cases hcase : frame + i + 1 ≤ f
        · exact ih (frame + i + 1) (by omega) h f hcase hf2
        · refine ⟨frame + i - f, by omega, ?_⟩
          have heq : f + (frame + i - f) = frame + i := by omega
          rw [heq]
          exact scanWindow_some_test hsw
    · omega

theorem markRun_test_out {bm : Nat → Bool} {f count x : Nat}
    (h : x < f ∨ f + count ≤ x) :
    bitmap_test (markRun bm f count) x = bitmap_test bm x := by
  induction count with
  | zero => rfl
  | succ c ih =>
    show bitmap_test (bitmap_set (markRun bm f c) (f + c)) x = _
    rw [bitmap_test_set_other _ _ (by omega), ih (by omega)]

theorem markRun_test_in {bm : Nat → Bool} {f count : Nat} (hmax : f + count ≤ MAX_FRAMES) :
    ∀ x, f ≤ x → x < f + count → bitmap_test (markRun bm f count) x = true := by
  induction count with
  | zero =>
    intro x h1 h2
    omega
  | succ c ih =>
    intro x h1 h2
    show bitmap_test (bitmap_set (markRun bm f c) (f + c)) x = true
    by_cases hx : x = f + c
    · subst hx
      exact bitmap_test_set_self _ (by omega)
    · rw [bitmap_test_set_other _ _ hx]
      exact ih (by omega) x h1 (by omega)

theorem alloc_frame_eq_find1 {s : FrameState} {f : Nat}
    (h : findFree s.bitmap 256 s.totalFrames = some f) :
    alloc_frame s = (f * PAGE_SIZE,
      { s with bitmap := bitmap_set s.bitmap f, usedFrames := s.usedFrames + 1 }) := by
  unfold alloc_frame
  rw [h]

theorem alloc_frame_eq_find2 {s : FrameState} {f : Nat}
    (h1 : findFree s.bitmap 256 s.totalFrames = none)
    (h2 : findFree s.bitmap 0 256 = some f) :
    alloc_frame s = (f * PAGE_SIZE,
      { s with bitmap := bitmap_set s.bitmap f, usedFrames := s.usedFrames + 1 }) := by
  unfold alloc_frame
  rw [h1, h2]

theorem alloc_frame_eq_none {s : FrameState}
    (h1 : findFree s.bitmap 256 s.totalFrames = none)
    (h2 : findFree s.bitmap 0 256 = none) :
    alloc_frame s = (0, s) := by
  unfold alloc_frame
  rw [h1, h2]

theorem alloc_frames_zero (s : FrameState) : alloc_frames s 0 = (0, s) := by
  unfold alloc_frames
  rw [if_pos rfl]

theorem alloc_frames_one (s : FrameState) : alloc_frames s 1 = alloc_frame s := by
  unfold alloc_frames
  rw [if_neg (by omega), if_pos rfl]

theorem alloc_frames_many_some {s : FrameState} {count f : Nat} (hc : 2 ≤ count)
    (h : allocScan s.bitmap s.totalFrames count 256 = some f) :
    alloc_frames s count = (f * PAGE_SIZE,
      { s with bitmap := markRun s.bitmap f count,
               usedFrames := s.usedFrames + count }) := by
  unfold alloc_frames
  rw [if_neg (by omega), if_neg (by omega), h]

theorem alloc_frames_many_none {s : FrameState} {count : Nat} (hc : 2 ≤ count)
    (h : allocScan s.bitmap s.totalFrames count 256 = none) :
    alloc_frames s count = (0, s) := by
  unfold alloc_frames
  rw [if_neg (by omega), if_neg (by omega), h]

/-- The ranges `alloc_frames` actually scans: for `count = 1` the whole
bitmap (high frames first, then the protected low 256), for `count ≥ 2` only
windows starting at or above frame 256; `count = 0` scans nothing. -/
def HasRun (s : FrameState) (count : Nat) : Prop :=
  if count = 0 then False
  else if count = 1 then
    (∃ f, 256 ≤ f ∧ f < s.totalFrames ∧ bitmap_test s.bitmap f = false) ∨
    (∃ f, f < 256 ∧ bitmap_test s.bitmap f = false)
  else
    ∃ f, 256 ≤ f ∧ f + count ≤ s.totalFrames ∧
      ∀ i, i < count → bitmap_test s.bitmap (f + i) = false

/-- The state refuting C4 as stated: every frame used except frame 0, whose
base address is the failure sentinel. -/
def c4state : FrameState := ⟨fun f => decide (¬ f = 0), 257, 256⟩

/-- C4 counterexample: a run of one clear frame exists (frame 0), yet
`alloc_frames 1` returns the empty result 0 — and it has marked the frame and
incremented `used_count`, so a "failed" call does not leave the state
unchanged: frame 0's base address is indistinguishable from the failure
sentinel. -/
theorem C4_counterexample_frame0_sentinel :
    (alloc_frames c4state 1).1 = 0 ∧
    c4state.usedFrames = 256 ∧
    (alloc_frames c4state 1).2.usedFrames = 257 ∧
    bitmap_test c4state.bitmap 0 = false ∧
    bitmap_test (alloc_frames c4state 1).2.bitmap 0 = true := by
  have h1 : findFree c4state.bitmap 256 c4state.totalFrames = none := by
    unfold findFree
    rw [dif_pos (by decide)]
    rw [if_pos (by decide)]
    unfold findFree
    rw [dif_neg (by decide)]
  have h2 : findFree c4state.bitmap 0 256 = some 0 := by
    unfold findFree
    rw [dif_pos (by decide), if_neg (by decide)]
  rw [alloc_frames_one, alloc_frame_eq_find2 h1 h2]
  refine ⟨by decide, rfl, rfl, by decide, ?_⟩
  exact bitmap_test_set_self _ (by decide)

/-- C4 (amended): (a) a nonzero result of `alloc_frames(count)` is the base
of a window of `count` frames that were all clear at call time and are all
marked afterwards, with `used_count` increased by exactly `count`; (b) when
no run exists in the scanned range the call returns 0 with the state
untouched; (c) a zero result despite an existing run can only be the
`count = 1` case landing on frame 0, whose base address 0 collides with the
failure sentinel — the frame is then marked and `used_count` incremented
even though 0 is returned. -/
theorem C4_alloc_frames_first_fit (s : FrameState) (count : Nat)
    (htot : s.totalFrames ≤ MAX_FRAMES) :
    (¬ (alloc_frames s count).1 = 0 →
       (∀ i, i < count →
         bitmap_test s.bitmap ((alloc_frames s count).1 / PAGE_SIZE + i) = false) ∧
       (∀ i, i < count →
         bitmap_test (alloc_frames s count).2.bitmap
           ((alloc_frames s count).1 / PAGE_SIZE + i) = true) ∧
       (alloc_frames s count).2.usedFrames = s.usedFrames + count) ∧
    (¬ HasRun s count → alloc_frames s count = (0, s)) ∧
    ((alloc_frames s count).1 = 0 → HasRun s count →
       count = 1 ∧ bitmap_test s.bitmap 0 = false ∧
       (alloc_frames s count).2.usedFrames = s.usedFrames + 1) := by
  have hpage : 0 < PAGE_SIZE := by decide
  rcases hcnt : count with _ | _ | c
  · -- count = 0
    rw [alloc_frames_zero]
    exact ⟨fun h => absurd rfl h, fun _ => rfl, fun _ h => absurd h (by simp [HasRun])⟩
  · -- count = 1
    rw [alloc_frames_one]
    rcases h1 : findFree s.bitmap 256 s.totalFrames with _ | f
    · rcases h2 : findFree s.bitmap 0 256 with _ | f
      · rw [alloc_frame_eq_none h1 h2]
        refine ⟨fun h => absurd rfl h, fun _ => rfl, fun _ hrun => ?_⟩
        exfalso
        simp only [HasRun, if_neg (by omega : ¬ (1:Nat) = 0), if_pos rfl] at hrun
        rcases hrun with ⟨f, hf1, hf2, hf3⟩ | ⟨f, hf1, hf2⟩
        · rw [findFree_none h1 f hf1 hf2] at hf3
          exact absurd hf3 (by simp)
        · rw [findFree_none h2 f (Nat.zero_le f) hf1] at hf2
          exact absurd hf2 (by simp)
      · obtain ⟨-, hflt, hfree⟩ := findFree_some h2
        rw [alloc_frame_eq_find2 h1 h2]
        refine ⟨fun hret => ?_, fun hrun => ?_, fun hret _ => ?_⟩
        · have hf0 : ¬ f = 0 := fun h => hret (by simp [h])
          have hdiv : f * PAGE_SIZE / PAGE_SIZE = f := Nat.mul_div_cancel f hpage
          rw [hdiv]
          refine ⟨fun i hi => ?_, fun i hi => ?_, rfl⟩
          · have : i = 0 := by omega
            subst this
            simpa using hfree
          · have : i = 0 := by omega
            subst this
            rw [Nat.add_zero]
            exact bitmap_test_set_self _ (by simp only [MAX_FRAMES]; omega)
        · exfalso
          apply hrun
          simp only [HasRun, if_neg (by omega : ¬ (1:Nat) = 0), if_pos rfl]
          exact Or.inr ⟨f, hflt, hfree⟩
        · have hf0 : f = 0 := by
            by_contra hne
            simp only at hret
            have : 0 < f * PAGE_SIZE := Nat.mul_pos (by omega) hpage
            omega
          subst hf0
          exact ⟨rfl, hfree, rfl⟩
    · obtain ⟨hfge, hflt, hfree⟩ := findFree_some h1
      rw [alloc_frame_eq_find1 h1]
      have hret : ¬ f * PAGE_SIZE = 0 := by
        have : 0 < f * PAGE_SIZE := Nat.mul_pos (by omega) hpage
        omega
      refine ⟨fun _ => ?_, fun hrun => ?_, fun hr _ => absurd hr hret⟩
      · have hdiv : f * PAGE_SIZE / PAGE_SIZE = f := Nat.mul_div_cancel f hpage
        rw [hdiv]
        refine ⟨fun i hi => ?_, fun i hi => ?_, rfl⟩
        · have : i = 0 := by omega
          subst this
          simpa using hfree
        · have : i = 0 := by omega
          subst this
          rw [Nat.add_zero]
          exact bitmap_test_set_self _ (by simp only [MAX_FRAMES] at *; omega)
      · exfalso
        apply hrun
        simp only [HasRun, if_neg (by omega : ¬ (1:Nat) = 0), if_pos rfl]
        exact Or.inl ⟨f, hfge, hflt, hfree⟩
  · -- count ≥ 2
    have hc2 : 2 ≤ c + 1 + 1 := by omega
    rcases hsc : allocScan s.bitmap s.totalFrames (c + 1 + 1) 256 with _ | f
    · rw [alloc_frames_many_none hc2 hsc]
      refine ⟨fun h => absurd rfl h, fun _ => rfl, fun _ hrun => ?_⟩
      exfalso
      simp only [HasRun, if_neg (by omega : ¬ c + 1 + 1 = 0),
        if_neg (by omega : ¬ c + 1 + 1 = 1)] at hrun
      obtain ⟨f, hf1, hf2, hf3⟩ := hrun
      obtain ⟨i, hi, hit⟩ := allocScan_none hsc f hf1 hf2
      rw [hf3 i hi] at hit
      exact absurd hit (by simp)
    · obtain ⟨hfge, hwin, hfree⟩ := allocScan_some hsc
      rw [alloc_frames_many_some hc2 hsc]
      have hret : ¬ f * PAGE_SIZE = 0 := by
        have : 0 < f * PAGE_SIZE := Nat.mul_pos (by omega) hpage
        omega
      refine ⟨fun _ => ?_, fun hrun => ?_, fun hr _ => absurd hr hret⟩
      · have hdiv : f * PAGE_SIZE / PAGE_SIZE = f := Nat.mul_div_cancel f hpage
        rw [hdiv]
        exact ⟨hfree,
          fun i hi => markRun_test_in (by omega) (f + i) (by omega) (by omega), rfl⟩
      · exfalso
        apply hrun
        simp only [HasRun, if_neg (by omega : ¬ c + 1 + 1 = 0),
          if_neg (by omega : ¬ c + 1 + 1 = 1)]
        exact ⟨f, hfge, hwin, hfree⟩

/-- C4 witness: a state with frames 256–299 clear, applied at `count = 2`. -/
theorem C4_alloc_frames_first_fit_witness :
    ((⟨fun f => decide (f < 256), 300, 256⟩ : FrameState).totalFrames ≤ MAX_FRAMES) ∧
    ((¬ (alloc_frames ⟨fun f => decide (f < 256), 300, 256⟩ 2).1 = 0 →
       (∀ i, i < 2 →
         bitmap_test (fun f => decide (f < 256))
           ((alloc_frames ⟨fun f => decide (f < 256), 300, 256⟩ 2).1 / PAGE_SIZE + i) = false) ∧
       (∀ i, i < 2 →
         bitmap_test (alloc_frames ⟨fun f => decide (f < 256), 300, 256⟩ 2).2.bitmap
           ((alloc_frames ⟨fun f => decide (f < 256), 300, 256⟩ 2).1 / PAGE_SIZE + i) = true) ∧
       (alloc_frames ⟨fun f => decide (f < 256), 300, 256⟩ 2).2.usedFrames = 256 + 2) ∧
     (¬ HasRun ⟨fun f => decide (f < 256), 300, 256⟩ 2 →
       alloc_frames ⟨fun f => decide (f < 256), 300, 256⟩ 2 =
         (0, ⟨fun f => decide (f < 256), 300, 256⟩)) ∧
     ((alloc_frames ⟨fun f => decide (f < 256), 300, 256⟩ 2).1 = 0 →
       HasRun ⟨fun f => decide (f < 256), 300, 256⟩ 2 →
       2 = 1 ∧ bitmap_test (fun f => decide (f < 256)) 0 = false ∧
       (alloc_frames ⟨fun f => decide (f < 256), 300, 256⟩ 2).2.usedFrames = 256 + 1)) :=
  ⟨by decide, C4_alloc_frames_first_fit ⟨fun f => decide (f < 256), 300, 256⟩ 2 (by decide)⟩

/-! ## Range lemmas for frame-allocator init and C5 -/

theorem clearRange_test_out {bm : Nat → Bool} {lo hi x : Nat} (h : x < lo ∨ hi ≤ x) :
    bitmap_test (clearRange bm lo hi) x = bitmap_test bm x := by
  suffices H : ∀ n lo bm, hi - lo ≤ n → (x < lo ∨ hi ≤ x) →
      bitmap_test (clearRange bm lo hi) x = bitmap_test bm x from
    H (hi - lo) lo bm le_rfl h
  intro n
  induction n with
  | zero =>
    intro lo bm hn h
    unfold clearRange
    rw [dif_neg (by omega)]
  | succ n ih =>
    intro lo bm hn h
    unfold clearRange
    by_cases hlt : lo < hi
    · rw [dif_pos hlt]
      rw [ih (lo + 1) _ (by omega) (by omega)]
      exact bitmap_test_clear_other bm lo (by omega)
    · rw [dif_neg hlt]

theorem clearRange_test_in {bm : Nat → Bool} {lo hi x : Nat}
    (h1 : lo ≤ x) (h2 : x < hi) (h3 : x < MAX_FRAMES) :
    bitmap_test (clearRange bm lo hi) x = false := by
  suffices H : ∀ n lo bm, hi - lo ≤ n → lo ≤ x → x < hi →
      bitmap_test (clearRange bm lo hi) x = false from H (hi - lo) lo bm le_rfl h1 h2
  intro n
  induction n with
  | zero =>
    intro lo bm hn hx1 hx2
    omega
  | succ n ih =>
    intro lo bm hn hx1 hx2
    unfold clearRange
    rw [dif_pos (by omega)]
    rcases Nat.eq_or_lt_of_le hx1 with rfl | hgt
    · rw [clearRange_test_out (Or.inl (by omega))]
      exact bitmap_test_clear_self bm h3
    · exact ih (lo + 1) _ (by omega) hgt hx2

theorem clearRange_preserves_false {bm : Nat → Bool} {lo hi x : Nat}
    (h : bitmap_test bm x = false) :
    bitmap_test (clearRange bm lo hi) x = false := by
  have hmax : x < MAX_FRAMES := by
    by_contra hge
    rw [bitmap_test, if_neg hge] at h
    exact absurd h (by simp)
  by_cases hin : lo ≤ x ∧ x < hi
  · exact clearRange_test_in hin.1 hin.2 hmax
  · rw [clearRange_test_out (by omega)]
    exact h

theorem setRange_test_out {bm : Nat → Bool} {lo hi x : Nat} (h : x < lo ∨ hi ≤ x) :
    bitmap_test (setRange bm lo hi) x = bitmap_test bm x := by
  suffices H : ∀ n lo bm, hi - lo ≤ n → (x < lo ∨ hi ≤ x) →
      bitmap_test (setRange bm lo hi) x = bitmap_test bm x from
    H (hi - lo) lo bm le_rfl h
  intro n
  induction n with
  | zero =>
    intro lo bm hn h
    unfold setRange
    rw [dif_neg (by omega)]
  | succ n ih =>
    intro lo bm hn h
    unfold setRange
    by_cases hlt : lo < hi
    · rw [dif_pos hlt]
      rw [ih (lo + 1) _ (by omega) (by omega)]
      exact bitmap_test_set_other bm lo (by omega)
    · rw [dif_neg hlt]

theorem setRange_test_in {bm : Nat → Bool} {lo hi x : Nat}
    (h1 : lo ≤ x) (h2 : x < hi) (h3 : x < MAX_FRAMES) :
    bitmap_test (setRange bm lo hi) x = true := by
  suffices H : ∀ n lo bm, hi - lo ≤ n → lo ≤ x → x < hi →
      bitmap_test (setRange bm lo hi) x = true from H (hi - lo) lo bm le_rfl h1 h2
  intro n
  induction n with
  | zero =>
    intro lo bm hn hx1 hx2
    omega
  | succ n ih =>
    intro lo bm hn hx1 hx2
    unfold setRange
    rw [dif_pos (by omega)]
    rcases Nat.eq_or_lt_of_le hx1 with rfl | hgt
    · rw [setRange_test_out (Or.inl (by omega))]
      exact bitmap_test_set_self bm h3
    · exact ih (lo + 1) _ (by omega) hgt hx2

/-- The frame range cleared for a region, as used-frame containment: the
frame `[f·4096, (f+1)·4096)` lies inside the usable byte range
`[base, base + length)`. -/
def FrameContained (f : Nat) (r : Nat × Nat) : Prop :=
  r.1 ≤ f * PAGE_SIZE ∧ (f + 1) * PAGE_SIZE ≤ r.1 + r.2

/-- Absent `u32` overflow in `align_up(base)` and `base + length`, the
cleared frame window for a region is exactly the set of fully contained
frames. -/
theorem region_window_iff {r : Nat × Nat} {f : Nat}
    (hb : r.1 + PAGE_SIZE - 1 < U32) (hs : r.1 + r.2 < U32) :
    (regionLo r ≤ f ∧ f < regionHi r) ↔ FrameContained f r := by
  have hmin : min (r.1 + r.2) (U32 - 1) = r.1 + r.2 := Nat.min_eq_left (by omega)
  simp only [regionLo, regionHi, align_up, align_down, FrameContained, hmin,
    PAGE_SIZE, U32] at *
  rw [Nat.mod_eq_of_lt (by omega)]
  omega

/-- Folding the per-region clears over a region list. -/
theorem foldClear_preserves_false {rs : List (Nat × Nat)} {bm : Nat → Bool} {x : Nat}
    (h : bitmap_test bm x = false) :
    bitmap_test (rs.foldl (fun bm r => clearRange bm (regionLo r) (regionHi r)) bm) x
      = false := by
  induction rs generalizing bm with
  | nil => exact h
  | cons r rs ih => exact ih (clearRange_preserves_false h)

theorem foldClear_in {rs : List (Nat × Nat)} {bm : Nat → Bool} {x : Nat}
    (hmax : x < MAX_FRAMES)
    (h : ∃ r ∈ rs, regionLo r ≤ x ∧ x < regionHi r) :
    bitmap_test (rs.foldl (fun bm r => clearRange bm (regionLo r) (regionHi r)) bm) x
      = false := by
  induction rs generalizing bm with
  | nil => simp at h
  | cons r rs ih =>
    rcases h with ⟨r', hr', hcond⟩
    rw [List.foldl_cons]
    rcases List.mem_cons.mp hr' with rfl | hmem
    · exact foldClear_preserves_false (clearRange_test_in hcond.1 hcond.2 hmax)
    · exact ih ⟨r', hmem, hcond⟩

theorem foldClear_out {rs : List (Nat × Nat)} {bm : Nat → Bool} {x : Nat}
    (h : ∀ r ∈ rs, ¬ (regionLo r ≤ x ∧ x < regionHi r)) :
    bitmap_test (rs.foldl (fun bm r => clearRange bm (regionLo r) (regionHi r)) bm) x
      = bitmap_test bm x := by
  induction rs generalizing bm with
  | nil => rfl
  | cons r rs ih =>
    rw [List.foldl_cons, ih (fun r' hr' => h r' (List.mem_cons_of_mem r hr'))]
    exact clearRange_test_out (by
      have := h r (List.mem_cons_self r rs)
      omega)

theorem frame_init_bitmap (regions : List (Nat × Nat)) (kstart kend totalMemory : Nat) :
    (frame_init regions kstart kend totalMemory).bitmap =
      setRange (setRange
        (regions.foldl (fun bm r => clearRange bm (regionLo r) (regionHi r)) (fun _ => true))
        0 (1048576 / PAGE_SIZE))
        (kstart / PAGE_SIZE) (align_up kend PAGE_SIZE / PAGE_SIZE) := rfl

theorem frame_init_total (regions : List (Nat × Nat)) (kstart kend totalMemory : Nat) :
    (frame_init regions kstart kend totalMemory).totalFrames =
      if totalMemory > 0 then totalMemory / PAGE_SIZE else MAX_FRAMES := rfl

/-- C5 (amended): after `init`, for every frame `f` in range, `is_used` is
true for every frame below 1 MiB and in the kernel window
`[kstart/4096, align_up(kend)/4096)`; every other frame is clear exactly
when it is fully contained in some reported usable region — provided no
region triggers the 32-bit wrap of `align_up(base)` or of `base + length`. -/
theorem C5_frame_init_classification (regions : List (Nat × Nat))
    (kstart kend totalMemory : Nat)
    (hreg : ∀ r ∈ regions, r.1 + PAGE_SIZE - 1 < U32 ∧ r.1 + r.2 < U32)
    (htm : totalMemory < U32) (f : Nat)
    (hf : f < (frame_init regions kstart kend totalMemory).totalFrames) :
    ((f < 256 ∨ (kstart / PAGE_SIZE ≤ f ∧ f < align_up kend PAGE_SIZE / PAGE_SIZE)) →
      is_frame_used (frame_init regions kstart kend totalMemory) (f * PAGE_SIZE) = true) ∧
    (¬ f < 256 → ¬ (kstart / PAGE_SIZE ≤ f ∧ f < align_up kend PAGE_SIZE / PAGE_SIZE) →
      (is_frame_used (frame_init regions kstart kend totalMemory) (f * PAGE_SIZE) = false
        ↔ ∃ r ∈ regions, FrameContained f r)) := by
  have hmax : f < MAX_FRAMES := by
    rw [frame_init_total] at hf
    by_cases h0 : totalMemory > 0
    · rw [if_pos h0] at hf
      simp only [PAGE_SIZE, MAX_FRAMES, U32] at *
      omega
    · rw [if_neg h0] at hf
      exact hf
  have hused : is_frame_used (frame_init regions kstart kend totalMemory) (f * PAGE_SIZE)
      = bitmap_test (frame_init regions kstart kend totalMemory).bitmap f := by
    unfold is_frame_used
    rw [Nat.mul_div_cancel f (by decide : 0 < PAGE_SIZE)]
  constructor
  · intro hcase
    rw [hused, frame_init_bitmap]
    by_cases hker : kstart / PAGE_SIZE ≤ f ∧ f < align_up kend PAGE_SIZE / PAGE_SIZE
    · exact setRange_test_in hker.1 hker.2 hmax
    · have hlow : f < 256 := by tauto
      rw [setRange_test_out (by omega)]
      exact setRange_test_in (Nat.zero_le f) (by simp only [PAGE_SIZE]; omega) hmax
  · intro hnl hnk
    rw [hused, frame_init_bitmap]
    rw [setRange_test_out (by omega), setRange_test_out
      (by simp only [PAGE_SIZE]; omega)]
    constructor
    · intro hfalse
      by_contra hnone
      push_neg at hnone
      rw [foldClear_out (fun r hr => ?_)] at hfalse
      · rw [bitmap_test, if_pos hmax] at hfalse
        exact absurd hfalse (by simp)
      · intro hwin
        exact hnone r hr ((region_window_iff (hreg r hr).1 (hreg r hr).2).mp hwin)
    · rintro ⟨r, hr, hcont⟩
      exact foldClear_in hmax
        ⟨r, hr, (region_window_iff (hreg r hr).1 (hreg r hr).2).mpr hcont⟩

/-- C5 counterexample: the usable region `(0xFFFFF800, 0x100)` contains no
frame at all (it does not even intersect frame 300), yet after `init` frame
300 — in range, above 1 MiB, outside the (empty) kernel window — reads as
free: `align_up(base)` wraps to 0, so the region clears almost the whole
bitmap. -/
theorem C5_counterexample_alignup_wrap :
    is_frame_used (frame_init [(4294965248, 256)] 1048576 1048576 4194304)
      (300 * PAGE_SIZE) = false ∧
    300 < (frame_init [(4294965248, 256)] 1048576 1048576 4194304).totalFrames ∧
    ¬ (300 : Nat) < 256 ∧
    ¬ (1048576 / PAGE_SIZE ≤ (300 : Nat) ∧
       (300 : Nat) < align_up 1048576 PAGE_SIZE / PAGE_SIZE) ∧
    (∀ r ∈ [((4294965248 : Nat), (256 : Nat))],
      r.1 + r.2 ≤ 300 * PAGE_SIZE ∨ (300 + 1) * PAGE_SIZE ≤ r.1) := by
  refine ⟨?_, by decide, by decide, by decide, by decide⟩
  have hused : is_frame_used (frame_init [(4294965248, 256)] 1048576 1048576 4194304)
      (300 * PAGE_SIZE)
      = bitmap_test (frame_init [(4294965248, 256)] 1048576 1048576 4194304).bitmap 300 := by
    unfold is_frame_used
    rw [Nat.mul_div_cancel 300 (by decide : 0 < PAGE_SIZE)]
  rw [hused, frame_init_bitmap]
  rw [setRange_test_out (by decide), setRange_test_out (by decide)]
  rw [List.foldl_cons, List.foldl_nil]
  rw [show regionLo (4294965248, 256) = 0 from by decide,
      show regionHi (4294965248, 256) = 1048575 from by decide]
  exact clearRange_test_in (by decide) (by decide) (by decide)

/-- C5 witness: the classification applied to a well-formed two-region boot
map with a 4 MiB machine and a small kernel footprint. -/
theorem C5_frame_init_classification_witness :
    ((∀ r ∈ [((0 : Nat), (655360 : Nat)), ((1048576 : Nat), (3145728 : Nat))],
        r.1 + PAGE_SIZE - 1 < U32 ∧ r.1 + r.2 < U32) ∧
     (4194304 : Nat) < U32 ∧
     (300 : Nat) < (frame_init [(0, 655360), (1048576, 3145728)] 1048576 1248576
       4194304).totalFrames) ∧
    (((300 : Nat) < 256 ∨ (1048576 / PAGE_SIZE ≤ (300 : Nat) ∧
        (300 : Nat) < align_up 1248576 PAGE_SIZE / PAGE_SIZE)) →
      is_frame_used (frame_init [(0, 655360), (1048576, 3145728)] 1048576 1248576 4194304)
        (300 * PAGE_SIZE) = true) ∧
    (¬ (300 : Nat) < 256 → ¬ (1048576 / PAGE_SIZE ≤ (300 : Nat) ∧
        (300 : Nat) < align_up 1248576 PAGE_SIZE / PAGE_SIZE) →
      (is_frame_used (frame_init [(0, 655360), (1048576, 3145728)] 1048576 1248576 4194304)
        (300 * PAGE_SIZE) = false
        ↔ ∃ r ∈ [((0 : Nat), (655360 : Nat)), ((1048576 : Nat), (3145728 : Nat))],
            FrameContained 300 r)) :=
  ⟨⟨by decide, by decide, by decide⟩,
   C5_frame_init_classification [(0, 655360), (1048576, 3145728)] 1048576 1248576 4194304
     (by decide) (by decide) 300 (by decide)⟩

/-! ## The heap block chain (C3)

`ChainL m a brk l` says: starting at address `a` and repeatedly stepping to
`header-address + HEADER_SIZE + size`, the walk visits exactly the
addresses in `l` and lands exactly on `brk` — the spec's "valid
singly-chained sequence derivable by repeatedly adding header+size". -/

inductive ChainL (m : Nat → Nat) : Nat → Nat → List Nat → Prop where
  | nil (brk : Nat) : ChainL m brk brk []
  | cons (a brk : Nat) (l : List Nat) (hlt : a < brk)
      (hnext : ChainL m (a + HEADER_SIZE + m a) brk l) : ChainL m a brk (a :: l)

/-- The C3 invariant: the whole arena is one valid chain. -/
def ChainInv (h : HeapState) : Prop :=
  ∃ l, ChainL h.mem h.heapStart h.heapBrk l

theorem chainL_le {m : Nat → Nat} {a brk : Nat} {l : List Nat}
    (h : ChainL m a brk l) : a ≤ brk := by
  cases h with
  | nil => exact le_rfl
  | cons _ _ _ hlt _ => exact Nat.le_of_lt hlt

theorem chainL_mem_bounds {m : Nat → Nat} {a brk : Nat} {l : List Nat}
    (h : ChainL m a brk l) : ∀ p ∈ l, a ≤ p ∧ p < brk := by
  induction h with
  | nil => simp
  | cons a brk l hlt hnext ih =>
    intro p hp
    rcases List.mem_cons.mp hp with rfl | hmem
    · exact ⟨le_rfl, hlt⟩
    · have := ih p hmem
      constructor
      · calc a ≤ a + HEADER_SIZE + m a := by omega
          _ ≤ p := this.1
      · exact this.2

theorem chainL_congr {m m' : Nat → Nat} {a brk : Nat} {l : List Nat}
    (h : ChainL m a brk l) (heq : ∀ p ∈ l, m' p = m p) : ChainL m' a brk l := by
  induction h with
  | nil => exact ChainL.nil _
  | cons a brk l hlt hnext ih =>
    refine ChainL.cons a brk l hlt ?_
    rw [heq a (List.mem_cons_self a l)]
    exact ih fun p hp => heq p (List.mem_cons_of_mem a hp)

theorem chainL_append {m : Nat → Nat} {a b c : Nat} {l1 l2 : List Nat}
    (h1 : ChainL m a b l1) (h2 : ChainL m b c l2) : ChainL m a c (l1 ++ l2) := by
  induction h1 with
  | nil => exact h2
  | cons a b l hlt hnext ih =>
    exact ChainL.cons a c _ (Nat.lt_of_lt_of_le hlt (chainL_le h2)) (ih h2)

theorem chainL_split {m : Nat → Nat} {a brk c : Nat} {l : List Nat}
    (h : ChainL m a brk l) (hc : c ∈ l) :
    ∃ l1 l2, l = l1 ++ c :: l2 ∧ ChainL m a c l1 ∧ ChainL m c brk (c :: l2) := by
  induction h with
  | nil => simp at hc
  | cons a brk l hlt hnext ih =>
    rcases List.mem_cons.mp hc with hca | hmem
    · subst hca
      exact ⟨[], l, rfl, ChainL.nil c, ChainL.cons c brk l hlt hnext⟩
    · obtain ⟨l1, l2, heq, hfront, hback⟩ := ih hmem
      refine ⟨a :: l1, l2, by simp [heq], ?_, hback⟩
      have hac : a < c := by
        have hb := (chainL_mem_bounds hnext c hmem).1
        simp only [HEADER_SIZE] at hb
        omega
      exact ChainL.cons a c l1 hac hfront

theorem chainL_elim {m : Nat → Nat} {a brk : Nat} {l : List Nat}
    (h : ChainL m a brk l) :
    (l = [] ∧ a = brk) ∨
    (∃ l', l = a :: l' ∧ a < brk ∧ ChainL m (a + HEADER_SIZE + m a) brk l') := by
  cases h with
  | nil => exact Or.inl ⟨rfl, rfl⟩
  | cons _ _ l' hlt hnext => exact Or.inr ⟨l', rfl, hlt, hnext⟩

/-- A zero-filled span of `8·n` bytes parses as a chain of `n` empty used
blocks ending exactly at `a + 8·n`. -/
theorem chainL_of_zeros {m : Nat → Nat} :
    ∀ (n a : Nat), (∀ x, a ≤ x → x < a + 8 * n → m x = 0) →
      ∃ l, ChainL m a (a + 8 * n) l := by
  intro n
  induction n with
  | zero =>
    intro a hz
    exact ⟨[], by simpa using ChainL.nil a⟩
  | succ n ih =>
    intro a hz
    obtain ⟨l, hl⟩ := ih (a + 8) (fun x hx1 hx2 => hz x (by omega) (by omega))
    refine ⟨a :: l, ChainL.cons a (a + 8 * (n + 1)) l (by omega) ?_⟩
    have hma : m a = 0 := hz a le_rfl (by omega)
    have harith : a + HEADER_SIZE + m a = a + 8 := by
      simp only [HEADER_SIZE, hma]
    rw [harith]
    have : a + 8 + 8 * n = a + 8 * (n + 1) := by omega
    rw [this] at hl
    exact hl

/-- The first-fit walk preserves the chain: either it finds nothing (and
builds no state), or the state it returns is again a valid chain from the
walk's start, with the arena bounds unchanged and no write below the start. -/
theorem kmallocLoop_chain {h : HeapState} {alloc : Nat} {a brk : Nat} {l : List Nat}
    (hch : ChainL h.mem a brk l) (hbrk : brk = h.heapBrk) :
    kmallocLoop h alloc a = none ∨
    ∃ p h', kmallocLoop h alloc a = some (p, h') ∧
      (∃ l', ChainL h'.mem a h'.heapBrk l') ∧
      (∀ x, x < a → h'.mem x = h.mem x) ∧
      h'.heapBrk = h.heapBrk ∧ h'.heapStart = h.heapStart ∧ h'.heapEnd = h.heapEnd := by
  induction hch with
  | nil brk' =>
    left
    exact kmallocLoop_stop (by omega)
  | cons a brk l hlt hnext ih =>
    subst hbrk
    have hnextle : a + HEADER_SIZE + h.mem a ≤ h.heapBrk := chainL_le hnext
    have hbounds := chainL_mem_bounds hnext
    by_cases hfind : blockFlags h.mem a % 2 = 1 ∧ alloc ≤ blockSize h.mem a
    · by_cases hsp : HEADER_SIZE + MIN_ALLOC < blockSize h.mem a - alloc
      · -- split the found block
        right
        rw [kmallocLoop_split hlt hfind.1 hfind.2 hsp]
        have hsz17 : alloc + HEADER_SIZE + MIN_ALLOC + 1 ≤ h.mem a := by
          simp only [blockSize] at hsp
          omega
        simp only [HEADER_SIZE, MIN_ALLOC] at hsz17
        refine ⟨_, _, rfl, ⟨a :: (a + HEADER_SIZE + alloc) :: l, ?_⟩, ?_, rfl, rfl, rfl⟩
        · dsimp only
          have hm4a : (upd (upd (upd (upd h.mem a alloc) (a + 4)
              (flagSetUsed (blockFlags h.mem a)))
              (a + HEADER_SIZE + alloc) (blockSize h.mem a - alloc - HEADER_SIZE))
              (a + HEADER_SIZE + alloc + 4) 1) a = alloc := by
            rw [upd_other _ _ _ (by simp only [HEADER_SIZE]; omega),
                upd_other _ _ _ (by simp only [HEADER_SIZE]; omega),
                upd_other _ _ _ (by omega), upd_same]
          have hm4nb : (upd (upd (upd (upd h.mem a alloc) (a + 4)
              (flagSetUsed (blockFlags h.mem a)))
              (a + HEADER_SIZE + alloc) (blockSize h.mem a - alloc - HEADER_SIZE))
              (a + HEADER_SIZE + alloc + 4) 1) (a + HEADER_SIZE + alloc)
              = blockSize h.mem a - alloc - HEADER_SIZE := by
            rw [upd_other _ _ _ (by omega), upd_same]
          refine ChainL.cons a h.heapBrk _ hlt ?_
          rw [hm4a]
          refine ChainL.cons (a + HEADER_SIZE + alloc) h.heapBrk l
            (by simp only [HEADER_SIZE] at *; omega) ?_
          rw [hm4nb]
          have harith : a + HEADER_SIZE + alloc + HEADER_SIZE +
              (blockSize h.mem a - alloc - HEADER_SIZE) = a + HEADER_SIZE + h.mem a := by
            simp only [HEADER_SIZE, blockSize] at *
            omega
          rw [harith]
          refine chainL_congr hnext fun p hp => ?_
          have hpge := (hbounds p hp).1
          simp only [HEADER_SIZE, blockSize] at *
          rw [upd_other _ _ _ (by omega), upd_other _ _ _ (by omega),
              upd_other _ _ _ (by omega), upd_other _ _ _ (by omega)]
        · intro x hx
          dsimp only
          rw [upd_other _ _ _ (by simp only [HEADER_SIZE]; omega),
              upd_other _ _ _ (by simp only [HEADER_SIZE]; omega),
              upd_other _ _ _ (by omega), upd_other _ _ _ (by omega)]
      · -- take the whole block
        right
        rw [kmallocLoop_take hlt hfind.1 hfind.2 hsp]
        refine ⟨_, _, rfl, ⟨a :: l, ?_⟩, ?_, rfl, rfl, rfl⟩
        · dsimp only
          refine ChainL.cons a h.heapBrk l hlt ?_
          rw [upd_other _ _ _ (by omega : (a : Nat) ≠ a + 4)]
          refine chainL_congr hnext fun p hp => ?_
          have hpge := (hbounds p hp).1
          simp only [HEADER_SIZE] at *
          exact upd_other _ _ _ (by omega)
        · intro x hx
          dsimp only
          exact upd_other _ _ _ (by omega)
    · -- skip to the next block
      rw [kmallocLoop_skip hlt hfind]
      rcases ih rfl with hleft | ⟨p, h', heq, ⟨l', hch'⟩, hlow, hbrk', hstart', hend'⟩
      · left
        exact hleft
      · right
        refine ⟨p, h', heq, ⟨a :: l', ?_⟩, ?_, hbrk', hstart', hend'⟩
        · refine ChainL.cons a h'.heapBrk l' (by omega) ?_
          rw [hlow a (by simp only [HEADER_SIZE]; omega)]
          exact hch'
        · intro x hx
          exact hlow x (by simp only [HEADER_SIZE]; omega)

/-- `kfree` of the data pointer of a chain block preserves the chain: the
freed block either keeps its size (flags-only write) or absorbs exactly its
free successor. -/
theorem kfree_chain_aux {h h' : HeapState} {b : Nat} {l : List Nat}
    (hch : ChainL h.mem h.heapStart h.heapBrk l) (hmem : b ∈ l)
    (hok : kfree h (b + HEADER_SIZE) = Except.ok h') : ChainInv h' := by
  have hsub : b + HEADER_SIZE - HEADER_SIZE = b := by
    simp only [HEADER_SIZE]
    omega
  unfold kfree at hok
  rw [if_neg (by simp only [HEADER_SIZE]; omega)] at hok
  rw [hsub] at hok
  simp only [blockFlags, blockSize] at hok
  obtain ⟨l1, l2, hl, hfront, hback⟩ := chainL_split hch hmem
  have hfb := chainL_mem_bounds hfront
  rcases chainL_elim hback with ⟨habs, -⟩ | ⟨l2', hcons, hblt, hnext⟩
  · exact absurd habs (by simp)
  injection hcons with hhead hl2
  subst hl2
  have hnb := chainL_mem_bounds hnext
  have hnle := chainL_le hnext
  by_cases hdf : h.mem (b + 4) % 2 = 1
  · rw [if_pos hdf] at hok
    exact absurd hok (by simp)
  rw [if_neg hdf] at hok
  by_cases hlt2 : b + HEADER_SIZE + h.mem b < h.heapBrk
  · rw [if_pos hlt2] at hok
    by_cases hcf : (upd h.mem (b + 4) (flagSetFree (h.mem (b + 4))))
        (b + HEADER_SIZE + h.mem b + 4) % 2 = 1
    · -- coalesce with the free successor
      rw [if_pos hcf] at hok
      injection hok with hok
      subst hok
      rcases chainL_elim hnext with ⟨-, hnxbrk⟩ | ⟨l3, hl2c, hclt, hnext2⟩
      · omega
      subst hl2c
      have hnn := chainL_mem_bounds hnext2
      refine ⟨l1 ++ b :: l3, ?_⟩
      dsimp only [ChainInv]
      have hm1nx : (upd h.mem (b + 4) (flagSetFree (h.mem (b + 4))))
          (b + HEADER_SIZE + h.mem b) = h.mem (b + HEADER_SIZE + h.mem b) :=
        upd_other _ _ _ (by simp only [HEADER_SIZE]; omega)
      refine chainL_append (chainL_congr hfront fun p hp => ?_) ?_
      · have hpb := (hfb p hp).2
        rw [upd_other _ _ _ (by omega), upd_other _ _ _ (by omega)]
      · refine ChainL.cons b _ l3 hblt ?_
        rw [upd_same, hm1nx]
        have harith : b + HEADER_SIZE + (h.mem b + HEADER_SIZE +
            h.mem (b + HEADER_SIZE + h.mem b))
            = b + HEADER_SIZE + h.mem b + HEADER_SIZE +
              h.mem (b + HEADER_SIZE + h.mem b) := by
          omega
        rw [harith]
        refine chainL_congr hnext2 fun p hp => ?_
        have hpge := (hnn p hp).1
        rw [upd_other _ _ _ (by simp only [HEADER_SIZE] at *; omega),
            upd_other _ _ _ (by simp only [HEADER_SIZE] at *; omega)]
    · -- successor in use: flags-only write
      rw [if_neg hcf] at hok
      injection hok with hok
      subst hok
      refine ⟨l, ?_⟩
      dsimp only [ChainInv]
      refine chainL_congr hch fun p hp => upd_other _ _ _ ?_
      rw [hl] at hp
      rcases List.mem_append.mp hp with hp1 | hp2
      · have := (hfb p hp1).2
        omega
      · rcases List.mem_cons.mp hp2 with rfl | hp3
        · omega
        · have := (hnb p hp3).1
          simp only [HEADER_SIZE] at *
          omega
  · -- successor at or past the break: flags-only write
    rw [if_neg hlt2] at hok
    injection hok with hok
    subst hok
    refine ⟨l, ?_⟩
    dsimp only [ChainInv]
    refine chainL_congr hch fun p hp => upd_other _ _ _ ?_
    rw [hl] at hp
    rcases List.mem_append.mp hp with hp1 | hp2
    · have := (hfb p hp1).2
      omega
    · rcases List.mem_cons.mp hp2 with rfl | hp3
      · omega
      · have := (hnb p hp3).1
        simp only [HEADER_SIZE] at *
        omega

/-- C3 (amended): the contiguous-chain invariant holds after `heap::init`
provided the initial heap page reads as zeroed memory (init writes no
header, it only advances the break by one page); it is preserved by every
`kmalloc` (whose internal `kbrk` growth immediately writes a header covering
exactly the extension) absent 32-bit overflow of the break, and by every
`kfree` of a data pointer whose header is a block of the chain.  A bare
`kbrk` advances the break without writing any header and so does not in
general preserve the invariant (see the counterexample). -/
theorem C3_chain_invariant_init_kmalloc_kfree :
    (∀ (m : Nat → Nat) (kend : Nat) (fr : FrameState),
      align_up kend PAGE_SIZE + PAGE_SIZE < U32 →
      (∀ x, align_up kend PAGE_SIZE ≤ x →
        x < align_up kend PAGE_SIZE + PAGE_SIZE → m x = 0) →
      ChainInv (heap_init m kend fr).1) ∧
    (∀ (h : HeapState) (fr : FrameState) (size : Nat),
      ChainInv h → ¬ h.heapBrk = 0 →
      h.heapBrk + HEADER_SIZE + allocSizeOf size < U32 →
      ChainInv (kmalloc h fr size).2.1) ∧
    (∀ (h : HeapState) (ptr : Nat) (l : List Nat) (h' : HeapState),
      ChainL h.mem h.heapStart h.heapBrk l → (ptr - HEADER_SIZE) ∈ l →
      HEADER_SIZE ≤ ptr → kfree h ptr = Except.ok h' → ChainInv h') := by
  refine ⟨?_, ?_, ?_⟩
  · -- heap_init with zeroed memory
    intro m kend fr hU hz
    show ChainInv (kbrk ⟨m, align_up kend PAGE_SIZE, align_up kend PAGE_SIZE,
      align_up kend PAGE_SIZE, 0⟩ fr PAGE_SIZE).2.1
    rw [kbrk_eq (by decide)]
    dsimp only [ChainInv]
    have hmod : (align_up kend PAGE_SIZE + PAGE_SIZE) % U32
        = align_up kend PAGE_SIZE + PAGE_SIZE := Nat.mod_eq_of_lt hU
    rw [hmod]
    have h512 : align_up kend PAGE_SIZE + PAGE_SIZE
        = align_up kend PAGE_SIZE + 8 * 512 := by
      simp only [PAGE_SIZE]
    rw [h512]
    exact chainL_of_zeros 512 (align_up kend PAGE_SIZE)
      (fun x hx1 hx2 => hz x hx1 (by simp only [PAGE_SIZE] at *; omega))
  · -- kmalloc
    intro h fr size hinv hbrk0 hU
    obtain ⟨l, hch⟩ := hinv
    by_cases hsz : size = 0
    · subst hsz
      unfold kmalloc
      rw [if_pos rfl]
      exact ⟨l, hch⟩
    by_cases hwalkable : h.heapStart < h.heapBrk
    · rcases @kmallocLoop_chain _ (allocSizeOf size) _ _ _ hch rfl with hnone |
        ⟨p, h', heq, ⟨l', hch'⟩, hlow, hbrk', hstart', hend'⟩
      · -- walk failed: grow
        rw [kmalloc_eq_grow hsz (by rw [if_pos hwalkable]; exact hnone) ?hb]
        case hb =>
          rw [kbrk_eq (by simp only [HEADER_SIZE]; omega)]
          exact hbrk0
        rw [kbrk_eq (by simp only [HEADER_SIZE]; omega)]
        dsimp only [ChainInv]
        have hmod : (h.heapBrk + (HEADER_SIZE + allocSizeOf size)) % U32
            = h.heapBrk + HEADER_SIZE + allocSizeOf size := by
          rw [Nat.mod_eq_of_lt (by omega)]
          omega
        rw [hmod]
        refine ⟨l ++ [h.heapBrk], ?_⟩
        have hfront : ChainL
            (upd (upd h.mem h.heapBrk (allocSizeOf size)) (h.heapBrk + 4) 0)
            h.heapStart h.heapBrk l := by
          refine chainL_congr hch fun p hp => ?_
          have hplt := (chainL_mem_bounds hch p hp).2
          rw [upd_other _ _ _ (by omega), upd_other _ _ _ (by omega)]
        refine chainL_append hfront ?_
        refine ChainL.cons h.heapBrk _ [] (by simp only [HEADER_SIZE]; omega) ?_
        have hval : (upd (upd h.mem h.heapBrk (allocSizeOf size)) (h.heapBrk + 4) 0)
            h.heapBrk = allocSizeOf size := by
          rw [upd_other _ _ _ (by omega), upd_same]
        rw [hval]
        exact ChainL.nil _
      · -- walk found a block
        rw [kmalloc_eq_found hsz (by rw [if_pos hwalkable]; exact heq)]
        exact ⟨l', by rw [← hstart'] at hch'; exact hch'⟩
    · -- empty arena (start = brk by the chain): grow
      have hstartbrk : h.heapStart = h.heapBrk := by
        have := chainL_le hch
        omega
      rw [kmalloc_eq_grow hsz (by rw [if_neg hwalkable]) ?hb]
      case hb =>
        rw [kbrk_eq (by simp only [HEADER_SIZE]; omega)]
        exact hbrk0
      rw [kbrk_eq (by simp only [HEADER_SIZE]; omega)]
      dsimp only [ChainInv]
      have hmod : (h.heapBrk + (HEADER_SIZE + allocSizeOf size)) % U32
          = h.heapBrk + HEADER_SIZE + allocSizeOf size := by
        rw [Nat.mod_eq_of_lt (by omega)]
        omega
      rw [hmod]
      refine ⟨[h.heapBrk], ?_⟩
      rw [hstartbrk]
      refine ChainL.cons h.heapBrk _ [] (by simp only [HEADER_SIZE]; omega) ?_
      have hval : (upd (upd h.mem h.heapBrk (allocSizeOf size)) (h.heapBrk + 4) 0)
          h.heapBrk = allocSizeOf size := by
        rw [upd_other _ _ _ (by omega), upd_same]
      rw [hval]
      exact ChainL.nil _
  · -- kfree of a chain block
    intro h ptr l h' hch hmem hge hok
    have hptr : ptr = ptr - HEADER_SIZE + HEADER_SIZE := by
      simp only [HEADER_SIZE] at *
      omega
    rw [hptr] at hok
    exact kfree_chain_aux hch hmem hok

/-- C3 counterexample: from a freshly initialized empty arena, the bare call
`kbrk(4)` advances the break by 4 bytes without writing any header; no chain
can end exactly on the new break (any block consumes at least the 8-byte
header), so the invariant claimed to be "preserved by every kbrk call" is
broken. -/
theorem C3_counterexample_bare_kbrk :
    ChainInv (⟨fun _ => 0, 4096, 4096, 4096, 0⟩ : HeapState) ∧
    ¬ ChainInv (kbrk ⟨fun _ => 0, 4096, 4096, 4096, 0⟩ ⟨fun _ => true, 1, 1⟩ 4).2.1 := by
  constructor
  · exact ⟨[], ChainL.nil 4096⟩
  · rintro ⟨l, hch⟩
    have hmem : (kbrk ⟨fun _ => 0, 4096, 4096, 4096, 0⟩ ⟨fun _ => true, 1, 1⟩ 4).2.1.mem
        = (fun _ => (0 : Nat)) := rfl
    have hstart : (kbrk ⟨fun _ => 0, 4096, 4096, 4096, 0⟩ ⟨fun _ => true, 1, 1⟩ 4).2.1.heapStart
        = 4096 := rfl
    have hbrk : (kbrk ⟨fun _ => 0, 4096, 4096, 4096, 0⟩ ⟨fun _ => true, 1, 1⟩ 4).2.1.heapBrk
        = 4100 := rfl
    rw [hmem, hstart, hbrk] at hch
    rcases chainL_elim hch with ⟨-, habs⟩ | ⟨l', -, hlt, hnext⟩
    · exact absurd habs (by decide)
    · have hle := chainL_le hnext
      simp only [HEADER_SIZE] at hle
      omega

/-- C3 witness: `heap::init` over zeroed memory establishes the chain
invariant. -/
theorem C3_chain_invariant_witness :
    (align_up 0 PAGE_SIZE + PAGE_SIZE < U32 ∧
     (∀ x, align_up 0 PAGE_SIZE ≤ x → x < align_up 0 PAGE_SIZE + PAGE_SIZE →
       (fun _ => (0 : Nat)) x = 0)) ∧
    ChainInv (heap_init (fun _ => 0) 0 ⟨fun _ => true, 1, 1⟩).1 :=
  ⟨⟨by decide, fun x h1 h2 => rfl⟩,
   C3_chain_invariant_init_kmalloc_kfree.1 (fun _ => 0) 0 ⟨fun _ => true, 1, 1⟩
     (by decide) (fun x h1 h2 => rfl)⟩

/-! ## Slot-level paging lemmas for the vmalloc proofs (C8, C2) -/

theorem virt_to_phys_fr_irrel (s : Sys) (fr' : FrameState) (v : Nat) :
    virt_to_phys { s with fr := fr' } v = virt_to_phys s v := rfl

theorem virt_to_phys_some_inv {s : Sys} {v p : Nat}
    (h : virt_to_phys s v = some p) :
    s.pagingInit = true ∧ ∃ t, s.dir (pd_index v) = some t ∧
      t (pt_index v) % 2 = 1 ∧ entry_addr (t (pt_index v)) + v % PAGE_SIZE = p := by
  unfold virt_to_phys at h
  by_cases hinit : s.pagingInit
  · rw [if_pos hinit] at h
    rcases hd : s.dir (pd_index v) with _ | t
    · rw [hd] at h
      exact absurd h (by simp)
    · rw [hd] at h
      dsimp only at h
      by_cases hpte : t (pt_index v) % 2 = 1
      · rw [if_pos hpte] at h
        injection h with h
        exact ⟨hinit, t, rfl, hpte, h⟩
      · rw [if_neg hpte] at h
        exact absurd h (by simp)
  · rw [if_neg hinit] at h
    exact absurd h (by simp)

/-- After a successful `map_page` for `v`, translation at any other slot is
unchanged. -/
theorem map_page_translate_other {s s₁ : Sys} {v p fl : Nat}
    (hmap : map_page s v p fl = Except.ok s₁) (w : Nat)
    (hne : ¬ (pd_index w = pd_index v ∧ pt_index w = pt_index v)) :
    virt_to_phys s₁ w = virt_to_phys s w := by
  obtain ⟨hinit, hinit₁, -, -, -, hother, ⟨t', hdir₁, -, htother⟩, -⟩ := map_page_char hmap
  by_cases hpd : pd_index w = pd_index v
  · have hpt : ¬ pt_index w = pt_index v := fun h => hne ⟨hpd, h⟩
    unfold virt_to_phys
    rw [if_pos hinit₁, if_pos hinit]
    rw [hpd, hdir₁]
    dsimp only
    rw [htother _ hpt]
    rcases hd : s.dir (pd_index v) with _ | t
    · simp
    · dsimp only
  · unfold virt_to_phys
    rw [if_pos hinit₁, if_pos hinit, hother _ hpd]

/-- After a successful `map_page` for `v`, any address in the same slot
translates through the new PTE. -/
theorem map_page_translate_same {s s₁ : Sys} {v p fl : Nat}
    (hmap : map_page s v p fl = Except.ok s₁) (w : Nat)
    (hpd : pd_index w = pd_index v) (hpt : pt_index w = pt_index v)
    (hp : p % PAGE_SIZE = 0) (hpU : p < U32) :
    virt_to_phys s₁ w = some (p + w % PAGE_SIZE) := by
  obtain ⟨-, hinit₁, -, -, -, -, ⟨t', hdir₁, hpte₁, -⟩, -⟩ := map_page_char hmap
  have hdw : s₁.dir (pd_index w) = some t' := by rw [hpd]; exact hdir₁
  have hptw : t' (pt_index w) % 2 = 1 := by
    rw [hpt, hpte₁]
    exact make_pte_present fl hp
  rw [virt_to_phys_present hinit₁ hdw hptw, hpt, hpte₁, make_pte_entry_addr fl hp hpU]

/-- `unmap_page` of a present mapping: unchanged fields, the returned
physical address, and the translations afterwards. -/
theorem unmap_page_effect {s : Sys} {v p : Nat}
    (h : virt_to_phys s v = some p) (hv : v % PAGE_SIZE = 0) :
    (unmap_page s v).1 = p ∧
    (unmap_page s v).2.fr = s.fr ∧
    (unmap_page s v).2.vbrkPtr = s.vbrkPtr ∧
    (unmap_page s v).2.vtab = s.vtab ∧
    (unmap_page s v).2.vcount = s.vcount ∧
    (unmap_page s v).2.pagingInit = s.pagingInit ∧
    (∀ d, (s.dir d).isSome = true → ((unmap_page s v).2.dir d).isSome = true) ∧
    virt_to_phys (unmap_page s v).2 v = none ∧
    (∀ w, ¬ (pd_index w = pd_index v ∧ pt_index w = pt_index v) →
      virt_to_phys (unmap_page s v).2 w = virt_to_phys s w) := by
  obtain ⟨hinit, t, hd, hpte, haddr⟩ := virt_to_phys_some_inv h
  rw [hv, Nat.add_zero] at haddr
  rw [unmap_page_present hinit hd hpte]
  dsimp only
  refine ⟨haddr, rfl, rfl, rfl, rfl, rfl, ?_, ?_, ?_⟩
  · intro d hsome
    by_cases hdd : d = pd_index v
    · subst hdd
      rw [upd_same]
      rfl
    · rw [upd_other _ _ _ hdd]
      exact hsome
  · refine virt_to_phys_absent (s := _) hinit (upd_same _ _ _) ?_
    rw [upd_same]
    simp
  · intro w hne
    unfold virt_to_phys
    dsimp only
    rw [if_pos hinit, if_pos hinit]
    by_cases hpd : pd_index w = pd_index v
    · have hpt : ¬ pt_index w = pt_index v := fun hq => hne ⟨hpd, hq⟩
      rw [hpd, upd_same, hd]
      dsimp only
      rw [upd_other _ _ _ hpt]
    · rw [upd_other _ _ _ hpd]

/-- When the page is not mapped, `unmap_page` returns 0 and the state
untouched. -/
theorem unmap_page_noop {s : Sys} {v : Nat} (h : virt_to_phys s v = none) :
    unmap_page s v = (0, s) := by
  unfold virt_to_phys at h
  unfold unmap_page
  by_cases hinit : s.pagingInit
  · rw [if_pos hinit] at *
    rcases hd : s.dir (pd_index v) with _ | t
    · rfl
    · rw [hd] at h
      dsimp only at h ⊢
      by_cases hpte : t (pt_index v) % 2 = 1
      · rw [if_pos hpte] at h
        exact absurd h (by simp)
      · rw [if_neg hpte]
  · rw [if_neg hinit]

/-- A successfully mapped-and-wrapped vmalloc page address: distinctness of
page indices gives distinct translation slots. -/
theorem vaddr_slot_ne {brk i j : Nat} (hi : i < 1048576) (hj : j < 1048576)
    (hne : ¬ i = j) (hal : brk % PAGE_SIZE = 0) :
    ¬ (pd_index ((brk + i * PAGE_SIZE) % U32) = pd_index ((brk + j * PAGE_SIZE) % U32) ∧
       pt_index ((brk + i * PAGE_SIZE) % U32) = pt_index ((brk + j * PAGE_SIZE) % U32)) := by
  rintro ⟨hpd, hpt⟩
  simp only [pd_index, pt_index, PAGE_SIZE, U32] at *
  omega

/-! ## Cursor bookkeeping for the vmalloc operations (C8) -/

theorem unmap_page_vfields (s : Sys) (v : Nat) :
    (unmap_page s v).2.vbrkPtr = s.vbrkPtr ∧ (unmap_page s v).2.vtab = s.vtab ∧
    (unmap_page s v).2.vcount = s.vcount := by
  unfold unmap_page
  by_cases hinit : s.pagingInit
  · rw [if_pos hinit]
    rcases hd : s.dir (pd_index v) with _ | t
    · exact ⟨rfl, rfl, rfl⟩
    · dsimp only
      by_cases hpte : t (pt_index v) % 2 = 1
      · rw [if_pos hpte]
        exact ⟨rfl, rfl, rfl⟩
      · rw [if_neg hpte]
        exact ⟨rfl, rfl, rfl⟩
  · rw [if_neg hinit]
    exact ⟨rfl, rfl, rfl⟩

theorem vbrkRollback_vfields {s s' : Sys} {brk page rb : Nat}
    (h : vbrkRollback s brk page rb = Except.ok s') :
    s'.vbrkPtr = s.vbrkPtr ∧ s'.vtab = s.vtab ∧ s'.vcount = s.vcount := by
  suffices H : ∀ n rb s, page - rb ≤ n → vbrkRollback s brk page rb = Except.ok s' →
      s'.vbrkPtr = s.vbrkPtr ∧ s'.vtab = s.vtab ∧ s'.vcount = s.vcount from
    H (page - rb) rb s le_rfl h
  intro n
  induction n with
  | zero =>
    intro rb s hn h
    unfold vbrkRollback at h
    rw [dif_neg (by omega)] at h
    injection h with h
    subst h
    exact ⟨rfl, rfl, rfl⟩
  | succ n ih =>
    intro rb s hn h
    unfold vbrkRollback at h
    by_cases hlt : rb < page
    · rw [dif_pos hlt] at h
      obtain ⟨hc, ht, hv⟩ := unmap_page_vfields s ((brk + rb * PAGE_SIZE) % U32)
      by_cases hz : (unmap_page s ((brk + rb * PAGE_SIZE) % U32)).1 ≠ 0
      · rw [if_pos hz] at h
        rcases hf : free_frame (unmap_page s ((brk + rb * PAGE_SIZE) % U32)).2.fr
            (unmap_page s ((brk + rb * PAGE_SIZE) % U32)).1 with e | fr'
        · rw [hf] at h
          exact absurd h (by simp)
        · rw [hf] at h
          obtain ⟨h1, h2, h3⟩ := ih (rb + 1) _ (by omega) h
          exact ⟨by rw [h1]; exact hc, by rw [h2]; exact ht, by rw [h3]; exact hv⟩
      · rw [if_neg hz] at h
        obtain ⟨h1, h2, h3⟩ := ih (rb + 1) _ (by omega) h
        exact ⟨by rw [h1]; exact hc, by rw [h2]; exact ht, by rw [h3]; exact hv⟩
    · rw [dif_neg hlt] at h
      injection h with h
      subst h
      exact ⟨rfl, rfl, rfl⟩

theorem vbrkLoopF_zero (brk pages page : Nat) (s : Sys) :
    vbrkLoopF brk pages 0 page s = Except.ok (true, s) := rfl

theorem vbrkLoopF_succ (brk pages fuel page : Nat) (s : Sys) :
    vbrkLoopF brk pages (fuel + 1) page s =
      if page < pages then
        let r := alloc_frame s.fr
        let s1 := { s with fr := r.2 }
        if r.1 = 0 then
          Except.map (fun s2 => (false, s2)) (vbrkRollback s1 brk page 0)
        else
          match map_page s1 ((brk + page * PAGE_SIZE) % U32) r.1
              (PAGE_PRESENT + PAGE_WRITABLE) with
          | Except.error e => Except.error e
          | Except.ok s2 => vbrkLoopF brk pages fuel (page + 1) s2
      else Except.ok (true, s) := rfl

theorem vbrkLoopF_vfields {brk pages : Nat} {b : Bool} {s' : Sys} :
    ∀ fuel page s, vbrkLoopF brk pages fuel page s = Except.ok (b, s') →
    s'.vbrkPtr = s.vbrkPtr ∧ s'.vtab = s.vtab ∧ s'.vcount = s.vcount := by
  intro fuel
  induction fuel with
  | zero =>
    intro page s h
    rw [vbrkLoopF_zero] at h
    injection h with h
    rw [Prod.mk.injEq] at h
    rw [← h.2]
    exact ⟨rfl, rfl, rfl⟩
  | succ n ih =>
    intro page s h
    rw [vbrkLoopF_succ] at h
    by_cases hlt : page < pages
    · rw [if_pos hlt] at h
      dsimp only at h
      by_cases hz : (alloc_frame s.fr).1 = 0
      · rw [if_pos hz] at h
        rcases hrb : vbrkRollback { s with fr := (alloc_frame s.fr).2 } brk page 0
            with e | s₂
        · rw [hrb] at h
          simp only [Except.map] at h
          exact absurd h (by simp)
        · rw [hrb] at h
          simp only [Except.map] at h
          injection h with h
          rw [Prod.mk.injEq] at h
          obtain ⟨h1, h2, h3⟩ := vbrkRollback_vfields hrb
          rw [← h.2]
          exact ⟨h1, h2, h3⟩
      · rw [if_neg hz] at h
        rcases hm : map_page { s with fr := (alloc_frame s.fr).2 }
            ((brk + page * PAGE_SIZE) % U32) (alloc_frame s.fr).1
            (PAGE_PRESENT + PAGE_WRITABLE) with e | s₂
        · rw [hm] at h
          exact absurd h (by simp)
        · rw [hm] at h
          obtain ⟨-, -, hc, ht, hv, -, -, -⟩ := map_page_char hm
          obtain ⟨h1, h2, h3⟩ := ih (page + 1) s₂ h
          exact ⟨by rw [h1]; exact hc, by rw [h2]; exact ht, by rw [h3]; exact hv⟩
    · rw [if_neg hlt] at h
      injection h with h
      rw [Prod.mk.injEq] at h
      rw [← h.2]
      exact ⟨rfl, rfl, rfl⟩

theorem vbrkLoop_vfields {s s' : Sys} {brk pages page : Nat} {b : Bool}
    (h : vbrkLoop s brk pages page = Except.ok (b, s')) :
    s'.vbrkPtr = s.vbrkPtr ∧ s'.vtab = s.vtab ∧ s'.vcount = s.vcount :=
  vbrkLoopF_vfields (pages - page) page s h

theorem align_up_page_mul (x : Nat) :
    align_up x PAGE_SIZE / PAGE_SIZE * PAGE_SIZE = align_up x PAGE_SIZE := by
  simp only [align_up, PAGE_SIZE]
  rw [Nat.mul_div_cancel _ (by decide : 0 < 4096)]

/-- `vbrk` success characterization: the returned value is the old cursor
and the new cursor is the old one advanced by the page-rounded increment
(32-bit sum). -/
theorem vbrk_success_char {s : Sys} {inc ret : Nat} {s' : Sys}
    (h : vbrk s inc = Except.ok (ret, s')) (hret : ¬ ret = 0) (hinc : ¬ inc = 0) :
    ret = s.vbrkPtr ∧ s'.vbrkPtr = (s.vbrkPtr + align_up inc PAGE_SIZE) % U32 := by
  unfold vbrk at h
  rw [if_neg hinc] at h
  dsimp only at h
  by_cases hceil : (s.vbrkPtr + align_up inc PAGE_SIZE / PAGE_SIZE * PAGE_SIZE) % U32
      > VMALLOC_BASE + VMALLOC_MAX_SIZE
  · rw [if_pos hceil] at h
    injection h with h
    rw [Prod.mk.injEq] at h
    exact absurd h.1.symm hret
  · rw [if_neg hceil] at h
    rcases hl : vbrkLoop s s.vbrkPtr (align_up inc PAGE_SIZE / PAGE_SIZE) 0
        with e | ⟨b, s₁⟩
    · rw [hl] at h
      exact absurd h (by simp)
    · rw [hl] at h
      cases b with
      | true =>
        dsimp only at h
        injection h with h
        rw [Prod.mk.injEq] at h
        refine ⟨h.1.symm, ?_⟩
        rw [← h.2]
        dsimp only
        rw [align_up_page_mul]
      | false =>
        dsimp only at h
        injection h with h
        rw [Prod.mk.injEq] at h
        exact absurd h.1.symm hret

/-! ## Success runs of the vbrk loop (C8) -/

/-- The linear scan returns the first clear bit. -/
theorem findFree_first {bm : Nat → Bool} {lo hi c : Nat}
    (hlo : lo ≤ c) (hhi : c < hi)
    (hused : ∀ f, lo ≤ f → f < c → bitmap_test bm f = true)
    (hfree : bitmap_test bm c = false) :
    findFree bm lo hi = some c := by
  suffices H : ∀ n lo, lo ≤ c → c - lo ≤ n →
      (∀ f, lo ≤ f → f < c → bitmap_test bm f = true) →
      findFree bm lo hi = some c from H (c - lo) lo hlo le_rfl hused
  intro n
  induction n with
  | zero =>
    intro lo h1 h2 h3
    have hec : lo = c := by omega
    subst hec
    unfold findFree
    rw [dif_pos (by omega), if_neg (by simp [hfree])]
  | succ n ih =>
    intro lo h1 h2 h3
    by_cases heq : lo = c
    · subst heq
      unfold findFree
      rw [dif_pos (by omega), if_neg (by simp [hfree])]
    · unfold findFree
      rw [dif_pos (by omega), if_pos (by simp [h3 lo le_rfl (by omega)])]
      exact ih (lo + 1) (by omega) (by omega) (fun f hf1 hf2 => h3 f (by omega) hf2)

/-- The exact result of `map_page` when the page table already exists. -/
theorem map_page_present_eq {s : Sys} {v : Nat} (p fl : Nat) {t : Nat → Nat}
    (hinit : s.pagingInit = true) (hd : s.dir (pd_index v) = some t) :
    map_page s v p fl = Except.ok { s with
      dir := upd s.dir (pd_index v)
        (some (upd t (pt_index v) (make_pte p (orPresent fl)))) } := by
  unfold map_page
  rw [if_pos hinit, hd]

/-- Setting the next bit of a prefix-shaped bitmap extends the prefix. -/
theorem bitmap_set_pattern {c : Nat} (hc : c < MAX_FRAMES) :
    bitmap_set (fun f => decide (f < c)) c = (fun f => decide (f < c + 1)) := by
  funext x
  by_cases hx : x = c
  · subst hx
    simp [bitmap_set, upd, hc]
  · simp only [bitmap_set, if_pos hc, upd, if_neg hx, decide_eq_decide]
    omega

/-- On a prefix-shaped bitmap with all page tables present, a `vbrk` loop of
`k` pages succeeds, allocates exactly frames `c, c+1, …, c+k-1` and leaves
the vmalloc bookkeeping fields untouched. -/
theorem vbrkLoopF_pattern {brk pages : Nat} :
    ∀ (k c page : Nat) (s : Sys),
      s.pagingInit = true →
      s.fr.bitmap = (fun f => decide (f < c)) →
      s.fr.usedFrames = c →
      s.fr.totalFrames ≤ MAX_FRAMES →
      256 ≤ c → c + k ≤ s.fr.totalFrames →
      page + k ≤ pages →
      (∀ i, (s.dir i).isSome = true) →
      ∃ s' : Sys, vbrkLoopF brk pages k page s = Except.ok (true, s') ∧
        s'.pagingInit = true ∧
        s'.fr.bitmap = (fun f => decide (f < c + k)) ∧
        s'.fr.usedFrames = c + k ∧
        s'.fr.totalFrames = s.fr.totalFrames ∧
        (∀ i, (s'.dir i).isSome = true) ∧
        s'.vbrkPtr = s.vbrkPtr ∧ s'.vtab = s.vtab ∧ s'.vcount = s.vcount := by
  intro k
  induction k with
  | zero =>
    intro c page s h1 h2 h3 h4 h5 h6 h7 h8
    refine ⟨s, vbrkLoopF_zero brk pages page s, h1, ?_, ?_, rfl, h8, rfl, rfl, rfl⟩
    · rw [Nat.add_zero]
      exact h2
    · rw [Nat.add_zero]
      exact h3
  | succ k ih =>
    intro c page s h1 h2 h3 h4 h5 h6 h7 h8
    have hcM : c < MAX_FRAMES := by omega
    have hused : ∀ f, 256 ≤ f → f < c → bitmap_test s.fr.bitmap f = true := by
      intro f hf1 hf2
      rw [h2]
      simp only [bitmap_test]
      rw [if_pos (by omega)]
      exact decide_eq_true hf2
    have hfree : bitmap_test s.fr.bitmap c = false := by
      rw [h2]
      simp only [bitmap_test]
      rw [if_pos hcM]
      simp
    have hff : findFree s.fr.bitmap 256 s.fr.totalFrames = some c :=
      findFree_first h5 (by omega) hused hfree
    have halloc := alloc_frame_eq_find1 hff
    obtain ⟨t, ht⟩ := Option.isSome_iff_exists.mp
      (h8 (pd_index ((brk + page * PAGE_SIZE) % U32)))
    rw [vbrkLoopF_succ, if_pos (show page < pages by omega)]
    dsimp only
    rw [halloc]
    dsimp only
    rw [if_neg (show ¬ c * PAGE_SIZE = 0 by simp only [PAGE_SIZE]; omega)]
    rw [map_page_present_eq
      (s := { s with fr := { s.fr with bitmap := bitmap_set s.fr.bitmap c
                                       usedFrames := s.fr.usedFrames + 1 } })
      (c * PAGE_SIZE) (PAGE_PRESENT + PAGE_WRITABLE) h1 ht]
    dsimp only
    obtain ⟨s', hrun, q1, q2, q3, q4, q5, q6, q7, q8⟩ :=
      ih (c + 1) (page + 1)
        { s with
            fr := { s.fr with bitmap := bitmap_set s.fr.bitmap c
                              usedFrames := s.fr.usedFrames + 1 }
            dir := upd s.dir (pd_index ((brk + page * PAGE_SIZE) % U32))
              (some (upd t (pt_index ((brk + page * PAGE_SIZE) % U32))
                (make_pte (c * PAGE_SIZE) (orPresent (PAGE_PRESENT + PAGE_WRITABLE))))) }
        h1
        (by
          show bitmap_set s.fr.bitmap c = _
          rw [h2]
          exact bitmap_set_pattern hcM)
        (by
          show s.fr.usedFrames + 1 = c + 1
          omega)
        h4
        (by omega)
        (by
          show c + 1 + k ≤ s.fr.totalFrames
          omega)
        (by omega)
        (by
          intro i
          show (upd s.dir (pd_index ((brk + page * PAGE_SIZE) % U32)) (some _) i).isSome = true
          by_cases hi : i = pd_index ((brk + page * PAGE_SIZE) % U32)
          · rw [hi, upd_same]
            rfl
          · rw [upd_other _ _ _ hi]
            exact h8 i)
    have hadd : c + 1 + k = c + (k + 1) := by omega
    refine ⟨s', hrun, q1, ?_, by omega, q4, q5, q6, q7, q8⟩
    rw [hadd] at q2
    exact q2

/-! ## Cursor arithmetic of vbrk, vmalloc and vfree (C8) -/

/-- Page-rounding is idempotent (the rounded value is at most
`2^32 - 4096`, so the second rounding cannot wrap). -/
theorem align_up_idem (x : Nat) :
    align_up (align_up x PAGE_SIZE) PAGE_SIZE = align_up x PAGE_SIZE := by
  simp only [align_up, PAGE_SIZE, U32]
  omega

/-- `vbrk` never decreases the cursor as long as the page-rounded new break
does not wrap past `2^32`. -/
theorem vbrk_monotone {s : Sys} {inc ret : Nat} {s' : Sys}
    (h : vbrk s inc = Except.ok (ret, s'))
    (hnw : s.vbrkPtr + align_up inc PAGE_SIZE < U32) :
    s.vbrkPtr ≤ s'.vbrkPtr := by
  unfold vbrk at h
  by_cases hz : inc = 0
  · rw [if_pos hz] at h
    injection h with h
    rw [Prod.mk.injEq] at h
    rw [← h.2]
  · rw [if_neg hz] at h
    dsimp only at h
    by_cases hceil : (s.vbrkPtr + align_up inc PAGE_SIZE / PAGE_SIZE * PAGE_SIZE) % U32
        > VMALLOC_BASE + VMALLOC_MAX_SIZE
    · rw [if_pos hceil] at h
      injection h with h
      rw [Prod.mk.injEq] at h
      rw [← h.2]
    · rw [if_neg hceil] at h
      rcases hl : vbrkLoop s s.vbrkPtr (align_up inc PAGE_SIZE / PAGE_SIZE) 0 with e | ⟨b, s₁⟩
      · rw [hl] at h
        exact absurd h (by simp)
      · rw [hl] at h
        cases b with
        | true =>
          dsimp only at h
          injection h with h
          rw [Prod.mk.injEq] at h
          rw [← h.2]
          show s.vbrkPtr ≤ (s.vbrkPtr + align_up inc PAGE_SIZE / PAGE_SIZE * PAGE_SIZE) % U32
          rw [align_up_page_mul]
          simp only [U32] at hnw ⊢
          omega
        | false =>
          dsimp only at h
          injection h with h
          rw [Prod.mk.injEq] at h
          obtain ⟨hc, -, -⟩ := vbrkLoop_vfields hl
          rw [← h.2, hc]

/-- The per-page loop of `vfree` leaves the cursor alone. -/
theorem vfreePages_vfields {s s' : Sys} {vaddr pages page : Nat}
    (h : vfreePages s vaddr pages page = Except.ok s') :
    s'.vbrkPtr = s.vbrkPtr := by
  suffices H : ∀ n page s, pages - page ≤ n →
      vfreePages s vaddr pages page = Except.ok s' →
      s'.vbrkPtr = s.vbrkPtr from H (pages - page) page s le_rfl h
  intro n
  induction n with
  | zero =>
    intro page s hn h
    unfold vfreePages at h
    rw [dif_neg (by omega)] at h
    injection h with h
    rw [h]
  | succ n ih =>
    intro page s hn h
    unfold vfreePages at h
    by_cases hlt : page < pages
    · rw [dif_pos hlt] at h
      obtain ⟨hc, -, -⟩ := unmap_page_vfields s ((vaddr + page * PAGE_SIZE) % U32)
      by_cases hz : (unmap_page s ((vaddr + page * PAGE_SIZE) % U32)).1 ≠ 0
      · rw [if_pos hz] at h
        rcases hf : free_frame (unmap_page s ((vaddr + page * PAGE_SIZE) % U32)).2.fr
            (unmap_page s ((vaddr + page * PAGE_SIZE) % U32)).1 with e | fr'
        · rw [hf] at h
          exact absurd h (by simp)
        · rw [hf] at h
          rw [ih (page + 1) _ (by omega) h]
          exact hc
      · rw [if_neg hz] at h
        rw [ih (page + 1) _ (by omega) h]
        exact hc
    · rw [dif_neg hlt] at h
      injection h with h
      rw [h]

/-- The table scan of `vfree` leaves the cursor alone. -/
theorem vfreeLoop_vfields {s s' : Sys} {vaddr i : Nat}
    (h : vfreeLoop s vaddr i = Except.ok s') :
    s'.vbrkPtr = s.vbrkPtr := by
  suffices H : ∀ n i, MAX_VMALLOC_ENTRIES - i ≤ n → vfreeLoop s vaddr i = Except.ok s' →
      s'.vbrkPtr = s.vbrkPtr from H (MAX_VMALLOC_ENTRIES - i) i le_rfl h
  intro n
  induction n with
  | zero =>
    intro i hn h
    unfold vfreeLoop at h
    rw [dif_neg (by omega)] at h
    exact absurd h (by simp)
  | succ n ih =>
    intro i hn h
    unfold vfreeLoop at h
    by_cases hlt : i < MAX_VMALLOC_ENTRIES
    · rw [dif_pos hlt] at h
      dsimp only at h
      by_cases hm : (s.vtab i).inUse = true ∧ (s.vtab i).vaddr = vaddr
      · rw [if_pos hm] at h
        rcases hv : vfreePages s vaddr ((s.vtab i).size / PAGE_SIZE) 0 with e | s₁
        · rw [hv] at h
          simp only [Except.map] at h
          exact absurd h (by simp)
        · rw [hv] at h
          simp only [Except.map] at h
          injection h with h
          rw [← h]
          show s₁.vbrkPtr = s.vbrkPtr
          exact vfreePages_vfields hv
      · rw [if_neg hm] at h
        exact ih (i + 1) (by omega) h
    · rw [dif_neg hlt] at h
      exact absurd h (by simp)

/-- `vfree` leaves the cursor alone. -/
theorem vfree_cursor {s : Sys} {p : Nat} {s' : Sys}
    (h : vfree s p = Except.ok s') : s'.vbrkPtr = s.vbrkPtr := by
  unfold vfree at h
  by_cases hz : p = 0
  · rw [if_pos hz] at h
    injection h with h
    rw [h]
  · rw [if_neg hz] at h
    exact vfreeLoop_vfields h

/-- `vmalloc` never decreases the cursor as long as the page-rounded new
break does not wrap past `2^32`. -/
theorem vmalloc_monotone {s : Sys} {size ret : Nat} {s' : Sys}
    (h : vmalloc s size = Except.ok (ret, s'))
    (hnw : s.vbrkPtr + align_up size PAGE_SIZE < U32) :
    s.vbrkPtr ≤ s'.vbrkPtr := by
  unfold vmalloc at h
  by_cases hz : size = 0
  · rw [if_pos hz] at h
    injection h with h
    rw [Prod.mk.injEq] at h
    rw [← h.2]
  · rw [if_neg hz] at h
    dsimp only at h
    by_cases hfull : findFreeEntry s.vtab 0 ≥ MAX_VMALLOC_ENTRIES
    · rw [if_pos hfull] at h
      injection h with h
      rw [Prod.mk.injEq] at h
      rw [← h.2]
    · rw [if_neg hfull] at h
      rcases hv : vbrk s (align_up size PAGE_SIZE) with e | ⟨vaddr, s₁⟩
      · rw [hv] at h
        exact absurd h (by simp)
      · rw [hv] at h
        have hm : s.vbrkPtr ≤ s₁.vbrkPtr := by
          refine vbrk_monotone hv ?_
          rw [align_up_idem]
          exact hnw
        cases vaddr with
        | zero =>
          simp only [] at h
          injection h with h
          rw [Prod.mk.injEq] at h
          rw [← h.2]
          exact hm
        | succ m =>
          simp only [] at h
          injection h with h
          rw [Prod.mk.injEq] at h
          rw [← h.2]
          exact hm

/-- A `vmalloc` that hands out a nonzero base returns the old cursor and
advances it by the page-rounded size (32-bit sum). -/
theorem vmalloc_success_char {s : Sys} {size ret : Nat} {s' : Sys}
    (h : vmalloc s size = Except.ok (ret, s')) (hret : ¬ ret = 0)
    (hcur : s.vbrkPtr < U32) :
    ret = s.vbrkPtr ∧ s'.vbrkPtr = (s.vbrkPtr + align_up size PAGE_SIZE) % U32 := by
  unfold vmalloc at h
  by_cases hz : size = 0
  · rw [if_pos hz] at h
    injection h with h
    rw [Prod.mk.injEq] at h
    exact absurd h.1.symm hret
  · rw [if_neg hz] at h
    dsimp only at h
    by_cases hfull : findFreeEntry s.vtab 0 ≥ MAX_VMALLOC_ENTRIES
    · rw [if_pos hfull] at h
      injection h with h
      rw [Prod.mk.injEq] at h
      exact absurd h.1.symm hret
    · rw [if_neg hfull] at h
      rcases hv : vbrk s (align_up size PAGE_SIZE) with e | ⟨vaddr, s₁⟩
      · rw [hv] at h
        exact absurd h (by simp)
      · rw [hv] at h
        cases vaddr with
        | zero =>
          simp only [] at h
          injection h with h
          rw [Prod.mk.injEq] at h
          exact absurd h.1.symm hret
        | succ m =>
          simp only [] at h
          injection h with h
          rw [Prod.mk.injEq] at h
          obtain ⟨hr, hs⟩ := h
          by_cases hia : align_up size PAGE_SIZE = 0
          · rw [hia] at hv
            unfold vbrk at hv
            rw [if_pos rfl] at hv
            injection hv with hv
            rw [Prod.mk.injEq] at hv
            obtain ⟨hv1, hv2⟩ := hv
            refine ⟨by rw [← hr]; exact hv1.symm, ?_⟩
            rw [← hs]
            show s₁.vbrkPtr = (s.vbrkPtr + align_up size PAGE_SIZE) % U32
            rw [← hv2, hia]
            simp only [U32] at hcur ⊢
            omega
          · obtain ⟨hv1, hv2⟩ := vbrk_success_char hv (by omega) hia
            refine ⟨by rw [← hr]; exact hv1, ?_⟩
            rw [← hs]
            show s₁.vbrkPtr = (s.vbrkPtr + align_up size PAGE_SIZE) % U32
            rw [hv2, align_up_idem]

/-! ## C8 — cursor monotonicity and non-reuse -/

/-- A fresh full-RAM system at the start of the vmalloc region: 4 GiB of
frames of which only the first 1 MiB is used, paging on, every page table
present, empty vmalloc table. -/
def c8big : Sys :=
  ⟨⟨fun f => decide (f < 256), 1048576, 256⟩, true,
   fun _ => some (fun _ => 0), VMALLOC_BASE, fun _ => ⟨0, 0, false⟩, 0⟩

/-- C8 counterexample: `vmalloc(0x30000000)` from a fresh vmalloc region
succeeds and hands out a nonzero base, yet the cursor afterwards is `0`,
strictly below its old value `0xD0000000` — the page-rounded new break
`0xD0000000 + 0x30000000` wraps to `0` modulo `2^32`, slips under the
`VMALLOC_BASE + VMALLOC_MAX_SIZE` ceiling check, and is stored as the new
cursor, so the cursor is not monotone. -/
theorem C8_counterexample_cursor_wrap :
    vmalloc c8big 805306368 =
      Except.ok (okOr (vmalloc c8big 805306368) (0, c8big)) ∧
    ¬ (okOr (vmalloc c8big 805306368) (0, c8big)).1 = 0 ∧
    (okOr (vmalloc c8big 805306368) (0, c8big)).2.vbrkPtr < c8big.vbrkPtr := by
  obtain ⟨s', hrun, q1, q2, q3, q4, q5, q6, q7, q8⟩ :=
    @vbrkLoopF_pattern VMALLOC_BASE 196608 196608 256 0 c8big rfl rfl rfl
      (by decide) (by decide) (by decide) (by decide) (fun i => rfl)
  have hloop : vbrkLoop c8big VMALLOC_BASE 196608 0 = Except.ok (true, s') := by
    show vbrkLoopF VMALLOC_BASE 196608 (196608 - 0) 0 c8big = Except.ok (true, s')
    rw [Nat.sub_zero]
    exact hrun
  have hvbrk : vbrk c8big 805306368 = Except.ok (VMALLOC_BASE, { s' with vbrkPtr := 0 }) := by
    unfold vbrk
    rw [if_neg (by decide)]
    dsimp only
    simp only [(by decide : align_up 805306368 PAGE_SIZE / PAGE_SIZE = 196608),
      (show c8big.vbrkPtr = VMALLOC_BASE from rfl)]
    rw [if_neg (by decide :
      ¬ (VMALLOC_BASE + 196608 * PAGE_SIZE) % U32 > VMALLOC_BASE + VMALLOC_MAX_SIZE)]
    rw [hloop]
    simp only []
    rw [(by decide : (VMALLOC_BASE + 196608 * PAGE_SIZE) % U32 = 0)]
  have hvm : ∃ sf, vmalloc c8big 805306368 = Except.ok (VMALLOC_BASE, sf) ∧
      sf.vbrkPtr = 0 := by
    refine ⟨{ s' with vbrkPtr := 0
                      vtab := upd s'.vtab 0 ⟨VMALLOC_BASE, 805306368, true⟩
                      vcount := s'.vcount + 1 }, ?_, rfl⟩
    unfold vmalloc
    rw [if_neg (by decide)]
    dsimp only
    have hidx : findFreeEntry c8big.vtab 0 = 0 := by
      unfold findFreeEntry
      rw [dif_pos (by decide : (0:Nat) < MAX_VMALLOC_ENTRIES), if_neg (by decide)]
    rw [(by decide : align_up 805306368 PAGE_SIZE = 805306368), hidx,
      if_neg (by decide : ¬ (0:Nat) ≥ MAX_VMALLOC_ENTRIES), hvbrk]
    rfl
  obtain ⟨sf, heq, hptr⟩ := hvm
  refine ⟨by rw [heq]; simp only [okOr], ?_, ?_⟩
  · rw [heq]
    simp only [okOr]
    decide
  · rw [heq]
    simp only [okOr]
    show sf.vbrkPtr < c8big.vbrkPtr
    rw [hptr]
    decide

/-- C8 (amended): as long as the page-rounded break arithmetic stays below
`2^32`, the cursor is monotone — `vbrk` and `vmalloc` never decrease it and
`vfree` never changes it — and in the `vmalloc(4096)`; `vfree`;
`vmalloc(4096)` scenario the second base differs from the first
(`V2 = (V1 + 4096) mod 2^32 ≠ V1`). -/
theorem C8_cursor_monotone_and_non_reuse :
    (∀ (s : Sys) (inc ret : Nat) (s' : Sys),
        vbrk s inc = Except.ok (ret, s') →
        s.vbrkPtr + align_up inc PAGE_SIZE < U32 →
        s.vbrkPtr ≤ s'.vbrkPtr) ∧
    (∀ (s : Sys) (size ret : Nat) (s' : Sys),
        vmalloc s size = Except.ok (ret, s') →
        s.vbrkPtr + align_up size PAGE_SIZE < U32 →
        s.vbrkPtr ≤ s'.vbrkPtr) ∧
    (∀ (s : Sys) (p : Nat) (s' : Sys),
        vfree s p = Except.ok s' → s'.vbrkPtr = s.vbrkPtr) ∧
    (∀ (s s1 s2 s3 : Sys) (V1 V2 : Nat),
        s.vbrkPtr < U32 →
        vmalloc s 4096 = Except.ok (V1, s1) → ¬ V1 = 0 →
        vfree s1 V1 = Except.ok s2 →
        vmalloc s2 4096 = Except.ok (V2, s3) → ¬ V2 = 0 →
        ¬ V2 = V1) := by
  refine ⟨fun s inc ret s' h hnw => vbrk_monotone h hnw,
          fun s size ret s' h hnw => vmalloc_monotone h hnw,
          fun s p s' h => vfree_cursor h,
          fun s s1 s2 s3 V1 V2 hcur h1 hV1 h2 h3 hV2 => ?_⟩
  obtain ⟨e1, e2⟩ := vmalloc_success_char h1 hV1 hcur
  have hc2 : s2.vbrkPtr = s1.vbrkPtr := vfree_cursor h2
  have hcur2 : s2.vbrkPtr < U32 := by
    rw [hc2, e2]
    simp only [U32]
    omega
  obtain ⟨e3, e4⟩ := vmalloc_success_char h3 hV2 hcur2
  have hV1U : V1 < U32 := by
    rw [e1]
    exact hcur
  rw [e3, hc2, e2, ← e1]
  rw [(by decide : align_up 4096 PAGE_SIZE = 4096)]
  intro hbad
  simp only [U32] at hbad hV1U
  omega

/-- A small concrete system for the C8 scenario: 2 MiB of frames with the
first 1 MiB used, paging on, every page table present, empty vmalloc
table, cursor at `VMALLOC_BASE`. -/
def c8w : Sys :=
  ⟨⟨fun f => decide (f < 256), 512, 256⟩, true,
   fun _ => some (fun _ => 0), VMALLOC_BASE, fun _ => ⟨0, 0, false⟩, 0⟩

def c8fr1 : FrameState := ⟨bitmap_set (fun f => decide (f < 256)) 256, 512, 257⟩

def c8dir1 : Nat → Option (Nat → Nat) :=
  upd (fun _ => some (fun _ => 0)) 832 (some (upd (fun _ => 0) 0 1048579))

/-- The system after `vmalloc c8w 4096`. -/
def c8s1 : Sys :=
  ⟨c8fr1, true, c8dir1, 3489665024,
   upd (fun _ => ⟨0, 0, false⟩) 0 ⟨3489660928, 4096, true⟩, 1⟩

def c8fr2 : FrameState :=
  ⟨bitmap_clear (bitmap_set (fun f => decide (f < 256)) 256) 256, 512, 256⟩

def c8dir2 : Nat → Option (Nat → Nat) :=
  upd c8dir1 832 (some (upd (upd (fun _ => 0) 0 1048579) 0 0))

/-- The system after `vfree c8s1 0xD0000000`. -/
def c8s2 : Sys :=
  ⟨c8fr2, true, c8dir2, 3489665024,
   upd (upd (fun _ => ⟨0, 0, false⟩) 0 ⟨3489660928, 4096, true⟩) 0 ⟨0, 0, false⟩, 0⟩

def c8fr3 : FrameState :=
  ⟨bitmap_set (bitmap_clear (bitmap_set (fun f => decide (f < 256)) 256) 256) 256, 512, 257⟩

def c8dir3 : Nat → Option (Nat → Nat) :=
  upd c8dir2 832 (some (upd (upd (upd (fun _ => 0) 0 1048579) 0 0) 1 1048579))

/-- The system after the second `vmalloc _ 4096`. -/
def c8s3 : Sys :=
  ⟨c8fr3, true, c8dir3, 3489669120, upd c8s2.vtab 0 ⟨3489665024, 4096, true⟩, 1⟩

theorem c8w_step1 : vmalloc c8w 4096 = Except.ok (3489660928, c8s1) := by
  have hff : findFree c8w.fr.bitmap 256 c8w.fr.totalFrames = some 256 := by
    unfold findFree
    rw [dif_pos (by decide), if_neg (by decide)]
  have halloc : alloc_frame c8w.fr = (1048576, c8fr1) := alloc_frame_eq_find1 hff
  have hmap : map_page { c8w with fr := c8fr1 } ((c8w.vbrkPtr + 0 * PAGE_SIZE) % U32)
      1048576 (PAGE_PRESENT + PAGE_WRITABLE) =
      Except.ok { c8w with fr := c8fr1
                           dir := c8dir1 } :=
    map_page_present_eq 1048576 (PAGE_PRESENT + PAGE_WRITABLE) rfl rfl
  have hloop : vbrkLoop c8w c8w.vbrkPtr 1 0 =
      Except.ok (true, { c8w with fr := c8fr1
                                  dir := c8dir1 }) := by
    show vbrkLoopF c8w.vbrkPtr 1 (1 - 0) 0 c8w = _
    rw [Nat.sub_zero, vbrkLoopF_succ, if_pos (by decide : (0:Nat) < 1)]
    dsimp only
    rw [halloc]
    dsimp only
    rw [if_neg (by decide : ¬ (1048576 : Nat) = 0), hmap]
    dsimp only
    rw [vbrkLoopF_zero]
  have hvbrk : vbrk c8w 4096 =
      Except.ok (3489660928, { c8w with fr := c8fr1
                                        dir := c8dir1
                                        vbrkPtr := 3489665024 }) := by
    unfold vbrk
    rw [if_neg (by decide)]
    dsimp only
    rw [(by decide : align_up 4096 PAGE_SIZE / PAGE_SIZE = 1)]
    rw [if_neg (by decide :
      ¬ (c8w.vbrkPtr + 1 * PAGE_SIZE) % U32 > VMALLOC_BASE + VMALLOC_MAX_SIZE)]
    rw [hloop]
    rfl
  have hidx : findFreeEntry c8w.vtab 0 = 0 := by
    unfold findFreeEntry
    rw [dif_pos (by decide : (0:Nat) < MAX_VMALLOC_ENTRIES), if_neg (by decide)]
  unfold vmalloc
  rw [if_neg (by decide)]
  dsimp only
  rw [(by decide : align_up 4096 PAGE_SIZE = 4096), hidx,
    if_neg (by decide : ¬ (0:Nat) ≥ MAX_VMALLOC_ENTRIES), hvbrk]
  rfl

theorem c8w_step2 : vfree c8s1 3489660928 = Except.ok c8s2 := by
  have hun : unmap_page c8s1 ((3489660928 + 0 * PAGE_SIZE) % U32) =
      (1048576, { c8s1 with dir := c8dir2 }) :=
    unmap_page_present (t := upd (fun _ => 0) 0 1048579) rfl rfl (by decide)
  have hfree : free_frame c8s1.fr 1048576 = Except.ok c8fr2 := rfl
  have hfp : vfreePages c8s1 3489660928 ((c8s1.vtab 0).size / PAGE_SIZE) 0 =
      Except.ok { c8s1 with fr := c8fr2
                            dir := c8dir2 } := by
    unfold vfreePages
    rw [dif_pos (by decide : (0:Nat) < (c8s1.vtab 0).size / PAGE_SIZE)]
    dsimp only
    rw [hun]
    dsimp only
    rw [if_pos (by decide : (1048576:Nat) ≠ 0), hfree]
    dsimp only
    unfold vfreePages
    rw [dif_neg (by decide : ¬ (1:Nat) < (c8s1.vtab 0).size / PAGE_SIZE)]
  have hcond : ((c8s1.vtab 0).inUse = true) ∧ (c8s1.vtab 0).vaddr = 3489660928 :=
    ⟨by decide, by decide⟩
  unfold vfree
  rw [if_neg (by decide)]
  unfold vfreeLoop
  rw [dif_pos (by decide : (0:Nat) < MAX_VMALLOC_ENTRIES)]
  dsimp only
  rw [if_pos hcond, hfp]
  simp only [Except.map]
  rfl

theorem c8w_step3 : vmalloc c8s2 4096 = Except.ok (3489665024, c8s3) := by
  have hff : findFree c8s2.fr.bitmap 256 c8s2.fr.totalFrames = some 256 := by
    unfold findFree
    rw [dif_pos (by decide), if_neg (by decide)]
  have halloc : alloc_frame c8s2.fr = (1048576, c8fr3) := alloc_frame_eq_find1 hff
  have hmap : map_page { c8s2 with fr := c8fr3 } ((c8s2.vbrkPtr + 0 * PAGE_SIZE) % U32)
      1048576 (PAGE_PRESENT + PAGE_WRITABLE) =
      Except.ok { c8s2 with fr := c8fr3
                            dir := c8dir3 } :=
    map_page_present_eq 1048576 (PAGE_PRESENT + PAGE_WRITABLE) rfl rfl
  have hloop : vbrkLoop c8s2 c8s2.vbrkPtr 1 0 =
      Except.ok (true, { c8s2 with fr := c8fr3
                                   dir := c8dir3 }) := by
    show vbrkLoopF c8s2.vbrkPtr 1 (1 - 0) 0 c8s2 = _
    rw [Nat.sub_zero, vbrkLoopF_succ, if_pos (by decide : (0:Nat) < 1)]
    dsimp only
    rw [halloc]
    dsimp only
    rw [if_neg (by decide : ¬ (1048576 : Nat) = 0), hmap]
    dsimp only
    rw [vbrkLoopF_zero]
  have hvbrk : vbrk c8s2 4096 =
      Except.ok (3489665024, { c8s2 with fr := c8fr3
                                         dir := c8dir3
                                         vbrkPtr := 3489669120 }) := by
    unfold vbrk
    rw [if_neg (by decide)]
    dsimp only
    rw [(by decide : align_up 4096 PAGE_SIZE / PAGE_SIZE = 1)]
    rw [if_neg (by decide :
      ¬ (c8s2.vbrkPtr + 1 * PAGE_SIZE) % U32 > VMALLOC_BASE + VMALLOC_MAX_SIZE)]
    rw [hloop]
    rfl
  have hidx : findFreeEntry c8s2.vtab 0 = 0 := by
    unfold findFreeEntry
    rw [dif_pos (by decide : (0:Nat) < MAX_VMALLOC_ENTRIES), if_neg (by decide)]
  unfold vmalloc
  rw [if_neg (by decide)]
  dsimp only
  rw [(by decide : align_up 4096 PAGE_SIZE = 4096), hidx,
    if_neg (by decide : ¬ (0:Nat) ≥ MAX_VMALLOC_ENTRIES), hvbrk]
  rfl

/-- C8 witness: the scenario instantiated on the concrete system `c8w` —
the first `vmalloc(4096)` returns `0xD0000000`, freeing it and calling
`vmalloc(4096)` again returns `0xD0001000 ≠ 0xD0000000`. -/
theorem C8_cursor_monotone_witness :
    c8w.vbrkPtr < U32 ∧
    vmalloc c8w 4096 = Except.ok (3489660928, c8s1) ∧ ¬ (3489660928:Nat) = 0 ∧
    vfree c8s1 3489660928 = Except.ok c8s2 ∧
    vmalloc c8s2 4096 = Except.ok (3489665024, c8s3) ∧ ¬ (3489665024:Nat) = 0 ∧
    ¬ (3489665024:Nat) = 3489660928 :=
  ⟨by decide, c8w_step1, by decide, c8w_step2, c8w_step3, by decide,
   C8_cursor_monotone_and_non_reuse.2.2.2 c8w c8s1 c8s2 c8s3 3489660928 3489665024
     (by decide) c8w_step1 (by decide) c8w_step2 c8w_step3 (by decide)⟩

/-! ## Rollback correctness of vbrk (C2) -/

/-- The linear scan fails when every bit in range is set. -/
theorem findFree_all_used {bm : Nat → Bool} {lo hi : Nat}
    (h : ∀ f, lo ≤ f → f < hi → bitmap_test bm f = true) :
    findFree bm lo hi = none := by
  suffices H : ∀ n lo, hi - lo ≤ n →
      (∀ f, lo ≤ f → f < hi → bitmap_test bm f = true) →
      findFree bm lo hi = none from H (hi - lo) lo le_rfl h
  intro n
  induction n with
  | zero =>
    intro lo hn h
    unfold findFree
    rw [dif_neg (by omega)]
  | succ n ih =>
    intro lo hn h
    unfold findFree
    by_cases hlt : lo < hi
    · rw [dif_pos hlt, if_pos (by simp [h lo le_rfl hlt])]
      exact ih (lo + 1) (by omega) (fun f h1 h2 => h f (by omega) h2)
    · rw [dif_neg hlt]

/-- When frame 0 is marked used, a `0` return from `alloc_frame` can only be
the failure case, which leaves the state untouched. -/
theorem alloc_frame_zero_state {s : FrameState} (h0 : bitmap_test s.bitmap 0 = true)
    (hz : (alloc_frame s).1 = 0) : alloc_frame s = (0, s) := by
  rcases hf1 : findFree s.bitmap 256 s.totalFrames with _ | f
  · rcases hf2 : findFree s.bitmap 0 256 with _ | f
    · exact alloc_frame_eq_none hf1 hf2
    · obtain ⟨-, -, hbit⟩ := findFree_some hf2
      rw [alloc_frame_eq_find2 hf1 hf2] at hz
      dsimp only at hz
      have hf0 : f = 0 := by simp only [PAGE_SIZE] at hz; omega
      subst hf0
      rw [h0] at hbit
      exact absurd hbit (by simp)
  · obtain ⟨hge, -, -⟩ := findFree_some hf1
    rw [alloc_frame_eq_find1 hf1] at hz
    dsimp only at hz
    simp only [PAGE_SIZE] at hz
    omega

/-- A nonzero `alloc_frame` result marks one fresh, in-range, nonzero
frame. -/
theorem alloc_frame_nonzero_spec {s : FrameState} (htot : s.totalFrames ≤ MAX_FRAMES)
    (hz : ¬ (alloc_frame s).1 = 0) :
    ∃ f, alloc_frame s = (f * PAGE_SIZE,
        { s with bitmap := bitmap_set s.bitmap f, usedFrames := s.usedFrames + 1 }) ∧
      bitmap_test s.bitmap f = false ∧ f < MAX_FRAMES ∧ ¬ f = 0 := by
  rcases hf1 : findFree s.bitmap 256 s.totalFrames with _ | f
  · rcases hf2 : findFree s.bitmap 0 256 with _ | f
    · rw [alloc_frame_eq_none hf1 hf2] at hz
      exact absurd rfl hz
    · obtain ⟨-, hlt, hbit⟩ := findFree_some hf2
      have halloc := alloc_frame_eq_find2 hf1 hf2
      refine ⟨f, halloc, hbit, by simp only [MAX_FRAMES]; omega, ?_⟩
      intro hf0
      rw [halloc] at hz
      subst hf0
      exact absurd rfl hz
  · obtain ⟨hge, hlt, hbit⟩ := findFree_some hf1
    exact ⟨f, alloc_frame_eq_find1 hf1, hbit, by omega, by omega⟩

/-- The rollback loop of `vbrk` undoes the committed pages exactly: given
that pages `rb, …, q-1` are mapped to distinct fresh frames `ps rb, …,
ps (q-1)`, it succeeds, restores the bitmap to the base `B0` and the
used-count to `u0`, unmaps every committed page and touches no other
translation slot. -/
theorem vbrkRollback_restores {brk pages q : Nat} {ps : Nat → Nat}
    (hal : brk % PAGE_SIZE = 0) (hq : q ≤ pages) (hpg : pages < 1048576)
    (hdist : ∀ i j, i < q → j < q → ¬ i = j → ¬ ps i = ps j)
    (hnz : ∀ i, i < q → ¬ ps i = 0)
    (hltM : ∀ i, i < q → ps i < MAX_FRAMES) :
    ∀ n rb (t : Sys) (B0 : Nat → Bool) (u0 : Nat), q - rb ≤ n → rb ≤ q →
      t.pagingInit = true →
      (∀ i, rb ≤ i → i < q → bitmap_test t.fr.bitmap (ps i) = true) →
      (∀ g, (∀ i, rb ≤ i → i < q → ¬ ps i = g) → t.fr.bitmap g = B0 g) →
      (∀ i, rb ≤ i → i < q → B0 (ps i) = false) →
      t.fr.usedFrames = u0 + (q - rb) →
      (∀ i, rb ≤ i → i < q →
        virt_to_phys t ((brk + i * PAGE_SIZE) % U32) = some (ps i * PAGE_SIZE)) →
      ∃ t', vbrkRollback t brk q rb = Except.ok t' ∧
        (∀ g, t'.fr.bitmap g = B0 g) ∧
        t'.fr.usedFrames = u0 ∧
        t'.fr.totalFrames = t.fr.totalFrames ∧
        t'.pagingInit = true ∧
        (∀ i, rb ≤ i → i < q →
          virt_to_phys t' ((brk + i * PAGE_SIZE) % U32) = none) ∧
        (∀ w, (∀ i, rb ≤ i → i < q →
            ¬ (pd_index w = pd_index ((brk + i * PAGE_SIZE) % U32) ∧
               pt_index w = pt_index ((brk + i * PAGE_SIZE) % U32))) →
          virt_to_phys t' w = virt_to_phys t w) := by
  intro n
  induction n with
  | zero =>
    intro rb t B0 u0 hn hrb hpi hbi hbo hfresh hu htr
    refine ⟨t, ?_, ?_, by omega, rfl, hpi, ?_, fun w hw => rfl⟩
    · unfold vbrkRollback
      rw [dif_neg (by omega)]
    · exact fun g => hbo g (fun i h1 h2 => absurd h2 (by omega))
    · exact fun i h1 h2 => ((by omega : False)).elim
  | succ n ih =>
    intro rb t B0 u0 hn hrb hpi hbi hbo hfresh hu htr
    by_cases hlt : rb < q
    · unfold vbrkRollback
      rw [dif_pos hlt]
      dsimp only
      have hv := htr rb le_rfl hlt
      have hvala : ((brk + rb * PAGE_SIZE) % U32) % PAGE_SIZE = 0 := by
        simp only [PAGE_SIZE, U32] at hal ⊢
        omega
      obtain ⟨hr1, hrfr, hrc, hrt, hrv, hrpi, hrdir, hrnone, hrother⟩ :=
        unmap_page_effect hv hvala
      rw [hr1]
      rw [if_pos (show ps rb * PAGE_SIZE ≠ 0 by
        have := hnz rb hlt
        simp only [PAGE_SIZE]
        omega)]
      rw [hrfr]
      have hidx : ps rb * PAGE_SIZE / PAGE_SIZE = ps rb := by
        simp only [PAGE_SIZE]
        omega
      have hfr : free_frame t.fr (ps rb * PAGE_SIZE) = Except.ok
          { t.fr with bitmap := bitmap_clear t.fr.bitmap (ps rb)
                      usedFrames := t.fr.usedFrames - 1 } := by
        unfold free_frame
        rw [hidx]
        rw [if_neg (by simp only [PAGE_SIZE]; omega),
          if_neg (not_not_intro (hbi rb le_rfl hlt))]
      rw [hfr]
      dsimp only
      obtain ⟨t', hrec, c1, c2, c3, c4, c5, c6⟩ :=
        ih (rb + 1)
          { (unmap_page t ((brk + rb * PAGE_SIZE) % U32)).2 with
              fr := { t.fr with bitmap := bitmap_clear t.fr.bitmap (ps rb)
                                usedFrames := t.fr.usedFrames - 1 } }
          B0 u0 (by omega) (by omega)
          (by
            show (unmap_page t ((brk + rb * PAGE_SIZE) % U32)).2.pagingInit = true
            rw [hrpi]
            exact hpi)
          (by
            intro i h1 h2
            show bitmap_test (bitmap_clear t.fr.bitmap (ps rb)) (ps i) = true
            rw [bitmap_test_clear_other _ _ (hdist i rb h2 hlt (by omega))]
            exact hbi i (by omega) h2)
          (by
            intro g hg
            show bitmap_clear t.fr.bitmap (ps rb) g = B0 g
            simp only [bitmap_clear]
            rw [if_pos (hltM rb hlt)]
            by_cases hgf : g = ps rb
            · subst hgf
              rw [upd_same]
              exact (hfresh rb le_rfl hlt).symm
            · rw [upd_other _ _ _ hgf]
              refine hbo g (fun i h1 h2 => ?_)
              rcases Nat.eq_or_lt_of_le h1 with rfl | hgt
              · exact fun he => hgf he.symm
              · exact hg i (by omega) h2)
          (fun i h1 h2 => hfresh i (by omega) h2)
          (by
            show t.fr.usedFrames - 1 = u0 + (q - (rb + 1))
            omega)
          (by
            intro i h1 h2
            show virt_to_phys (unmap_page t ((brk + rb * PAGE_SIZE) % U32)).2
              ((brk + i * PAGE_SIZE) % U32) = some (ps i * PAGE_SIZE)
            rw [hrother _ (vaddr_slot_ne (by omega) (by omega) (by omega) hal)]
            exact htr i (by omega) h2)
      refine ⟨t', hrec, c1, c2, ?_, c4, ?_, ?_⟩
      · exact c3
      · intro i h1 h2
        rcases Nat.eq_or_lt_of_le h1 with rfl | hgt
        · have hpre := c6 ((brk + rb * PAGE_SIZE) % U32)
            (fun j hj1 hj2 => vaddr_slot_ne (by omega) (by omega) (by omega) hal)
          rw [hpre]
          exact hrnone
        · exact c5 i (by omega) h2
      · intro w hw
        have h6 := c6 w (fun j hj1 hj2 => hw j (by omega) hj2)
        rw [h6]
        exact hrother w (hw rb le_rfl hlt)
    · refine ⟨t, ?_, ?_, by omega, rfl, hpi, ?_, fun w hw => rfl⟩
      · unfold vbrkRollback
        rw [dif_neg hlt]
      · exact fun g => hbo g (fun i h1 h2 => absurd h2 (by omega))
      · exact fun i h1 h2 => ((by omega : False)).elim

/-- A successful `map_page` through an absent directory entry consumed one
`alloc_frame` (the fresh page table) whose result was nonzero. -/
theorem map_page_absent_fr {s s₂ : Sys} {v p fl : Nat}
    (hmap : map_page s v p fl = Except.ok s₂) (hd : s.dir (pd_index v) = none) :
    ¬ (alloc_frame s.fr).1 = 0 ∧ s₂.fr = (alloc_frame s.fr).2 := by
  unfold map_page at hmap
  by_cases hinit : s.pagingInit
  · rw [if_pos hinit, hd] at hmap
    dsimp only at hmap
    by_cases hz : (alloc_frame s.fr).1 = 0
    · rw [if_pos hz] at hmap
      exact absurd hmap (by simp)
    · rw [if_neg hz] at hmap
      injection hmap with hmap
      refine ⟨hz, ?_⟩
      rw [← hmap]
  · rw [if_neg hinit] at hmap
    exact absurd hmap (by simp)

/-- The exact result of `map_page` when the page table is absent and the
frame allocator hands out a table frame. -/
theorem map_page_absent_eq {s : Sys} {v : Nat} (p fl : Nat) {a : Nat} {fr' : FrameState}
    (hinit : s.pagingInit = true) (hd : s.dir (pd_index v) = none)
    (ha : alloc_frame s.fr = (a, fr')) (hanz : ¬ a = 0) :
    map_page s v p fl = Except.ok { s with
      fr := fr'
      dir := upd s.dir (pd_index v)
        (some (upd (fun _ => 0) (pt_index v) (make_pte p (orPresent fl)))) } := by
  unfold map_page
  rw [if_pos hinit, hd]
  dsimp only
  rw [ha]
  dsimp only
  rw [if_neg hanz]

/-- The per-page loop of `vbrk`, when it reports failure, has rolled the
frame allocator back to the base `(B0, u0)` it started from — up to the
fresh, pairwise distinct page-table frames `tc 0, …, tc (mt-1)` that
`map_page` installed for the range along the way — and leaves the whole
requested range unmapped.  `tb 0, …, tb (nt-1)` are the table frames
already installed by the loop so far. -/
theorem vbrkLoopF_fail_restores {brk pages : Nat} (hal : brk % PAGE_SIZE = 0)
    (hpg : pages < 1048576) :
    ∀ k p (s : Sys) (B0 : Nat → Bool) (u0 T nt : Nat) (ps tb : Nat → Nat) {s' : Sys},
      s.pagingInit = true →
      bitmap_test s.fr.bitmap 0 = true →
      s.fr.totalFrames = T → T ≤ MAX_FRAMES →
      p ≤ pages →
      (∀ i, i < p → virt_to_phys s ((brk + i * PAGE_SIZE) % U32) = some (ps i * PAGE_SIZE)) →
      (∀ i, p ≤ i → i < pages → virt_to_phys s ((brk + i * PAGE_SIZE) % U32) = none) →
      (∀ i j, i < p → j < p → ¬ i = j → ¬ ps i = ps j) →
      (∀ i, i < p → ¬ ps i = 0) →
      (∀ i, i < p → ps i < MAX_FRAMES) →
      (∀ i, i < p → bitmap_test s.fr.bitmap (ps i) = true) →
      (∀ i, i < p → B0 (ps i) = false) →
      (∀ j, j < nt → s.fr.bitmap (tb j) = true) →
      (∀ j, j < nt → tb j < MAX_FRAMES) →
      (∀ j, j < nt → B0 (tb j) = false) →
      (∀ j j', j < nt → j' < nt → ¬ j = j' → ¬ tb j = tb j') →
      (∀ i j, i < p → j < nt → ¬ ps i = tb j) →
      (∀ g, (∀ i, i < p → ¬ ps i = g) → (∀ j, j < nt → ¬ tb j = g) →
        s.fr.bitmap g = B0 g) →
      s.fr.usedFrames = u0 + p + nt →
      vbrkLoopF brk pages k p s = Except.ok (false, s') →
      ∃ (mt : Nat) (tc : Nat → Nat),
        (∀ j, j < mt → B0 (tc j) = false) ∧
        (∀ j j', j < mt → j' < mt → ¬ j = j' → ¬ tc j = tc j') ∧
        (∀ j, j < mt → s'.fr.bitmap (tc j) = true) ∧
        (∀ g, (∀ j, j < mt → ¬ tc j = g) → s'.fr.bitmap g = B0 g) ∧
        s'.fr.usedFrames = u0 + mt ∧
        s'.fr.totalFrames = T ∧
        (∀ i, i < pages → virt_to_phys s' ((brk + i * PAGE_SIZE) % U32) = none) := by
  intro k
  induction k with
  | zero =>
    intro p s B0 u0 T nt ps tb s' h1 h3 h4 h4b h5 h6 h7 h8 h9 h10 h11 h13 t1 t1b t2 t3 t4 h12 h14 h
    rw [vbrkLoopF_zero] at h
    injection h with h
    rw [Prod.mk.injEq] at h
    exact absurd h.1 (by simp)
  | succ k ih =>
    intro p s B0 u0 T nt ps tb s' h1 h3 h4 h4b h5 h6 h7 h8 h9 h10 h11 h13 t1 t1b t2 t3 t4 h12 h14 h
    rw [vbrkLoopF_succ] at h
    by_cases hplt : p < pages
    · rw [if_pos hplt] at h
      dsimp only at h
      by_cases hz : (alloc_frame s.fr).1 = 0
      · have ha0 : alloc_frame s.fr = (0, s.fr) := alloc_frame_zero_state h3 hz
        rw [ha0] at h
        dsimp only at h
        rw [if_pos rfl] at h
        rw [show ({ s with fr := s.fr } : Sys) = s from rfl] at h
        classical
        have hB1other : ∀ g, (∀ i, 0 ≤ i → i < p → ¬ ps i = g) →
            s.fr.bitmap g = if hgt : ∃ j, j < nt ∧ tb j = g then true else B0 g := by
          intro g hg
          by_cases hex : ∃ j, j < nt ∧ tb j = g
          · rw [dif_pos hex]
            obtain ⟨j, hj, hje⟩ := hex
            rw [← hje]
            exact t1 j hj
          · rw [dif_neg hex]
            exact h12 g (fun i hi => hg i (Nat.zero_le i) hi) (fun j hj hje => hex ⟨j, hj, hje⟩)
        have hB1fresh : ∀ i, 0 ≤ i → i < p →
            (if hgt : ∃ j, j < nt ∧ tb j = ps i then true else B0 (ps i)) = false := by
          intro i hi1 hi2
          rw [dif_neg (show ¬ ∃ j, j < nt ∧ tb j = ps i from
            fun ⟨j, hj, hje⟩ => t4 i j hi2 hj hje.symm)]
          exact h13 i hi2
        obtain ⟨t', hrbeq, c1, c2, c3, c4, c5, c6⟩ :=
          vbrkRollback_restores hal (le_of_lt hplt) hpg h8 h9 h10 p 0 s
            (fun x => if hgt : ∃ j, j < nt ∧ tb j = x then true else B0 x) (u0 + nt)
            (by omega) (by omega) h1
            (fun i hi1 hi2 => h11 i hi2)
            hB1other
            hB1fresh
            (by omega)
            (fun i hi1 hi2 => h6 i hi2)
        rw [hrbeq] at h
        simp only [Except.map] at h
        injection h with h
        rw [Prod.mk.injEq] at h
        rw [← h.2]
        refine ⟨nt, tb, t2, t3, ?_, ?_, c2, c3.trans h4, ?_⟩
        · intro j hj
          rw [c1 (tb j), dif_pos (show ∃ j', j' < nt ∧ tb j' = tb j from ⟨j, hj, rfl⟩)]
        · intro g hg
          rw [c1 g, dif_neg (show ¬ ∃ j, j < nt ∧ tb j = g from
            fun ⟨j, hj, hje⟩ => hg j hj hje)]
        · intro i hi
          by_cases hip : i < p
          · exact c5 i (Nat.zero_le i) hip
          · rw [c6 ((brk + i * PAGE_SIZE) % U32)
              (fun j hj1 hj2 => vaddr_slot_ne (by omega) (by omega) (by omega) hal)]
            exact h7 i (by omega) hi
      · obtain ⟨f, halloc, hfbit, hfM, hfnz⟩ := alloc_frame_nonzero_spec (by omega) hz
        rw [halloc] at h
        dsimp only at h
        rw [if_neg (show ¬ f * PAGE_SIZE = 0 by simp only [PAGE_SIZE]; omega)] at h
        have hpsf : ∀ i, i < p → ¬ ps i = f := by
          intro i hi he
          have hb := h11 i hi
          rw [he] at hb
          exact absurd (hfbit.symm.trans hb) (by simp)
        have hbmf : s.fr.bitmap f = false := by
          have hft := hfbit
          simp only [bitmap_test, if_pos hfM] at hft
          exact hft
        have htbf : ∀ j, j < nt → ¬ tb j = f := by
          intro j hj he
          have hb := t1 j hj
          rw [he, hbmf] at hb
          exact absurd hb (by simp)
        rcases hmp : map_page { s with fr := { s.fr with bitmap := bitmap_set s.fr.bitmap f
                                                         usedFrames := s.fr.usedFrames + 1 } }
            ((brk + p * PAGE_SIZE) % U32) (f * PAGE_SIZE) (PAGE_PRESENT + PAGE_WRITABLE)
            with e | s₂
        · rw [hmp] at h
          exact absurd h (by simp)
        · rw [hmp] at h
          dsimp only at h
          obtain ⟨-, hpi₂, -, -, -, -, -, hfrpres⟩ := map_page_char hmp
          have htrs : ∀ i, i < p →
              virt_to_phys s₂ ((brk + i * PAGE_SIZE) % U32) = some (ps i * PAGE_SIZE) := by
            intro i hi
            rw [map_page_translate_other hmp _
              (vaddr_slot_ne (by omega) (by omega) (by omega) hal)]
            exact h6 i hi
          have htrp : virt_to_phys s₂ ((brk + p * PAGE_SIZE) % U32) = some (f * PAGE_SIZE) := by
            rw [map_page_translate_same hmp ((brk + p * PAGE_SIZE) % U32) rfl rfl
              (by simp only [PAGE_SIZE]; omega)
              (by simp only [PAGE_SIZE, MAX_FRAMES, U32] at hfM ⊢; omega)]
            rw [show ((brk + p * PAGE_SIZE) % U32) % PAGE_SIZE = 0 from by
              simp only [PAGE_SIZE, U32] at hal ⊢
              omega]
            rw [Nat.add_zero]
          have htrf : ∀ i, p + 1 ≤ i → i < pages →
              virt_to_phys s₂ ((brk + i * PAGE_SIZE) % U32) = none := by
            intro i hi1 hi2
            rw [map_page_translate_other hmp _
              (vaddr_slot_ne (by omega) (by omega) (by omega) hal)]
            exact h7 i (by omega) hi2
          rcases hdp : s.dir (pd_index ((brk + p * PAGE_SIZE) % U32)) with _ | tB
          · -- the call installed a fresh page table
            obtain ⟨hz2, hfr2a⟩ := map_page_absent_fr hmp hdp
            have hz2' : ¬ (alloc_frame { s.fr with bitmap := bitmap_set s.fr.bitmap f
                                                   usedFrames := s.fr.usedFrames + 1 }).1 = 0 :=
              hz2
            obtain ⟨g, halloc2, hgbit0, hgM, hgnz⟩ :=
              alloc_frame_nonzero_spec
                (s := { s.fr with bitmap := bitmap_set s.fr.bitmap f
                                  usedFrames := s.fr.usedFrames + 1 })
                (by show s.fr.totalFrames ≤ MAX_FRAMES; omega) hz2'
            have hgbit : bitmap_test (bitmap_set s.fr.bitmap f) g = false := hgbit0
            have hgf : ¬ g = f := by
              intro he
              rw [he, bitmap_test_set_self _ hfM] at hgbit
              exact absurd hgbit (by simp)
            have hgraw : s.fr.bitmap g = false := by
              have hb := hgbit
              rw [bitmap_test_set_other _ _ hgf] at hb
              simp only [bitmap_test, if_pos hgM] at hb
              exact hb
            have hgtest : bitmap_test s.fr.bitmap g = false := by
              simp only [bitmap_test, if_pos hgM]
              exact hgraw
            have hgps : ∀ i, i < p → ¬ ps i = g := by
              intro i hi he
              have hb := h11 i hi
              rw [he, hgtest] at hb
              exact absurd hb (by simp)
            have hgtb : ∀ j, j < nt → ¬ tb j = g := by
              intro j hj he
              have hb := t1 j hj
              rw [he, hgraw] at hb
              exact absurd hb (by simp)
            have hfr2b : s₂.fr =
                (alloc_frame { s.fr with bitmap := bitmap_set s.fr.bitmap f
                                         usedFrames := s.fr.usedFrames + 1 }).2 := hfr2a
            have hfr2 : s₂.fr = { s.fr with bitmap := bitmap_set (bitmap_set s.fr.bitmap f) g
                                            usedFrames := s.fr.usedFrames + 1 + 1 } := by
              rw [hfr2b, halloc2]
            refine ih (p + 1) s₂ B0 u0 T (nt + 1) (upd ps p f) (upd tb nt g)
              hpi₂ ?_ ?_ h4b (by omega) ?_ htrf ?_ ?_ ?_ ?_ ?_ ?_ ?_ ?_ ?_ ?_ ?_ ?_ h
            · rw [hfr2]
              show bitmap_test (bitmap_set (bitmap_set s.fr.bitmap f) g) 0 = true
              rw [bitmap_test_set_other _ _ (show (0:Nat) ≠ g by omega),
                bitmap_test_set_other _ _ (show (0:Nat) ≠ f by omega)]
              exact h3
            · rw [hfr2]
              exact h4
            · intro i hi
              by_cases hip : i = p
              · subst hip
                rw [upd_same]
                exact htrp
              · rw [upd_other _ _ _ hip]
                exact htrs i (by omega)
            · intro i j hi hj hne
              by_cases hip : i = p
              · subst hip
                rw [upd_same]
                have hjp : ¬ j = i := fun hq => hne (by rw [hq])
                rw [upd_other _ _ _ hjp]
                intro he
                exact hpsf j (by omega) (by rw [he])
              · rw [upd_other _ _ _ hip]
                by_cases hjp : j = p
                · subst hjp
                  rw [upd_same]
                  exact hpsf i (by omega)
                · rw [upd_other _ _ _ hjp]
                  exact h8 i j (by omega) (by omega) hne
            · intro i hi
              by_cases hip : i = p
              · subst hip
                rw [upd_same]
                exact hfnz
              · rw [upd_other _ _ _ hip]
                exact h9 i (by omega)
            · intro i hi
              by_cases hip : i = p
              · subst hip
                rw [upd_same]
                exact hfM
              · rw [upd_other _ _ _ hip]
                exact h10 i (by omega)
            · intro i hi
              rw [hfr2]
              by_cases hip : i = p
              · subst hip
                rw [upd_same]
                show bitmap_test (bitmap_set (bitmap_set s.fr.bitmap f) g) f = true
                rw [bitmap_test_set_other _ _ (fun hq => hgf hq.symm)]
                exact bitmap_test_set_self _ hfM
              · rw [upd_other _ _ _ hip]
                show bitmap_test (bitmap_set (bitmap_set s.fr.bitmap f) g) (ps i) = true
                rw [bitmap_test_set_other _ _ (hgps i (by omega)),
                  bitmap_test_set_other _ _ (hpsf i (by omega))]
                exact h11 i (by omega)
            · intro i hi
              by_cases hip : i = p
              · subst hip
                rw [upd_same]
                rw [← h12 f hpsf htbf]
                exact hbmf
              · rw [upd_other _ _ _ hip]
                exact h13 i (by omega)
            · intro j hj
              rw [hfr2]
              by_cases hjn : j = nt
              · subst hjn
                rw [upd_same]
                show bitmap_set (bitmap_set s.fr.bitmap f) g g = true
                simp only [bitmap_set]
                rw [if_pos hgM, upd_same]
              · rw [upd_other _ _ _ hjn]
                show bitmap_set (bitmap_set s.fr.bitmap f) g (tb j) = true
                simp only [bitmap_set]
                rw [if_pos hgM, upd_other _ _ _ (hgtb j (by omega)), if_pos hfM,
                  upd_other _ _ _ (htbf j (by omega))]
                exact t1 j (by omega)
            · intro j hj
              by_cases hjn : j = nt
              · subst hjn
                rw [upd_same]
                exact hgM
              · rw [upd_other _ _ _ hjn]
                exact t1b j (by omega)
            · intro j hj
              by_cases hjn : j = nt
              · subst hjn
                rw [upd_same]
                rw [← h12 g hgps hgtb]
                exact hgraw
              · rw [upd_other _ _ _ hjn]
                exact t2 j (by omega)
            · intro j j' hj hj' hne
              by_cases hjn : j = nt
              · subst hjn
                rw [upd_same]
                have hj'n : ¬ j' = j := fun hq => hne (by rw [hq])
                rw [upd_other _ _ _ hj'n]
                intro he
                exact hgtb j' (by omega) (by rw [he])
              · rw [upd_other _ _ _ hjn]
                by_cases hj'n : j' = nt
                · subst hj'n
                  rw [upd_same]
                  exact hgtb j (by omega)
                · rw [upd_other _ _ _ hj'n]
                  exact t3 j j' (by omega) (by omega) hne
            · intro i j hi hj
              by_cases hip : i = p
              · subst hip
                rw [upd_same]
                by_cases hjn : j = nt
                · subst hjn
                  rw [upd_same]
                  exact fun he => hgf he.symm
                · rw [upd_other _ _ _ hjn]
                  exact fun he => htbf j (by omega) he.symm
              · rw [upd_other _ _ _ hip]
                by_cases hjn : j = nt
                · subst hjn
                  rw [upd_same]
                  exact hgps i (by omega)
                · rw [upd_other _ _ _ hjn]
                  exact t4 i j (by omega) (by omega)
            · intro x hg1 hg2
              rw [hfr2]
              have hxf : x ≠ f := by
                have hx := hg1 p (by omega)
                rw [upd_same] at hx
                exact fun hq => hx hq.symm
              have hxg : x ≠ g := by
                have hx := hg2 nt (by omega)
                rw [upd_same] at hx
                exact fun hq => hx hq.symm
              show bitmap_set (bitmap_set s.fr.bitmap f) g x = B0 x
              simp only [bitmap_set]
              rw [if_pos hgM, upd_other _ _ _ hxg, if_pos hfM, upd_other _ _ _ hxf]
              refine h12 x (fun i hi => ?_) (fun j hj => ?_)
              · have hx := hg1 i (by omega)
                rwa [upd_other _ _ _ (by omega : ¬ i = p)] at hx
              · have hx := hg2 j (by omega)
                rwa [upd_other _ _ _ (by omega : ¬ j = nt)] at hx
            · rw [hfr2]
              show s.fr.usedFrames + 1 + 1 = u0 + (p + 1) + (nt + 1)
              omega
          · -- the page table already existed
            have hfr2 : s₂.fr = { s.fr with bitmap := bitmap_set s.fr.bitmap f
                                            usedFrames := s.fr.usedFrames + 1 } :=
              hfrpres tB hdp
            refine ih (p + 1) s₂ B0 u0 T nt (upd ps p f) tb
              hpi₂ ?_ ?_ h4b (by omega) ?_ htrf ?_ ?_ ?_ ?_ ?_ ?_ ?_ ?_ ?_ ?_ ?_ ?_ h
            · rw [hfr2]
              show bitmap_test (bitmap_set s.fr.bitmap f) 0 = true
              rw [bitmap_test_set_other _ _ (show (0:Nat) ≠ f by omega)]
              exact h3
            · rw [hfr2]
              exact h4
            · intro i hi
              by_cases hip : i = p
              · subst hip
                rw [upd_same]
                exact htrp
              · rw [upd_other _ _ _ hip]
                exact htrs i (by omega)
            · intro i j hi hj hne
              by_cases hip : i = p
              · subst hip
                rw [upd_same]
                have hjp : ¬ j = i := fun hq => hne (by rw [hq])
                rw [upd_other _ _ _ hjp]
                intro he
                exact hpsf j (by omega) (by rw [he])
              · rw [upd_other _ _ _ hip]
                by_cases hjp : j = p
                · subst hjp
                  rw [upd_same]
                  exact hpsf i (by omega)
                · rw [upd_other _ _ _ hjp]
                  exact h8 i j (by omega) (by omega) hne
            · intro i hi
              by_cases hip : i = p
              · subst hip
                rw [upd_same]
                exact hfnz
              · rw [upd_other _ _ _ hip]
                exact h9 i (by omega)
            · intro i hi
              by_cases hip : i = p
              · subst hip
                rw [upd_same]
                exact hfM
              · rw [upd_other _ _ _ hip]
                exact h10 i (by omega)
            · intro i hi
              rw [hfr2]
              by_cases hip : i = p
              · subst hip
                rw [upd_same]
                show bitmap_test (bitmap_set s.fr.bitmap f) f = true
                exact bitmap_test_set_self _ hfM
              · rw [upd_other _ _ _ hip]
                show bitmap_test (bitmap_set s.fr.bitmap f) (ps i) = true
                rw [bitmap_test_set_other _ _ (hpsf i (by omega))]
                exact h11 i (by omega)
            · intro i hi
              by_cases hip : i = p
              · subst hip
                rw [upd_same]
                rw [← h12 f hpsf htbf]
                exact hbmf
              · rw [upd_other _ _ _ hip]
                exact h13 i (by omega)
            · intro j hj
              rw [hfr2]
              show bitmap_set s.fr.bitmap f (tb j) = true
              simp only [bitmap_set]
              rw [if_pos hfM, upd_other _ _ _ (htbf j hj)]
              exact t1 j hj
            · exact t1b
            · exact t2
            · exact t3
            · intro i j hi hj
              by_cases hip : i = p
              · subst hip
                rw [upd_same]
                exact fun he => htbf j hj he.symm
              · rw [upd_other _ _ _ hip]
                exact t4 i j (by omega) hj
            · intro x hg1 hg2
              rw [hfr2]
              have hxf : x ≠ f := by
                have hx := hg1 p (by omega)
                rw [upd_same] at hx
                exact fun hq => hx hq.symm
              show bitmap_set s.fr.bitmap f x = B0 x
              simp only [bitmap_set]
              rw [if_pos hfM, upd_other _ _ _ hxf]
              refine h12 x (fun i hi => ?_) hg2
              have hx := hg1 i (by omega)
              rwa [upd_other _ _ _ (by omega : ¬ i = p)] at hx
            · rw [hfr2]
              show s.fr.usedFrames + 1 = u0 + (p + 1) + nt
              omega
    · rw [if_neg hplt] at h
      injection h with h
      rw [Prod.mk.injEq] at h
      exact absurd h.1 (by simp)

/-- C2: if during `vbrk(increment)` a per-page frame allocation fails after
some pages were committed, `vbrk` returns `0`, leaves the break cursor and
the vmalloc table unchanged, leaves the whole requested range unmapped, and
restores the frame allocator: every committed data frame is unmapped and
freed again, and only the fresh page-table frames that `map_page` installed
during this call remain allocated. -/
theorem C2_vbrk_rollback :
    ∀ (s : Sys) (inc : Nat) (s' : Sys),
      vbrk s inc = Except.ok (0, s') →
      ¬ inc = 0 →
      ¬ s.vbrkPtr = 0 →
      s.pagingInit = true →
      s.vbrkPtr % PAGE_SIZE = 0 →
      bitmap_test s.fr.bitmap 0 = true →
      s.fr.totalFrames ≤ MAX_FRAMES →
      (∀ i, i < align_up inc PAGE_SIZE / PAGE_SIZE →
        virt_to_phys s ((s.vbrkPtr + i * PAGE_SIZE) % U32) = none) →
      s'.vbrkPtr = s.vbrkPtr ∧ s'.vtab = s.vtab ∧ s'.vcount = s.vcount ∧
      (∀ i, i < align_up inc PAGE_SIZE / PAGE_SIZE →
        virt_to_phys s' ((s.vbrkPtr + i * PAGE_SIZE) % U32) = none) ∧
      s'.fr.totalFrames = s.fr.totalFrames ∧
      ∃ (nt : Nat) (tb : Nat → Nat),
        (∀ j, j < nt → s.fr.bitmap (tb j) = false ∧ s'.fr.bitmap (tb j) = true) ∧
        (∀ j j', j < nt → j' < nt → ¬ j = j' → ¬ tb j = tb j') ∧
        (∀ g, (∀ j, j < nt → ¬ tb j = g) → s'.fr.bitmap g = s.fr.bitmap g) ∧
        s'.fr.usedFrames = s.fr.usedFrames + nt := by
  intro s inc s' h hinc hbrknz hpi hal hbit0 htot hpre
  unfold vbrk at h
  rw [if_neg hinc] at h
  dsimp only at h
  by_cases hceil : (s.vbrkPtr + align_up inc PAGE_SIZE / PAGE_SIZE * PAGE_SIZE) % U32
      > VMALLOC_BASE + VMALLOC_MAX_SIZE
  · rw [if_pos hceil] at h
    injection h with h
    rw [Prod.mk.injEq] at h
    rw [← h.2]
    exact ⟨rfl, rfl, rfl, hpre, rfl, 0, fun _ => 0,
      fun j hj => absurd hj (by omega),
      fun j j' hj hj' hne => absurd hj (by omega),
      fun g hg => rfl, by omega⟩
  · rw [if_neg hceil] at h
    rcases hl : vbrkLoop s s.vbrkPtr (align_up inc PAGE_SIZE / PAGE_SIZE) 0
        with e | ⟨b, s₁⟩
    · rw [hl] at h
      exact absurd h (by simp)
    · rw [hl] at h
      cases b with
      | true =>
        dsimp only at h
        injection h with h
        rw [Prod.mk.injEq] at h
        exact absurd h.1 hbrknz
      | false =>
        dsimp only at h
        injection h with h
        rw [Prod.mk.injEq] at h
        obtain ⟨hvb, hvt, hvc⟩ := vbrkLoop_vfields hl
        have hlf : vbrkLoopF s.vbrkPtr (align_up inc PAGE_SIZE / PAGE_SIZE)
            (align_up inc PAGE_SIZE / PAGE_SIZE) 0 s = Except.ok (false, s₁) := by
          unfold vbrkLoop at hl
          rw [Nat.sub_zero] at hl
          exact hl
        have hpg : align_up inc PAGE_SIZE / PAGE_SIZE < 1048576 := by
          simp only [align_up, PAGE_SIZE, U32]
          omega
        obtain ⟨mt, tc, d1, d2, d3, d4, d5, d6, d7⟩ :=
          vbrkLoopF_fail_restores hal hpg (align_up inc PAGE_SIZE / PAGE_SIZE) 0 s
            s.fr.bitmap s.fr.usedFrames s.fr.totalFrames 0 (fun _ => 0) (fun _ => 0)
            hpi hbit0 rfl htot (Nat.zero_le _)
            (fun i hi => absurd hi (by omega))
            (fun i hi1 hi2 => hpre i hi2)
            (fun i j hi hj hne => absurd hi (by omega))
            (fun i hi => absurd hi (by omega))
            (fun i hi => absurd hi (by omega))
            (fun i hi => absurd hi (by omega))
            (fun i hi => absurd hi (by omega))
            (fun j hj => absurd hj (by omega))
            (fun j hj => absurd hj (by omega))
            (fun j hj => absurd hj (by omega))
            (fun j j' hj hj' hne => absurd hj (by omega))
            (fun i j hi hj => absurd hi (by omega))
            (fun g hg1 hg2 => rfl)
            (by omega) hlf
        rw [← h.2]
        exact ⟨hvb, hvt, hvc, fun i hi => d7 i hi, d6, mt, tc,
          fun j hj => ⟨d1 j hj, d3 j hj⟩, d2, d4, d5⟩

/-- Base bitmap of the C2 scenario: every frame used except 257 and 258. -/
def c2bm : Nat → Bool := fun f => decide (¬ f = 257 ∧ ¬ f = 258)

/-- C2 scenario: vmalloc cursor at the region base, whose directory slot is
still empty, two free frames (one data page + one page table), so the second
data-frame allocation of a two-page `vbrk` fails. -/
def c2w : Sys :=
  ⟨⟨c2bm, 512, 510⟩, true,
   fun d => if d < 256 then some (fun _ => 0) else none,
   VMALLOC_BASE, fun _ => ⟨0, 0, false⟩, 0⟩

def c2fr1 : FrameState := ⟨bitmap_set c2bm 257, 512, 511⟩

def c2fr2 : FrameState := ⟨bitmap_set (bitmap_set c2bm 257) 258, 512, 512⟩

/-- The fresh page table installed for the first page. -/
def c2tbl : Nat → Nat := upd (fun _ => 0) 0 1052675

def c2dir1 : Nat → Option (Nat → Nat) :=
  upd (fun d => if d < 256 then some (fun _ => 0) else none) 832 (some c2tbl)

def c2fr3 : FrameState :=
  ⟨bitmap_clear (bitmap_set (bitmap_set c2bm 257) 258) 257, 512, 511⟩

def c2dir2 : Nat → Option (Nat → Nat) := upd c2dir1 832 (some (upd c2tbl 0 0))

/-- End state of the failing `vbrk` on `c2w`: the data frame 257 was freed
again, only the page-table frame 258 stays allocated. -/
def c2sr : Sys := ⟨c2fr3, true, c2dir2, VMALLOC_BASE, fun _ => ⟨0, 0, false⟩, 0⟩

theorem c2w_run : vbrk c2w 8192 = Except.ok (0, c2sr) := by
  have hff : findFree c2w.fr.bitmap 256 c2w.fr.totalFrames = some 257 := by
    unfold findFree
    rw [dif_pos (by decide), if_pos (by decide)]
    unfold findFree
    rw [dif_pos (by decide), if_neg (by decide)]
  have halloc : alloc_frame c2w.fr = (1052672, c2fr1) := alloc_frame_eq_find1 hff
  have hff2 : findFree c2fr1.bitmap 256 c2fr1.totalFrames = some 258 := by
    unfold findFree
    rw [dif_pos (by decide), if_pos (by decide)]
    unfold findFree
    rw [dif_pos (by decide), if_pos (by decide)]
    unfold findFree
    rw [dif_pos (by decide), if_neg (by decide)]
  have halloc2 : alloc_frame c2fr1 = (1056768, c2fr2) := alloc_frame_eq_find1 hff2
  have hmap : map_page { c2w with fr := c2fr1 } ((c2w.vbrkPtr + 0 * PAGE_SIZE) % U32)
      1052672 (PAGE_PRESENT + PAGE_WRITABLE) =
      Except.ok { c2w with fr := c2fr2
                           dir := c2dir1 } :=
    map_page_absent_eq 1052672 (PAGE_PRESENT + PAGE_WRITABLE) rfl rfl halloc2 (by decide)
  have hnone1 : findFree c2fr2.bitmap 256 512 = none :=
    findFree_all_used (fun f h1 h2 => by
      by_cases hf : f = 258
      · subst hf
        exact bitmap_test_set_self _ (by decide)
      · show bitmap_test (bitmap_set (bitmap_set c2bm 257) 258) f = true
        rw [bitmap_test_set_other _ _ hf]
        by_cases hf2 : f = 257
        · subst hf2
          exact bitmap_test_set_self _ (by decide)
        · rw [bitmap_test_set_other _ _ hf2]
          simp only [bitmap_test, c2bm]
          rw [if_pos (by simp only [MAX_FRAMES]; omega)]
          exact decide_eq_true ⟨hf2, hf⟩)
  have hnone2 : findFree c2fr2.bitmap 0 256 = none :=
    findFree_all_used (fun f h1 h2 => by
      show bitmap_test (bitmap_set (bitmap_set c2bm 257) 258) f = true
      rw [bitmap_test_set_other _ _ (by omega : f ≠ 258),
        bitmap_test_set_other _ _ (by omega : f ≠ 257)]
      simp only [bitmap_test, c2bm]
      rw [if_pos (by simp only [MAX_FRAMES]; omega)]
      exact decide_eq_true ⟨by omega, by omega⟩)
  have halloc3 : alloc_frame c2fr2 = (0, c2fr2) := alloc_frame_eq_none hnone1 hnone2
  have hun : unmap_page { c2w with fr := c2fr2
                                   dir := c2dir1 } ((c2w.vbrkPtr + 0 * PAGE_SIZE) % U32) =
      (1052672, { c2w with fr := c2fr2
                           dir := c2dir2 }) :=
    unmap_page_present (t := c2tbl) rfl rfl (by decide)
  have hfree : free_frame c2fr2 1052672 = Except.ok c2fr3 := rfl
  have hrb : vbrkRollback { c2w with fr := c2fr2
                                     dir := c2dir1 } c2w.vbrkPtr 1 0 =
      Except.ok { c2w with fr := c2fr3
                           dir := c2dir2 } := by
    unfold vbrkRollback
    rw [dif_pos (by decide : (0:Nat) < 1)]
    dsimp only
    rw [hun]
    dsimp only
    rw [if_pos (by decide : (1052672:Nat) ≠ 0), hfree]
    dsimp only
    unfold vbrkRollback
    rw [dif_neg (by decide : ¬ (1:Nat) < 1)]
  have hloop : vbrkLoop c2w c2w.vbrkPtr 2 0 =
      Except.ok (false, { c2w with fr := c2fr3
                                   dir := c2dir2 }) := by
    show vbrkLoopF c2w.vbrkPtr 2 (2 - 0) 0 c2w = _
    rw [Nat.sub_zero, vbrkLoopF_succ, if_pos (by decide : (0:Nat) < 2)]
    dsimp only
    rw [halloc]
    dsimp only
    rw [if_neg (by decide : ¬ (1052672 : Nat) = 0), hmap]
    dsimp only
    rw [vbrkLoopF_succ, if_pos (by decide : (1:Nat) < 2)]
    dsimp only
    rw [halloc3]
    dsimp only
    rw [if_pos (rfl : (0:Nat) = 0)]
    rw [hrb]
    simp only [Except.map]
  unfold vbrk
  rw [if_neg (by decide : ¬ (8192:Nat) = 0)]
  dsimp only
  rw [(by decide : align_up 8192 PAGE_SIZE / PAGE_SIZE = 2)]
  rw [if_neg (by decide :
    ¬ (c2w.vbrkPtr + 2 * PAGE_SIZE) % U32 > VMALLOC_BASE + VMALLOC_MAX_SIZE)]
  rw [hloop]
  rfl

/-- C2 witness: the rollback property instantiated on a concrete two-page
request from `c2w`, whose first page installs a fresh page table and whose
second data-frame allocation fails. -/
theorem C2_vbrk_rollback_witness :
    (vbrk c2w 8192 = Except.ok (0, c2sr) ∧ ¬ (8192:Nat) = 0 ∧ ¬ c2w.vbrkPtr = 0 ∧
      c2w.pagingInit = true ∧ c2w.vbrkPtr % PAGE_SIZE = 0 ∧
      bitmap_test c2w.fr.bitmap 0 = true ∧ c2w.fr.totalFrames ≤ MAX_FRAMES ∧
      (∀ i, i < align_up 8192 PAGE_SIZE / PAGE_SIZE →
        virt_to_phys c2w ((c2w.vbrkPtr + i * PAGE_SIZE) % U32) = none)) ∧
    (c2sr.vbrkPtr = c2w.vbrkPtr ∧ c2sr.vtab = c2w.vtab ∧ c2sr.vcount = c2w.vcount ∧
      (∀ i, i < align_up 8192 PAGE_SIZE / PAGE_SIZE →
        virt_to_phys c2sr ((c2w.vbrkPtr + i * PAGE_SIZE) % U32) = none) ∧
      c2sr.fr.totalFrames = c2w.fr.totalFrames ∧
      ∃ (nt : Nat) (tb : Nat → Nat),
        (∀ j, j < nt → c2w.fr.bitmap (tb j) = false ∧ c2sr.fr.bitmap (tb j) = true) ∧
        (∀ j j', j < nt → j' < nt → ¬ j = j' → ¬ tb j = tb j') ∧
        (∀ g, (∀ j, j < nt → ¬ tb j = g) → c2sr.fr.bitmap g = c2w.fr.bitmap g) ∧
        c2sr.fr.usedFrames = c2w.fr.usedFrames + nt) :=
  ⟨⟨c2w_run, by decide, by decide, rfl, by decide, by decide, by decide,
    by
      intro i hi
      rw [(by decide : align_up 8192 PAGE_SIZE / PAGE_SIZE = 2)] at hi
      interval_cases i <;> rfl⟩,
   C2_vbrk_rollback c2w 8192 c2sr c2w_run (by decide) (by decide) rfl (by decide)
     (by decide) (by decide)
     (by
       intro i hi
       rw [(by decide : align_up 8192 PAGE_SIZE / PAGE_SIZE = 2)] at hi
       interval_cases i <;> rfl)⟩

/-- C10: freeing the null pointer is a silent no-op for both `kfree` and
`vfree`: the state is returned unchanged and no panic occurs. -/
theorem C10_null_frees_are_noops :
    (∀ h : HeapState, kfree h 0 = Except.ok h) ∧
    (∀ s : Sys, vfree s 0 = Except.ok s) :=
  ⟨fun h => by simp [kfree], fun s => by simp [vfree]⟩

end TacOS
